import Mathlib

/-!
# lino: stake ledger and donation settlement

A shallow embedding of the vote manager (`x/vote/manager.go`) and of the
donation handlers (`x/post/handler.go`, `tx/post/handler.go`), with the
properties of their specification stated and settled over it.

Go methods mutate the key-value store behind `ctx` and return an `sdk.Error`
(or `nil`).  Here every operation takes the state and returns the error (or
`none`) TOGETHER with the state the store is left in, so a write made before
an error is returned stays visible, as it does in Go.
-/

namespace Lino

/-! ## Key-value store -/

/-- Modelled from the spec: the key-value store collaborator (the spec's
"Persisted layout": records addressed by unique keys).  The Go `KVStore` is
not part of the sources; it is a finite map, kept here as an association list
whose first binding of a key is the live one. -/
abbrev KV (K V : Type) := List (K × V)

namespace KV

variable {K V : Type} [DecidableEq K]

/-- Read a key (`store.Get`): `none` when no record is stored. -/
def get : KV K V → K → Option V
  | [], _ => none
  | (k', v) :: t, k => if k' = k then some v else get t k

/-- Write a key (`store.Set`): replaces the live binding or appends one. -/
def set : KV K V → K → V → KV K V
  | [], k, v => [(k, v)]
  | (k', v') :: t, k, v => if k' = k then (k, v) :: t else (k', v') :: set t k v

/-- Remove a key (`store.Delete`). -/
def delete (m : KV K V) (k : K) : KV K V :=
  m.filter (fun p => decide (p.1 ≠ k))

/-- Does a key exist (`store.Has`)? -/
def has (m : KV K V) (k : K) : Bool := (get m k).isSome

/-- The sum of `f` over the bindings whose key satisfies `P`. -/
def total (P : K → Bool) (f : V → Int) (m : KV K V) : Int :=
  ((m.filter (fun p => P p.1)).map (fun p => f p.2)).sum

end KV

/-! ## Coins -/

abbrev AccountKey := String
abbrev ProposalKey := String

/-- Modelled from the spec: the coin type `types.Coin`, whose declaration is
not part of the sources.  Spec 4.1: an integer amount in minimal units with
exact `Plus`, `Minus`, `IsZero`, `IsGTE`, `IsNotNegative`; a negative
difference is for the caller to exclude.  The vote manager indeed subtracts
with `Minus` and then asks `IsNotNegative` of the difference
(`IsLegalDelegatorWithdraw`), so the amount is a signed integer and `Minus`
does not saturate. -/
structure Coin where
  Amount : Int
  deriving DecidableEq, Repr

namespace Coin

def NewCoinFromInt64 (n : Int) : Coin := ⟨n⟩
def Plus (a b : Coin) : Coin := ⟨a.Amount + b.Amount⟩
def Minus (a b : Coin) : Coin := ⟨a.Amount - b.Amount⟩
def IsZero (a : Coin) : Bool := decide (a.Amount = 0)
def IsGTE (a b : Coin) : Bool := decide (b.Amount ≤ a.Amount)
def IsNotNegative (a : Coin) : Bool := decide (0 ≤ a.Amount)
/-- Conversion `coin.ToRat()`. -/
def ToRat (a : Coin) : ℚ := (a.Amount : ℚ)

end Coin

/-- Modelled from the spec: `types.RatToCoin` (and `sdk.Rat.Evaluate` in the
`tx/` tree), which are not part of the sources.  Spec 4.1: applying a rate
"truncates (never rounds up)"; spec 8 writes it `floor`. -/
def RatToCoin (r : ℚ) : Coin := ⟨Rat.floor r⟩

/-! ## Vote store -/

/-- Errors the vote manager returns: the constructors it names
(`ErrVoteAlreadyExist`, `ErrInsufficientDeposit`, `ErrInvalidCoin`) and one
error for each read of the storage or of the parameters that can fail. -/
inductive VoteError where
  | ErrVoteAlreadyExist
  | ErrInsufficientDeposit
  | ErrInvalidCoin
  | ErrGetVoter
  | ErrGetDelegation
  | ErrGetVote
  | ErrGetReferenceList
  | ErrGetVoteParam
  | ErrGetValidatorParam
  deriving DecidableEq, Repr

/-- Record `model.Voter`. -/
structure Voter where
  Username : AccountKey
  Deposit : Coin
  DelegatedPower : Coin
  deriving DecidableEq, Repr

/-- Record `model.Delegation`. -/
structure Delegation where
  Delegator : AccountKey
  Amount : Coin
  deriving DecidableEq, Repr

/-- Record `model.Vote`. -/
structure Vote where
  Voter : AccountKey
  Result : Bool
  VotingPower : Coin
  deriving DecidableEq, Repr

/-- Record `model.ReferenceList`. -/
structure ReferenceList where
  AllValidators : List AccountKey
  deriving DecidableEq, Repr

/-- Vote parameters read through `param.ParamHolder.GetVoteParam`. -/
structure VoteParam where
  VoterMinDeposit : Coin
  VoterMinWithdraw : Coin
  DelegatorMinWithdraw : Coin
  deriving DecidableEq, Repr

/-- Validator parameters read through `GetValidatorParam`. -/
structure ValidatorParam where
  ValidatorMinVotingDeposit : Coin
  deriving DecidableEq, Repr

/-- Modelled from the spec: `types.ProposalType`, whose declaration is not part
of the sources.  Spec 4.2 names the two kinds with mandatory participation,
`ChangeParam` and `ProtocolUpgrade`; `ContentCensorship` stands for the "other
proposal types". -/
inductive ProposalType where
  | ChangeParam
  | ContentCensorship
  | ProtocolUpgrade
  deriving DecidableEq, Repr

set_option linter.dupNamespace false in
/-- Record `types.PenaltyList`, as built in `GetPenaltyList`. -/
structure PenaltyList where
  PenaltyList : List AccountKey
  deriving DecidableEq, Repr

/-- Modelled from the spec: `model.VoteStorage` and the parameter holder,
which are not part of the sources.  Spec 6: "Voter records keyed by account;
Delegation records keyed by (voter, delegator) composite; Vote records keyed
by (proposal, voter) composite"; the parameters are read-only and a read of
them may fail (`none`). -/
structure VoteState where
  voters : KV AccountKey Voter
  delegations : KV (AccountKey × AccountKey) Delegation
  votes : KV (ProposalKey × AccountKey) Vote
  referenceList : Option ReferenceList
  voteParam : Option VoteParam
  validatorParam : Option ValidatorParam
  deriving DecidableEq, Repr

namespace VoteStorage

def DoesVoterExist (s : VoteState) (accKey : AccountKey) : Bool :=
  s.voters.has accKey

def DoesVoteExist (s : VoteState) (proposalID : ProposalKey) (accKey : AccountKey) : Bool :=
  s.votes.has (proposalID, accKey)

def DoesDelegationExist (s : VoteState) (voter delegator : AccountKey) : Bool :=
  s.delegations.has (voter, delegator)

def GetVoter (s : VoteState) (accKey : AccountKey) : Except VoteError Voter :=
  match s.voters.get accKey with
  | some v => .ok v
  | none => .error .ErrGetVoter

def SetVoter (s : VoteState) (accKey : AccountKey) (voter : Voter) : VoteState :=
  { s with voters := s.voters.set accKey voter }

def DeleteVoter (s : VoteState) (accKey : AccountKey) : VoteState :=
  { s with voters := s.voters.delete accKey }

def GetDelegation (s : VoteState) (voter delegator : AccountKey) :
    Except VoteError Delegation :=
  match s.delegations.get (voter, delegator) with
  | some d => .ok d
  | none => .error .ErrGetDelegation

def SetDelegation (s : VoteState) (voter delegator : AccountKey) (d : Delegation) :
    VoteState :=
  { s with delegations := s.delegations.set (voter, delegator) d }

def DeleteDelegation (s : VoteState) (voter delegator : AccountKey) : VoteState :=
  { s with delegations := s.delegations.delete (voter, delegator) }

def GetVote (s : VoteState) (proposalID : ProposalKey) (voter : AccountKey) :
    Except VoteError Vote :=
  match s.votes.get (proposalID, voter) with
  | some v => .ok v
  | none => .error .ErrGetVote

def SetVote (s : VoteState) (proposalID : ProposalKey) (voter : AccountKey) (v : Vote) :
    VoteState :=
  { s with votes := s.votes.set (proposalID, voter) v }

/-- All votes stored for a proposal, in store order. -/
def GetAllVotes (s : VoteState) (proposalID : ProposalKey) : List Vote :=
  (s.votes.filter (fun p => decide (p.1.1 = proposalID))).map Prod.snd

/-- All delegations stored for a voter, in store order. -/
def GetAllDelegations (s : VoteState) (voter : AccountKey) : List Delegation :=
  (s.delegations.filter (fun p => decide (p.1.1 = voter))).map Prod.snd

def GetReferenceList (s : VoteState) : Except VoteError ReferenceList :=
  match s.referenceList with
  | some l => .ok l
  | none => .error .ErrGetReferenceList

def GetVoteParam (s : VoteState) : Except VoteError VoteParam :=
  match s.voteParam with
  | some p => .ok p
  | none => .error .ErrGetVoteParam

def GetValidatorParam (s : VoteState) : Except VoteError ValidatorParam :=
  match s.validatorParam with
  | some p => .ok p
  | none => .error .ErrGetValidatorParam

end VoteStorage

/-! ## Vote manager (`x/vote/manager.go`) -/

namespace VoteManager

open VoteStorage

/-- Go `VoteManager.GetVotingPower`. -/
def GetVotingPower (s : VoteState) (voterName : AccountKey) : Except VoteError Coin :=
  match GetVoter s voterName with
  | .error e => .error e
  | .ok voter => .ok (voter.Deposit.Plus voter.DelegatedPower)

/-- Go `VoteManager.AddVote`. -/
def AddVote (s : VoteState) (proposalID : ProposalKey) (voter : AccountKey) (res : Bool) :
    Option VoteError × VoteState :=
  if DoesVoteExist s proposalID voter then (some .ErrVoteAlreadyExist, s)
  else
    match GetVotingPower s voter with
    | .error e => (some e, s)
    | .ok votingPower =>
      let vote : Vote := { Voter := voter, Result := res, VotingPower := votingPower }
      (none, SetVote s proposalID voter vote)

/-- Go `VoteManager.AddDelegation`. -/
def AddDelegation (s : VoteState) (voterName delegatorName : AccountKey) (coin : Coin) :
    Option VoteError × VoteState :=
  let got : Except VoteError Delegation :=
    if !DoesDelegationExist s voterName delegatorName then
      .ok { Delegator := delegatorName, Amount := Coin.NewCoinFromInt64 0 }
    else GetDelegation s voterName delegatorName
  match got with
  | .error e => (some e, s)
  | .ok delegation =>
    match GetVoter s voterName with
    | .error e => (some e, s)
    | .ok voter =>
      let voter := { voter with DelegatedPower := voter.DelegatedPower.Plus coin }
      let delegation := { delegation with Amount := delegation.Amount.Plus coin }
      let s1 := SetDelegation s voterName delegatorName delegation
      let s2 := SetVoter s1 voterName voter
      (none, s2)

/-- Go `VoteManager.AddVoter`. -/
def AddVoter (s : VoteState) (username : AccountKey) (coin : Coin) :
    Option VoteError × VoteState :=
  let voter : Voter := { Username := username, Deposit := coin, DelegatedPower := ⟨0⟩ }
  match GetVoteParam s with
  | .error e => (some e, s)
  | .ok param =>
    if !coin.IsGTE param.VoterMinDeposit then (some .ErrInsufficientDeposit, s)
    else (none, SetVoter s username voter)

/-- Go `VoteManager.Deposit`. -/
def Deposit (s : VoteState) (username : AccountKey) (coin : Coin) :
    Option VoteError × VoteState :=
  match GetVoter s username with
  | .error e => (some e, s)
  | .ok voter =>
    let voter := { voter with Deposit := voter.Deposit.Plus coin }
    (none, SetVoter s username voter)

/-- Go `VoteManager.VoterWithdraw`. -/
def VoterWithdraw (s : VoteState) (username : AccountKey) (coin : Coin) :
    Option VoteError × VoteState :=
  if coin.IsZero then (some .ErrInvalidCoin, s)
  else
    match GetVoter s username with
    | .error e => (some e, s)
    | .ok voter =>
      let voter := { voter with Deposit := voter.Deposit.Minus coin }
      if voter.Deposit.IsZero then (none, DeleteVoter s username)
      else (none, SetVoter s username voter)

/-- Go `VoteManager.VoterWithdrawAll`: the coin returned, the error and the
state. -/
def VoterWithdrawAll (s : VoteState) (username : AccountKey) :
    Coin × Option VoteError × VoteState :=
  match GetVoter s username with
  | .error e => (Coin.NewCoinFromInt64 0, some e, s)
  | .ok voter =>
    match VoterWithdraw s username voter.Deposit with
    | (some e, s1) => (Coin.NewCoinFromInt64 0, some e, s1)
    | (none, s1) => (voter.Deposit, none, s1)

/-- Go `VoteManager.DelegatorWithdraw`.  The voter is written before the
delegation is read. -/
def DelegatorWithdraw (s : VoteState) (voterName delegatorName : AccountKey) (coin : Coin) :
    Option VoteError × VoteState :=
  if coin.IsZero then (some .ErrInvalidCoin, s)
  else
    match GetVoter s voterName with
    | .error e => (some e, s)
    | .ok voter =>
      let voter := { voter with DelegatedPower := voter.DelegatedPower.Minus coin }
      let s1 := SetVoter s voterName voter
      match GetDelegation s1 voterName delegatorName with
      | .error e => (some e, s1)
      | .ok delegation =>
        let delegation := { delegation with Amount := delegation.Amount.Minus coin }
        if delegation.Amount.IsZero then
          (none, DeleteDelegation s1 voterName delegatorName)
        else (none, SetDelegation s1 voterName delegatorName delegation)

/-- Go `VoteManager.DelegatorWithdrawAll`. -/
def DelegatorWithdrawAll (s : VoteState) (voterName delegatorName : AccountKey) :
    Coin × Option VoteError × VoteState :=
  match GetDelegation s voterName delegatorName with
  | .error e => (Coin.NewCoinFromInt64 0, some e, s)
  | .ok delegation =>
    match DelegatorWithdraw s voterName delegatorName delegation.Amount with
    | (some e, s1) => (Coin.NewCoinFromInt64 0, some e, s1)
    | (none, s1) => (delegation.Amount, none, s1)

/-- The sum of the amounts of all delegations stored for a voter. -/
def delegationSum (s : VoteState) (voterName : AccountKey) : Int :=
  ((GetAllDelegations s voterName).map (fun d => d.Amount.Amount)).sum

/-- The delegated power of the voter equals the sum of the stored delegations
to it, in a store whose delegation keys are unique. -/
def Conserved (s : VoteState) (v : AccountKey) : Prop :=
  (s.delegations.map Prod.fst).Nodup
    ∧ ∃ voter, s.voters.get v = some voter ∧ voter.DelegatedPower.Amount = delegationSum s v

/-- Go `VoteManager.CanBecomeValidator`. -/
def CanBecomeValidator (s : VoteState) (username : AccountKey) : Bool :=
  match GetVoter s username with
  | .error _ => false
  | .ok voter =>
    match GetValidatorParam s with
    | .error _ => false
    | .ok param => voter.Deposit.IsGTE param.ValidatorMinVotingDeposit

/-- Go `VoteManager.GetPenaltyList`: the list and the error.  For each vote,
the inner loop removes the first on-call validator equal to the vote's voter
and breaks, which is `List.erase`.  (In Go the removal also shifts the
elements of the caller's slice; only the returned list is modelled.) -/
def GetPenaltyList (s : VoteState) (proposalID : ProposalKey) (proposalType : ProposalType)
    (oncallValidators : List AccountKey) : PenaltyList × Option VoteError :=
  let penaltyList : PenaltyList := { PenaltyList := [] }
  let votes := GetAllVotes s proposalID
  let oncallValidators :=
    votes.foldl (fun oncall vote => oncall.erase vote.Voter) oncallValidators
  if proposalType = .ChangeParam ∨ proposalType = .ProtocolUpgrade then
    ({ penaltyList with PenaltyList := oncallValidators }, none)
  else (penaltyList, none)

/-- A call of one of the vote manager's writing operations. -/
inductive VoteOp where
  | AddVote (proposalID : ProposalKey) (voter : AccountKey) (res : Bool)
  | AddDelegation (voterName delegatorName : AccountKey) (coin : Coin)
  | AddVoter (username : AccountKey) (coin : Coin)
  | Deposit (username : AccountKey) (coin : Coin)
  | VoterWithdraw (username : AccountKey) (coin : Coin)
  | VoterWithdrawAll (username : AccountKey)
  | DelegatorWithdraw (voterName delegatorName : AccountKey) (coin : Coin)
  | DelegatorWithdrawAll (voterName delegatorName : AccountKey)
  deriving DecidableEq, Repr

/-- The state a call leaves, whatever it returns. -/
def VoteOp.run : VoteOp → VoteState → VoteState
  | .AddVote p v res, s => (VoteManager.AddVote s p v res).2
  | .AddDelegation v d c, s => (VoteManager.AddDelegation s v d c).2
  | .AddVoter u c, s => (VoteManager.AddVoter s u c).2
  | .Deposit u c, s => (VoteManager.Deposit s u c).2
  | .VoterWithdraw u c, s => (VoteManager.VoterWithdraw s u c).2
  | .VoterWithdrawAll u, s => (VoteManager.VoterWithdrawAll s u).2.2
  | .DelegatorWithdraw v d c, s => (VoteManager.DelegatorWithdraw s v d c).2
  | .DelegatorWithdrawAll v d, s => (VoteManager.DelegatorWithdrawAll s v d).2.2

/-- The state after a sequence of calls, first call first. -/
def runAll (ops : List VoteOp) (s : VoteState) : VoteState :=
  ops.foldl (fun s op => op.run s) s

/-- Every stored vote names, in its `Voter` field, the voter of its key (as
`AddVote` writes it). -/
def VotesKeyed (s : VoteState) : Prop :=
  ∀ e ∈ s.votes, e.2.Voter = e.1.2

/-- Go `VoteManager.IsInValidatorList`. -/
def IsInValidatorList (s : VoteState) (username : AccountKey) : Bool :=
  match GetReferenceList s with
  | .error _ => false
  | .ok lst => lst.AllValidators.any (fun validator => decide (validator = username))

/-- Go `VoteManager.IsLegalVoterWithdraw`. -/
def IsLegalVoterWithdraw (s : VoteState) (username : AccountKey) (coin : Coin) : Bool :=
  match GetVoter s username with
  | .error _ => false
  | .ok voter =>
    if IsInValidatorList s username then false
    else
      match GetVoteParam s with
      | .error _ => false
      | .ok param =>
        if !coin.IsGTE param.VoterMinWithdraw then false
        else
          let remaining := voter.Deposit.Minus coin
          if !remaining.IsGTE param.VoterMinDeposit then false
          else true

/-- Go `VoteManager.IsLegalDelegatorWithdraw`. -/
def IsLegalDelegatorWithdraw (s : VoteState) (voterName delegatorName : AccountKey)
    (coin : Coin) : Bool :=
  match GetDelegation s voterName delegatorName with
  | .error _ => false
  | .ok delegation =>
    match GetVoteParam s with
    | .error _ => false
    | .ok param =>
      if !coin.IsGTE param.DelegatorMinWithdraw then false
      else
        let res := delegation.Amount.Minus coin
        res.IsNotNegative

/-- A sequence of calls every one of which satisfies `g` in the state it is
made in. -/
def allGuarded (g : VoteState → VoteOp → Prop) : List VoteOp → VoteState → Prop
  | [], _ => True
  | op :: ops, s => g s op ∧ allGuarded g ops (op.run s)

/-- Every stored Voter record has a non-negative deposit and a non-negative
delegated power. -/
def NonNegativeStake (s : VoteState) : Prop :=
  ∀ k rec, s.voters.get k = some rec → 0 ≤ rec.Deposit.Amount ∧ 0 ≤ rec.DelegatedPower.Amount

/-- The call adds a non-negative coin, or withdraws no more than the deposit,
respectively the delegated power, it is subtracted from. -/
def stakeCovered (s : VoteState) : VoteOp → Prop
  | .AddVote _ _ _ => True
  | .AddDelegation _ _ c => 0 ≤ c.Amount
  | .AddVoter _ c => 0 ≤ c.Amount
  | .Deposit _ c => 0 ≤ c.Amount
  | .VoterWithdraw u c => ∀ rec, s.voters.get u = some rec → c.Amount ≤ rec.Deposit.Amount
  | .VoterWithdrawAll _ => True
  | .DelegatorWithdraw v _ c =>
    ∀ rec, s.voters.get v = some rec → c.Amount ≤ rec.DelegatedPower.Amount
  | .DelegatorWithdrawAll v d =>
    ∀ rec del, s.voters.get v = some rec → s.delegations.get (v, d) = some del →
      del.Amount.Amount ≤ rec.DelegatedPower.Amount

/-- Every stored Voter record has a positive deposit. -/
def PositiveDeposits (s : VoteState) : Prop :=
  ∀ k rec, s.voters.get k = some rec → 0 < rec.Deposit.Amount

/-- The call deposits a non-negative coin, or withdraws no more than the
deposit. -/
def depositCovered (s : VoteState) : VoteOp → Prop
  | .Deposit _ c => 0 ≤ c.Amount
  | .VoterWithdraw u c => ∀ rec, s.voters.get u = some rec → c.Amount ≤ rec.Deposit.Amount
  | _ => True

/-- Every stored Delegation record has a positive amount. -/
def PositiveDelegations (s : VoteState) : Prop :=
  ∀ k del, s.delegations.get k = some del → 0 < del.Amount.Amount

/-- The call delegates a positive coin, or withdraws no more than the
delegation's amount. -/
def delegationCovered (s : VoteState) : VoteOp → Prop
  | .AddDelegation _ _ c => 0 < c.Amount
  | .DelegatorWithdraw v d c =>
    ∀ del, s.delegations.get (v, d) = some del → c.Amount ≤ del.Amount.Amount
  | _ => True

end VoteManager

end Lino

/-! ## Donation pipeline: collaborators -/

namespace Lino

/-- Modelled from the spec: the key of a post, `types.Permlink`, which is not
part of the sources.  Glossary: "unique identifier for a post, composed of
author account key and a per-author post id". -/
abbrev Permlink := AccountKey × String

/-- Modelled from the spec: `types.GetPermlink(author, postID)`, which is not
part of the sources: the permlink composed of the two. -/
def GetPermlink (author : AccountKey) (postID : String) : Permlink := (author, postID)

/-- Errors of the post handlers: the constructors the handler names, and one
error per collaborator for the failures the collaborators report. -/
inductive PostError where
  | ErrAccountNotFound (user : AccountKey)
  | ErrPostNotFound (permlink : Permlink)
  | ErrDonatePostIsDeleted (permlink : Permlink)
  | ErrCannotDonateToSelf (user : AccountKey)
  | ErrDeveloperNotFound (app : AccountKey)
  | ErrProcessSourceDonation (permlink : Permlink)
  | ErrProcessDonation (permlink : Permlink)
  | ErrInvalidCoins
  | ErrInsufficientFunds
  | ErrAccountLedger
  | ErrPostLedger
  | ErrGlobalPool
  | ErrRewardEventRejected
  | ErrEvaluateConsumption
  | ErrPostAlreadyExist (permlink : Permlink)
  | ErrPostTooOften (author : AccountKey)
  | ErrInvalidPostRedistributionSplitRate
  | ErrUpdatePostIsDeleted (permlink : Permlink)
  | ErrParamHolder
  | ErrCreatePost
  | ErrReportOrUpvoteTooOften
  deriving DecidableEq, Repr

/-- Go `DonateMsg`. -/
structure DonateMsg where
  Username : AccountKey
  Amount : String
  Author : AccountKey
  PostID : String
  FromApp : AccountKey
  Memo : String
  deriving DecidableEq, Repr

/-- Modelled from the spec: Go `CreatePostMsg`, whose declaration is not part
of the sources: the fields `handleCreatePostMsg` reads.  `Links` is a list of
identifier/URL pairs; the split rate is the decimal text of the message. -/
structure CreatePostMsg where
  Author : AccountKey
  PostID : String
  Title : String
  Content : String
  ParentAuthor : AccountKey
  ParentPostID : String
  SourceAuthor : AccountKey
  SourcePostID : String
  Links : List (String × String)
  RedistributionSplitRate : String
  deriving DecidableEq, Repr

/-- Modelled from the spec: Go `UpdatePostMsg`, whose declaration is not part
of the sources: the fields `handleUpdatePostMsg` reads. -/
structure UpdatePostMsg where
  Author : AccountKey
  PostID : String
  Title : String
  Content : String
  Links : List (String × String)
  deriving DecidableEq, Repr

/-- Modelled from the spec: Go `ReportOrUpvoteMsg`, whose declaration is not
part of the sources: the fields `handleReportOrUpvoteMsg` reads. -/
structure ReportOrUpvoteMsg where
  Username : AccountKey
  Author : AccountKey
  PostID : String
  IsReport : Bool
  deriving DecidableEq, Repr

/-- Go `RewardEvent`, as built in `processDonationFriction`. -/
structure RewardEvent where
  PostAuthor : AccountKey
  PostID : String
  Consumer : AccountKey
  Evaluate : Coin
  Original : Coin
  Friction : Coin
  FromApp : AccountKey
  deriving DecidableEq, Repr

/-- Modelled from the spec: a record of the Account ledger (spec 6:
balance debit/credit, `getStake`, the activity timestamps; spec 4.3 (e): the
author's direct-deposit counter).  The account manager is not part of the
sources. -/
structure AccountBank where
  Saving : Coin
  Stake : Coin
  DirectDeposit : Coin
  LastActivityAt : Int
  LastPostAt : Int
  LastReportOrUpvoteAt : Int
  deriving DecidableEq, Repr

/-- Modelled from the spec: a record of the Post ledger (spec 3, "Post"):
title, content and links, the parent link and the comment records (spec 4.4),
source link, redistribution split rate, deleted flag, creation time,
cumulative reward, the donation ledger and the stake-weight records.  The
post manager is not part of the sources. -/
structure Post where
  Title : String
  Content : String
  Links : List (String × String)
  ParentAuthor : AccountKey
  ParentPostID : String
  Comments : List (AccountKey × String)
  SourceAuthor : AccountKey
  SourcePostID : String
  RedistributionSplitRate : ℚ
  IsDeleted : Bool
  CreatedAt : Int
  TotalReward : Coin
  TotalDonation : Coin
  Donations : List (AccountKey × Coin)
  ReportOrUpvotes : List (AccountKey × Coin × Bool)
  deriving DecidableEq, Repr

/-- Modelled from the spec: the Global Pool (spec 6): the current friction
rate (a read of it may fail), the accumulated consumption, the inflation pool
that receives the friction, and the registered reward events.  The global
manager is not part of the sources. -/
structure GlobalPool where
  ConsumptionFrictionRate : Option ℚ
  Consumption : Coin
  InflationPool : Coin
  RewardEvents : List RewardEvent
  deriving DecidableEq, Repr

/-- Modelled from the spec: the post parameters of the parameter source
(spec 6: `PostIntervalSec`, `ReportOrUpvoteIntervalSec`), Go `int64` seconds.
The parameter holder is not part of the sources. -/
structure PostParam where
  PostIntervalSec : Int
  ReportOrUpvoteIntervalSec : Int
  deriving DecidableEq, Repr

/-- The state behind `ctx` that the post handlers read and write.  `BlockTime`
is `ctx.BlockHeader().Time.Unix()`; `postParam` is `none` when the parameters
cannot be read. -/
structure PostState where
  BlockTime : Int
  postParam : Option PostParam
  accounts : KV AccountKey AccountBank
  relationships : KV (AccountKey × AccountKey) Int
  posts : KV Permlink Post
  developers : List AccountKey
  pool : GlobalPool
  deriving DecidableEq, Repr

/-- The parts of the collaborators the spec leaves open, as parameters:
`types.LinoToCoin` (amount parsing), the Global Pool's `EvaluateConsumption`
(spec 4.3 (b): "an opaque evaluatedReward ... a pure function of those three
inputs plus the donated amount"), whether the Global Pool rejects a reward
event (spec 4.3 (c)), the SDK's `sdk.NewRatFromDecimal` at the precision
`types.NewRatFromDecimalPrecision` (the rational a decimal text denotes), and
whether the post manager refuses to create a post record (`pm.CreatePost`
returns an error the handler passes on; the post manager is not part of the
sources).  `none` is a failure of the collaborator, which the caller sees as
`ErrInvalidCoins`, respectively `ErrEvaluateConsumption`, respectively the
`err != nil` of `sdk.NewRatFromDecimal`. -/
structure Env where
  LinoToCoin : String → Option Coin
  EvaluateConsumption : Coin → Int → Int → Coin → Option Coin
  RejectsRewardEvent : RewardEvent → Bool
  NewRatFromDecimal : String → Option ℚ
  RejectsPost : Permlink → Post → Bool

/-- Modelled from the spec: the Account ledger operations of spec 6 (the
account manager `am` is not part of the sources).  An operation on an account
that does not exist fails; a debit larger than the balance fails; a failing
operation writes nothing. -/
def DoesAccountExist (s : PostState) (user : AccountKey) : Bool := s.accounts.has user

/-- Modelled from the spec: `minusBalance(key, coin) Result` (spec 6; spec
4.3 step 2: "on failure (insufficient funds) abort with no state change"). -/
def MinusSavingCoin (s : PostState) (user : AccountKey) (coin : Coin) :
    Except PostError PostState :=
  match s.accounts.get user with
  | none => .error .ErrAccountLedger
  | some a =>
    if !a.Saving.IsGTE coin then .error .ErrInsufficientFunds
    else .ok { s with accounts := s.accounts.set user { a with Saving := a.Saving.Minus coin } }

/-- Modelled from the spec: `addBalance(key, coin) Result` (spec 6). -/
def AddSavingCoin (s : PostState) (user : AccountKey) (coin : Coin) :
    Except PostError PostState :=
  match s.accounts.get user with
  | none => .error .ErrAccountLedger
  | some a =>
    .ok { s with accounts := s.accounts.set user { a with Saving := a.Saving.Plus coin } }

/-- Modelled from the spec: the author's direct-deposit counter (spec 4.3
(e)). -/
def AddDirectDeposit (s : PostState) (user : AccountKey) (coin : Coin) :
    Except PostError PostState :=
  match s.accounts.get user with
  | none => .error .ErrAccountLedger
  | some a =>
    .ok { s with
      accounts := s.accounts.set user { a with DirectDeposit := a.DirectDeposit.Plus coin } }

/-- Modelled from the spec: `getStake(key) (Coin, Error)` (spec 6). -/
def GetStake (s : PostState) (user : AccountKey) : Except PostError Coin :=
  match s.accounts.get user with
  | none => .error .ErrAccountLedger
  | some a => .ok a.Stake

/-- Modelled from the spec: `donationRelationshipCount(from, to)`, read
(spec 6); no record counts as zero. -/
def GetDonationRelationship (s : PostState) (me other : AccountKey) : Except PostError Int :=
  if !DoesAccountExist s me then .error .ErrAccountLedger
  else .ok ((s.relationships.get (me, other)).getD 0)

/-- Modelled from the spec: `donationRelationshipCount(from, to)`, increment
(spec 6, spec 4.3 (g)). -/
def UpdateDonationRelationship (s : PostState) (me other : AccountKey) :
    Except PostError PostState :=
  if !DoesAccountExist s me then .error .ErrAccountLedger
  else
    .ok { s with
      relationships :=
        s.relationships.set (me, other) ((s.relationships.get (me, other)).getD 0 + 1) }

/-- Modelled from the spec: Post ledger `exists(permlink)` (spec 6; the post
manager `pm` is not part of the sources). -/
def DoesPostExist (s : PostState) (permlink : Permlink) : Bool := s.posts.has permlink

/-- Modelled from the spec: `isDeleted(permlink) (bool, Error)` (spec 6). -/
def IsDeleted (s : PostState) (permlink : Permlink) : Except PostError Bool :=
  match s.posts.get permlink with
  | none => .error .ErrPostLedger
  | some p => .ok p.IsDeleted

/-- Modelled from the spec: `getSourcePost(permlink)` (spec 6). -/
def GetSourcePost (s : PostState) (permlink : Permlink) :
    Except PostError (AccountKey × String) :=
  match s.posts.get permlink with
  | none => .error .ErrPostLedger
  | some p => .ok (p.SourceAuthor, p.SourcePostID)

/-- Modelled from the spec: `getRedistributionSplitRate(permlink)` (spec 6). -/
def GetRedistributionSplitRate (s : PostState) (permlink : Permlink) : Except PostError ℚ :=
  match s.posts.get permlink with
  | none => .error .ErrPostLedger
  | some p => .ok p.RedistributionSplitRate

/-- Modelled from the spec: `getCreatedTimeAndTotalReward(permlink)` (spec 6). -/
def GetCreatedTimeAndReward (s : PostState) (permlink : Permlink) :
    Except PostError (Int × Coin) :=
  match s.posts.get permlink with
  | none => .error .ErrPostLedger
  | some p => .ok (p.CreatedAt, p.TotalReward)

/-- Modelled from the spec: `addDonation(permlink, consumer, coin, kind)`
(spec 6, spec 4.3 (d): "record it on the post's donation ledger"). -/
def AddDonation (s : PostState) (permlink : Permlink) (consumer : AccountKey) (coin : Coin) :
    Except PostError PostState :=
  match s.posts.get permlink with
  | none => .error .ErrPostLedger
  | some p =>
    .ok { s with
      posts := s.posts.set permlink
        { p with TotalDonation := p.TotalDonation.Plus coin,
                 Donations := p.Donations ++ [(consumer, coin)] } }

/-- Modelled from the spec: the stake-weight record of spec 4.3 step 3 and
4.4 (`ReportOrUpvoteToPost`). -/
def ReportOrUpvoteToPost (s : PostState) (permlink : Permlink) (user : AccountKey)
    (stake : Coin) (isReport : Bool) : Except PostError PostState :=
  match s.posts.get permlink with
  | none => .error .ErrPostLedger
  | some p =>
    .ok { s with
      posts := s.posts.set permlink
        { p with ReportOrUpvotes := p.ReportOrUpvotes ++ [(user, stake, isReport)] } }

/-- Modelled from the spec: the parameter source (spec 6), read through
`pm.paramHolder.GetPostParam`; the read fails when the parameters are not
stored. -/
def GetPostParam (s : PostState) : Except PostError PostParam :=
  match s.postParam with
  | none => .error .ErrParamHolder
  | some param => .ok param

/-- Modelled from the spec: `lastPostAt` get (spec 6). -/
def GetLastPostAt (s : PostState) (user : AccountKey) : Except PostError Int :=
  match s.accounts.get user with
  | none => .error .ErrAccountLedger
  | some a => .ok a.LastPostAt

/-- Modelled from the spec: `lastPostAt` set (spec 6), to the time of the
current block (spec 4.4: the rate limit compares the author's last post with
the current block time). -/
def UpdateLastPostAt (s : PostState) (user : AccountKey) : Except PostError PostState :=
  match s.accounts.get user with
  | none => .error .ErrAccountLedger
  | some a => .ok { s with accounts := s.accounts.set user { a with LastPostAt := s.BlockTime } }

/-- Modelled from the spec: `lastReportOrUpvoteAt` get (spec 6). -/
def GetLastReportOrUpvoteAt (s : PostState) (user : AccountKey) : Except PostError Int :=
  match s.accounts.get user with
  | none => .error .ErrAccountLedger
  | some a => .ok a.LastReportOrUpvoteAt

/-- Modelled from the spec: `lastReportOrUpvoteAt` set (spec 6), to the time of
the current block (spec 4.4: the rate limit compares the account's last
report or upvote with the current block time). -/
def UpdateLastReportOrUpvoteAt (s : PostState) (user : AccountKey) :
    Except PostError PostState :=
  match s.accounts.get user with
  | none => .error .ErrAccountLedger
  | some a =>
    .ok { s with
      accounts := s.accounts.set user { a with LastReportOrUpvoteAt := s.BlockTime } }

/-- Modelled from the spec: the comment record that links a post to its
parent (spec 4.4: "the parent must exist and is linked via a comment
record"), added to the parent's record. -/
def AddComment (s : PostState) (parentPostKey : Permlink) (author : AccountKey)
    (postID : String) : Except PostError PostState :=
  match s.posts.get parentPostKey with
  | none => .error .ErrPostLedger
  | some p =>
    .ok { s with
      posts := s.posts.set parentPostKey { p with Comments := p.Comments ++ [(author, postID)] } }

/-- The record `pm.CreatePost` is asked to write: the attributes of the
message, the parsed split rate, the creation time, and empty ledgers. -/
def newPost (created : Int) (sourceAuthor : AccountKey) (sourcePostID : String)
    (parentAuthor : AccountKey) (parentPostID : String) (content title : String)
    (redistributionSplitRate : ℚ) (links : List (String × String)) : Post :=
  { Title := title, Content := content, Links := links,
    ParentAuthor := parentAuthor, ParentPostID := parentPostID, Comments := [],
    SourceAuthor := sourceAuthor, SourcePostID := sourcePostID,
    RedistributionSplitRate := redistributionSplitRate, IsDeleted := false,
    CreatedAt := created, TotalReward := ⟨0⟩, TotalDonation := ⟨0⟩,
    Donations := [], ReportOrUpvotes := [] }

/-- Modelled from the spec: `pm.CreatePost` (spec 3: a post is "created
once", its permlink "unique and immutable once created", its
`redistributionSplitRate` a "rational in [0,1]"; spec 4.4: the split rate
"must parse as a rational in [0,1] or creation fails", with the error kind
`InvalidSplitRate` of spec 7): the post manager writes the new record under
the permlink, unless the permlink exists, the split rate is below 0 or above
1, or the manager refuses the record for a reason of its own; a refused
creation writes nothing. -/
def CreatePost (env : Env) (s : PostState) (author : AccountKey) (postID : String)
    (sourceAuthor : AccountKey) (sourcePostID : String)
    (parentAuthor : AccountKey) (parentPostID : String) (content title : String)
    (redistributionSplitRate : ℚ) (links : List (String × String)) :
    Except PostError PostState :=
  let permlink := GetPermlink author postID
  let post := newPost s.BlockTime sourceAuthor sourcePostID parentAuthor parentPostID content
    title redistributionSplitRate links
  if s.posts.has permlink then .error (.ErrPostAlreadyExist permlink)
  else if redistributionSplitRate < 0 ∨ 1 < redistributionSplitRate then
    .error .ErrInvalidPostRedistributionSplitRate
  else if env.RejectsPost permlink post then .error .ErrCreatePost
  else .ok { s with posts := s.posts.set permlink post }

/-- Modelled from the spec: `pm.UpdatePost` (spec 3: "updatable
(content/links)"): title, content and links of the record are replaced. -/
def UpdatePost (s : PostState) (author : AccountKey) (postID : String)
    (title content : String) (links : List (String × String)) : Except PostError PostState :=
  match s.posts.get (GetPermlink author postID) with
  | none => .error .ErrPostLedger
  | some p =>
    .ok { s with
      posts := s.posts.set (GetPermlink author postID)
        { p with Title := title, Content := content, Links := links } }

/-- Modelled from the spec: developer registry lookup (spec 4.3 step 1, "the
attributing application is non-empty and unregistered"). -/
def DoesDeveloperExist (s : PostState) (app : AccountKey) : Bool := decide (app ∈ s.developers)

/-- Modelled from the spec: `getConsumptionFrictionRate() (Rational, Error)`
(spec 6). -/
def GetConsumptionFrictionRate (s : PostState) : Except PostError ℚ :=
  match s.pool.ConsumptionFrictionRate with
  | none => .error .ErrGlobalPool
  | some r => .ok r

/-- Modelled from the spec: `addConsumption(coin) Result` (spec 6, spec 4.3
(f): "total consumption += creditAmount"). -/
def AddConsumption (s : PostState) (coin : Coin) : Except PostError PostState :=
  .ok { s with pool := { s.pool with Consumption := s.pool.Consumption.Plus coin } }

/-- Modelled from the spec: `addFrictionAndRegisterRewardEvent` (spec 6, spec
4.3 (c)): the pool adds the friction to the inflation pool and registers the
event, or rejects the event and writes nothing. -/
def AddFrictionAndRegisterContentRewardEvent (env : Env) (s : PostState)
    (rewardEvent : RewardEvent) (frictionCoin _evaluateResult : Coin) :
    Except PostError PostState :=
  if env.RejectsRewardEvent rewardEvent then .error .ErrRewardEventRejected
  else
    .ok { s with
      pool := { s.pool with
        InflationPool := s.pool.InflationPool.Plus frictionCoin,
        RewardEvents := s.pool.RewardEvents ++ [rewardEvent] } }

end Lino

/-! ## Donation pipeline (`x/post/handler.go`) -/

namespace Lino

/-- Go `evaluateConsumption`. -/
def evaluateConsumption (env : Env) (s : PostState) (consumer : AccountKey) (coin : Coin)
    (postAuthor : AccountKey) (postID : String) : Except PostError Coin :=
  match GetDonationRelationship s consumer postAuthor with
  | .error e => .error e
  | .ok numOfConsumptionOnAuthor =>
    match GetCreatedTimeAndReward s (GetPermlink postAuthor postID) with
    | .error e => .error e
    | .ok (created, totalReward) =>
      match env.EvaluateConsumption coin numOfConsumptionOnAuthor created totalReward with
      | none => .error .ErrEvaluateConsumption
      | some evaluateResult => .ok evaluateResult

/-- Go `processDonationFriction`: the error (or `none`) and the state left. -/
def processDonationFriction (env : Env) (s : PostState) (consumer : AccountKey) (coin : Coin)
    (postAuthor : AccountKey) (postID : String) (fromApp : AccountKey) :
    Option PostError × PostState :=
  let postKey := GetPermlink postAuthor postID
  if coin.IsZero then (none, s)
  else if !DoesAccountExist s postAuthor then (some (.ErrAccountNotFound postAuthor), s)
  else
    match GetConsumptionFrictionRate s with
    | .error e => (some e, s)
    | .ok consumptionFrictionRate =>
      let frictionCoin := RatToCoin (coin.ToRat * consumptionFrictionRate)
      match evaluateConsumption env s consumer coin postAuthor postID with
      | .error e => (some e, s)
      | .ok evaluateResult =>
        let rewardEvent : RewardEvent :=
          { PostAuthor := postAuthor, PostID := postID, Consumer := consumer,
            Evaluate := evaluateResult, Original := coin, Friction := frictionCoin,
            FromApp := fromApp }
        match AddFrictionAndRegisterContentRewardEvent env s rewardEvent frictionCoin
            evaluateResult with
        | .error e => (some e, s)
        | .ok s1 =>
          let directDeposit := coin.Minus frictionCoin
          match AddDonation s1 postKey consumer directDeposit with
          | .error e => (some e, s1)
          | .ok s2 =>
            match AddSavingCoin s2 postAuthor directDeposit with
            | .error e => (some e, s2)
            | .ok s3 =>
              match AddDirectDeposit s3 postAuthor directDeposit with
              | .error e => (some e, s3)
              | .ok s4 =>
                match AddConsumption s4 coin with
                | .error e => (some e, s4)
                | .ok s5 =>
                  match UpdateDonationRelationship s5 postAuthor consumer with
                  | .error e => (some e, s5)
                  | .ok s6 => (none, s6)

/-- Go `handleDonateMsg`: the error of the result (`none` for `sdk.Result{}`)
and the state left. -/
def handleDonateMsg (env : Env) (s : PostState) (msg : DonateMsg) :
    Option PostError × PostState :=
  let permlink := GetPermlink msg.Author msg.PostID
  match env.LinoToCoin msg.Amount with
  | none => (some .ErrInvalidCoins, s)
  | some coin =>
    if !DoesAccountExist s msg.Username then (some (.ErrAccountNotFound msg.Username), s)
    else if !DoesPostExist s permlink then (some (.ErrPostNotFound permlink), s)
    else if (match IsDeleted s permlink with
             | .ok isDeleted => isDeleted
             | .error _ => true) then (some (.ErrDonatePostIsDeleted permlink), s)
    else if msg.Username = msg.Author then (some (.ErrCannotDonateToSelf msg.Username), s)
    else if msg.FromApp ≠ "" ∧ DoesDeveloperExist s msg.FromApp = false then
      (some (.ErrDeveloperNotFound msg.FromApp), s)
    else
      match MinusSavingCoin s msg.Username coin with
      | .error e => (some e, s)
      | .ok s1 =>
        match GetStake s1 msg.Username with
        | .error e => (some e, s1)
        | .ok stake =>
          match ReportOrUpvoteToPost s1 permlink msg.Username stake false with
          | .error e => (some e, s1)
          | .ok s2 =>
            match GetSourcePost s2 permlink with
            | .error e => (some e, s2)
            | .ok (sourceAuthor, sourcePostID) =>
              -- the `if sourceAuthor != "" && sourcePostID != ""` block: either
              -- an early return, or the coin left for the target leg
              let afterSource : Except (PostError × PostState) (Coin × PostState) :=
                if sourceAuthor ≠ "" ∧ sourcePostID ≠ "" then
                  let sourcePermlink := GetPermlink sourceAuthor sourcePostID
                  match GetRedistributionSplitRate s2 sourcePermlink with
                  | .error e => .error (e, s2)
                  | .ok redistributionSplitRate =>
                    let sourceIncome := RatToCoin (coin.ToRat * (1 - redistributionSplitRate))
                    let coin := coin.Minus sourceIncome
                    match processDonationFriction env s2 msg.Username sourceIncome
                        sourceAuthor sourcePostID msg.FromApp with
                    | (some _, s3) => .error (.ErrProcessSourceDonation sourcePermlink, s3)
                    | (none, s3) => .ok (coin, s3)
                else .ok (coin, s2)
              match afterSource with
              | .error (e, s3) => (some e, s3)
              | .ok (coin, s3) =>
                match processDonationFriction env s3 msg.Username coin msg.Author msg.PostID
                    msg.FromApp with
                | (some _, s4) => (some (.ErrProcessDonation permlink), s4)
                | (none, s4) => (none, s4)

/-- The saving balance of an account, 0 when the account does not exist. -/
def savingOf (s : PostState) (user : AccountKey) : Int :=
  match s.accounts.get user with
  | some a => a.Saving.Amount
  | none => 0

/-- The direct deposit of the leg a reward event records: `Original` minus
`Friction` (`directDeposit := coin.Minus(frictionCoin)`). -/
def RewardEvent.directDeposit (e : RewardEvent) : Int := e.Original.Amount - e.Friction.Amount

/-- The reward events registered between a state and a later one: one per
settled leg. -/
def newRewardEvents (s s' : PostState) : List RewardEvent :=
  s'.pool.RewardEvents.drop s.pool.RewardEvents.length

/-- Go `+` on `int64`: the sum, wrapped to the 64-bit two's complement
range. -/
def addInt64 (a b : Int) : Int := (a + b + 2 ^ 63) % 2 ^ 64 - 2 ^ 63

/-- Go `handleCreatePostMsg`: the error of the result (`none` for
`sdk.Result{}`) and the state left. -/
def handleCreatePostMsg (env : Env) (s : PostState) (msg : CreatePostMsg) :
    Option PostError × PostState :=
  if !DoesAccountExist s msg.Author then (some (.ErrAccountNotFound msg.Author), s)
  else
    let permlink := GetPermlink msg.Author msg.PostID
    if DoesPostExist s permlink then (some (.ErrPostAlreadyExist permlink), s)
    else
      match GetPostParam s with
      | .error e => (some e, s)
      | .ok postParam =>
        match GetLastPostAt s msg.Author with
        | .error e => (some e, s)
        | .ok lastPostAt =>
          if addInt64 lastPostAt postParam.PostIntervalSec > s.BlockTime then
            (some (.ErrPostTooOften msg.Author), s)
          else
            -- the `if len(msg.ParentAuthor) > 0 || len(msg.ParentPostID) > 0`
            -- block: either an early return, or the state it leaves
            let afterParent : Except (PostError × PostState) PostState :=
              if msg.ParentAuthor.length > 0 ∨ msg.ParentPostID.length > 0 then
                let parentPostKey := GetPermlink msg.ParentAuthor msg.ParentPostID
                if !DoesPostExist s parentPostKey then .error (.ErrPostNotFound parentPostKey, s)
                else
                  match AddComment s parentPostKey msg.Author msg.PostID with
                  | .error e => .error (e, s)
                  | .ok s1 => .ok s1
              else .ok s
            match afterParent with
            | .error (e, s1) => (some e, s1)
            | .ok s1 =>
              match env.NewRatFromDecimal msg.RedistributionSplitRate with
              | none => (some .ErrInvalidPostRedistributionSplitRate, s1)
              | some splitRate =>
                match CreatePost env s1 msg.Author msg.PostID msg.SourceAuthor msg.SourcePostID
                    msg.ParentAuthor msg.ParentPostID msg.Content msg.Title splitRate
                    msg.Links with
                | .error e => (some e, s1)
                | .ok s2 =>
                  match UpdateLastPostAt s2 msg.Author with
                  | .error e => (some e, s2)
                  | .ok s3 => (none, s3)

/-- Go `handleUpdatePostMsg`: the error of the result (`none` for
`sdk.Result{}`) and the state left. -/
def handleUpdatePostMsg (s : PostState) (msg : UpdatePostMsg) : Option PostError × PostState :=
  if !DoesAccountExist s msg.Author then (some (.ErrAccountNotFound msg.Author), s)
  else
    let permlink := GetPermlink msg.Author msg.PostID
    if !DoesPostExist s permlink then (some (.ErrPostNotFound permlink), s)
    else if (match IsDeleted s permlink with
             | .ok isDeleted => isDeleted
             | .error _ => true) then (some (.ErrUpdatePostIsDeleted permlink), s)
    else
      match UpdatePost s msg.Author msg.PostID msg.Title msg.Content msg.Links with
      | .error e => (some e, s)
      | .ok s1 => (none, s1)

/-- Go `handleReportOrUpvoteMsg`: the error of the result (`none` for
`sdk.Result{}`) and the state left. -/
def handleReportOrUpvoteMsg (s : PostState) (msg : ReportOrUpvoteMsg) :
    Option PostError × PostState :=
  if !DoesAccountExist s msg.Username then (some (.ErrAccountNotFound msg.Username), s)
  else
    let permlink := GetPermlink msg.Author msg.PostID
    if !DoesPostExist s permlink then (some (.ErrPostNotFound permlink), s)
    else
      match GetStake s msg.Username with
      | .error e => (some e, s)
      | .ok stake =>
        match GetLastReportOrUpvoteAt s msg.Username with
        | .error e => (some e, s)
        | .ok lastReportOrUpvoteAt =>
          match GetPostParam s with
          | .error e => (some e, s)
          | .ok postParam =>
            if addInt64 lastReportOrUpvoteAt postParam.ReportOrUpvoteIntervalSec
                > s.BlockTime then
              (some .ErrReportOrUpvoteTooOften, s)
            else
              match ReportOrUpvoteToPost s permlink msg.Username stake msg.IsReport with
              | .error e => (some e, s)
              | .ok s1 =>
                match UpdateLastReportOrUpvoteAt s1 msg.Username with
                | .error e => (some e, s1)
                | .ok s2 => (none, s2)

/-- The same state at the block time `t`: the state a later message finds when
nothing was written in between. -/
def atTime (s : PostState) (t : Int) : PostState := { s with BlockTime := t }

/-- The three timestamps of an account record. -/
def AccountBank.timestamps (a : AccountBank) : Int × Int × Int :=
  (a.LastActivityAt, a.LastPostAt, a.LastReportOrUpvoteAt)

/-- Between two states no account's timestamps differ. -/
def SameTimestamps (s s' : PostState) : Prop :=
  ∀ k, (s'.accounts.get k).map AccountBank.timestamps
    = (s.accounts.get k).map AccountBank.timestamps

end Lino

/-! ## Donation friction of the `tx/` tree (`tx/post/handler.go`) -/

namespace Lino

namespace Tx

/-- Modelled from the spec: `sdk.Rat.Evaluate` of the SDK, which is not part
of the sources: the integer value of a rational.  Spec 4.1: applying a rate
"truncates (never rounds up)"; spec 8 writes it `floor`. -/
def Evaluate (r : ℚ) : Int := Rat.floor r

/-- Conversion `sdk.NewRat(n)`. -/
def NewRat (n : Int) : ℚ := (n : ℚ)

/-- Errors of `ProcessPostFriction`. -/
inductive TxError where
  | ErrUsernameNotFound
  | ErrGlobalProxy
  | ErrInvalidCoins
  | ErrDonatePostDoesntExist
  | ErrAccountCoinNotEnough
  deriving DecidableEq, Repr

/-- Modelled from the spec: the Global Pool as the global proxy of the `tx/`
tree sees it (the proxy is not part of the sources): the friction rate, the
accumulated consumption and the redistributed (friction) coins. -/
structure GlobalProxy where
  ConsumptionFrictionRate : Option ℚ
  Consumption : Coin
  RedistributeCoin : Coin
  deriving DecidableEq, Repr

/-- Modelled from the spec: the state `ProcessPostFriction` works on: the
account balances (behind the account proxies) and the global proxy. -/
structure TxState where
  accounts : KV AccountKey Coin
  globalProxy : GlobalProxy
  deriving DecidableEq, Repr

/-- Go `ProcessPostFriction` of `tx/post/handler.go`, for the author of the
post: the author's proxy account gets `coin.Minus(redistribute)` and is
applied; the global proxy gets the consumption and the redistributed coin. -/
def ProcessPostFriction (s : TxState) (coin : Coin) (author : AccountKey) :
    Option TxError × TxState :=
  match s.accounts.get author with
  | none => (some .ErrUsernameNotFound, s)
  | some balance =>
    match s.globalProxy.ConsumptionFrictionRate with
    | none => (some .ErrGlobalProxy, s)
    | some consumptionFrictionRate =>
      let redistribute : Coin := ⟨Evaluate (NewRat coin.Amount * consumptionFrictionRate)⟩
      let balance := balance.Plus (coin.Minus redistribute)
      let globalProxy :=
        { s.globalProxy with
          Consumption := s.globalProxy.Consumption.Plus coin,
          RedistributeCoin := s.globalProxy.RedistributeCoin.Plus redistribute }
      (none, { accounts := s.accounts.set author balance, globalProxy := globalProxy })

/-- Modelled from the spec: Go `DonateMsg` of the `tx/` tree, whose
declaration is not part of the sources: the fields `handleDonateMsg` reads. -/
structure DonateMsg where
  Username : AccountKey
  Amount : String
  Author : AccountKey
  PostID : String
  deriving DecidableEq, Repr

/-- Modelled from the spec: the state `handleDonateMsg` of the `tx/` tree
works on (the account and post proxies are not part of the sources): the
block time, the balances and the global proxy, the last-activity time of each
account (spec 4.3 step 6), and the donation ledger of each post (spec 4.3
(d)). -/
structure DonateState where
  BlockTime : Int
  bank : TxState
  lastActivity : KV AccountKey Int
  donations : KV Permlink (List (AccountKey × Coin))
  deriving DecidableEq, Repr

/-- Go `handleDonateMsg` of `tx/post/handler.go`.  The proxies `account` and
`post` hold a copy of their record: `MinusCoin` (which fails on a balance
below the coin, spec 6 `minusBalance`), `AddDonation` and
`UpdateLastActivity` (the time of the current block, spec 4.3 step 6) change
the copy, and `post.Apply`, `account.Apply` write the copies to the store at
the end.  `ProcessPostFriction` works on the store through proxies of its
own. -/
def handleDonateMsg (LinoToCoin : String → Option Coin) (s : DonateState) (msg : DonateMsg) :
    Option TxError × DonateState :=
  match LinoToCoin msg.Amount with
  | none => (some .ErrInvalidCoins, s)
  | some coin =>
    match s.bank.accounts.get msg.Username with
    | none => (some .ErrUsernameNotFound, s)
    | some accountBalance =>
      match s.donations.get (GetPermlink msg.Author msg.PostID) with
      | none => (some .ErrDonatePostDoesntExist, s)
      | some postDonations =>
        if !accountBalance.IsGTE coin then (some .ErrAccountCoinNotEnough, s)
        else
          let accountBalance := accountBalance.Minus coin
          let postDonations := postDonations ++ [(msg.Username, coin)]
          match ProcessPostFriction s.bank coin msg.Author with
          | (some e, bank1) => (some e, { s with bank := bank1 })
          | (none, bank1) =>
            let accountLastActivity := s.BlockTime
            let donations := s.donations.set (GetPermlink msg.Author msg.PostID) postDonations
            let accounts := bank1.accounts.set msg.Username accountBalance
            (none, { s with
              bank := { bank1 with accounts := accounts },
              lastActivity := s.lastActivity.set msg.Username accountLastActivity,
              donations := donations })

end Tx

end Lino

/-! ## Transaction types (`types/tx.go`) -/

namespace Lino

/-- Bytes (`[]byte`, `data.Bytes`, and the bytes of a Go `string`): the list of
the byte values. -/
abbrev Bytes := List Nat

namespace abci

/-- The codes of `abci.Result` (a library type) that `types/tx.go` uses. -/
inductive CodeType where
  | OK
  | BaseInvalidInput
  | BaseInvalidOutput
  deriving DecidableEq, Repr

/-- Library type `abci.Result`: the code and the log messages appended to
it. -/
structure Result where
  Code : CodeType
  Log : List String
  deriving DecidableEq, Repr

/-- Library value `abci.OK`. -/
def OK : Result := { Code := .OK, Log := [] }

/-- Library value `abci.ErrBaseInvalidInput`. -/
def ErrBaseInvalidInput : Result := { Code := .BaseInvalidInput, Log := [] }

/-- Library value `abci.ErrBaseInvalidOutput`. -/
def ErrBaseInvalidOutput : Result := { Code := .BaseInvalidOutput, Log := [] }

/-- Library method `Result.AppendLog`. -/
def Result.AppendLog (r : Result) (log : String) : Result := { r with Log := r.Log ++ [log] }

/-- Library method `Result.IsErr`: the code is not the OK code. -/
def Result.IsErr (r : Result) : Bool := decide (r.Code ≠ .OK)

end abci

namespace Types

/-- Modelled from the spec: `types.Coins`, whose declaration is not part of the
sources (the spec has the single-denomination Coin only): of a value, what
`ValidateBasic` reads, the results of `IsValid()` and `IsZero()`, and the
denominations and amounts as data. -/
structure Coins where
  IsValid : Bool
  IsZero : Bool
  Amounts : List (String × Int)
  deriving DecidableEq, Repr

/-- Library type `crypto.Signature`: `none` is the zero value
`crypto.Signature{}`. -/
abbrev Signature := Option Bytes

/-- Library type `crypto.PubKey`: `none` is the empty key. -/
abbrev PubKey := Option Bytes

/-- Library method `PubKey.Empty`. -/
def PubKey.Empty (pubKey : PubKey) : Bool := pubKey.isNone

/-- Go `TxInput`. -/
structure TxInput where
  Address : Bytes
  Coins : Coins
  Sequence : Int
  Signature : Signature
  PubKey : PubKey
  deriving DecidableEq, Repr

/-- Go `TxInput.ValidateBasic`.  The log of the second error carries the
formatted coins in Go; the log text is not modelled beyond the message. -/
def TxInput.ValidateBasic (txIn : TxInput) : abci.Result :=
  if txIn.Address.length ≠ 20 then
    abci.ErrBaseInvalidInput.AppendLog "Invalid address length"
  else if !txIn.Coins.IsValid then
    abci.ErrBaseInvalidInput.AppendLog "Invalid coins"
  else if txIn.Coins.IsZero then
    abci.ErrBaseInvalidInput.AppendLog "Coins cannot be zero"
  else if txIn.Sequence ≤ 0 then
    abci.ErrBaseInvalidInput.AppendLog "Sequence must be greater than 0"
  else if txIn.Sequence = 1 ∧ PubKey.Empty txIn.PubKey = true then
    abci.ErrBaseInvalidInput.AppendLog "PubKey must be present when Sequence == 1"
  else if txIn.Sequence > 1 ∧ PubKey.Empty txIn.PubKey = false then
    abci.ErrBaseInvalidInput.AppendLog "PubKey must be nil when Sequence > 1"
  else abci.OK

/-- Go `TxOutput`. -/
structure TxOutput where
  Address : Bytes
  Coins : Coins
  deriving DecidableEq, Repr

/-- Library function `bytes.SplitN(s, sep, 2)` for a separator of one byte: the
part before the first separator and the rest after it, or the one part `s`
when `s` has no separator. -/
def SplitN2 (s : Bytes) (sep : Nat) : List Bytes :=
  if sep ∈ s then
    [s.takeWhile (fun b => !decide (b = sep)), (s.dropWhile (fun b => !decide (b = sep))).tail]
  else [s]

/-- Go `TxOutput.ChainAndAddress`: the chain prefix and the address (`none` for
a `nil` slice) and the result. -/
def TxOutput.ChainAndAddress (txOut : TxOutput) : Option Bytes × Option Bytes × abci.Result :=
  let chainPrefix : Option Bytes := none
  let address := txOut.Address
  -- the `if len(address) > 20` block: an early return, or the two values
  let afterSplit : Except abci.Result (Option Bytes × Bytes) :=
    if address.length > 20 then
      match SplitN2 address 0x2f with
      | [p, a] => .ok (some p, a)
      | _ => .error (abci.ErrBaseInvalidOutput.AppendLog "Invalid address format")
    else .ok (chainPrefix, address)
  match afterSplit with
  | .error r => (none, none, r)
  | .ok (chainPrefix, address) =>
    if address.length ≠ 20 then
      (none, none, abci.ErrBaseInvalidOutput.AppendLog "Invalid address length")
    else (chainPrefix, some address, abci.OK)

/-- Go `SendTx`; `Gas` is an `int64`, `Fee` a `Coin`. -/
structure SendTx where
  Gas : Int
  Fee : Coin
  Inputs : List TxInput
  Outputs : List TxOutput
  deriving DecidableEq, Repr

/-- Library function `wire.BinaryBytes` (go-wire is not part of the sources),
left open: the encoding of a chain id and the encoding of a `SendTx`. -/
structure Wire where
  BinaryBytesString : String → Bytes
  BinaryBytesSendTx : SendTx → Bytes

/-- Go `SendTx.SignBytes`: the bytes returned, and the transaction the pointer
`tx` points to after the call.  The first loop saves the signature of every
input in `sigz` and clears it; the second loop writes the saved signatures
back, input by input. -/
def SendTx.SignBytes (wire : Wire) (tx : SendTx) (chainID : String) : Bytes × SendTx :=
  let signBytes := wire.BinaryBytesString chainID
  let sigz := tx.Inputs.map (fun input => input.Signature)
  let tx := { tx with Inputs := tx.Inputs.map (fun input => { input with Signature := none }) }
  let signBytes := signBytes ++ wire.BinaryBytesSendTx tx
  let tx :=
    { tx with
      Inputs := List.zipWith (fun input sig => { input with Signature := sig }) tx.Inputs sigz }
  (signBytes, tx)

/-- Two transactions differ at most in the `Signature` fields of their
inputs. -/
def SendTx.SameButSignatures (tx1 tx2 : SendTx) : Prop :=
  tx1.Gas = tx2.Gas ∧ tx1.Fee = tx2.Fee ∧ tx1.Outputs = tx2.Outputs
    ∧ List.Forall₂ (fun a b => a.Address = b.Address ∧ a.Coins = b.Coins
        ∧ a.Sequence = b.Sequence ∧ a.PubKey = b.PubKey) tx1.Inputs tx2.Inputs

/-- Go `DonateTx`. -/
structure DonateTx where
  Input : TxInput
  To : Bytes
  Fee : Coin
  deriving DecidableEq, Repr

/-- Go `DonateTx.ValidateBasic`. -/
def DonateTx.ValidateBasic (tx : DonateTx) : abci.Result :=
  let err := tx.Input.ValidateBasic
  if !err.IsErr then err
  else abci.OK

/-- Library constant `utf8.RuneError`, the replacement character U+FFFD. -/
def RuneError : Nat := 0xFFFD

/-- Library table `first` with `acceptRanges` of `unicode/utf8`: for the first
byte of a sequence of more than one byte, the length of the sequence and the
range accepted for the second byte; `none` for a byte that starts no such
sequence. -/
def first (s0 : Nat) : Option (Nat × Nat × Nat) :=
  if 0xC2 ≤ s0 ∧ s0 ≤ 0xDF then some (2, 0x80, 0xBF)
  else if s0 = 0xE0 then some (3, 0xA0, 0xBF)
  else if 0xE1 ≤ s0 ∧ s0 ≤ 0xEC then some (3, 0x80, 0xBF)
  else if s0 = 0xED then some (3, 0x80, 0x9F)
  else if 0xEE ≤ s0 ∧ s0 ≤ 0xEF then some (3, 0x80, 0xBF)
  else if s0 = 0xF0 then some (4, 0x90, 0xBF)
  else if 0xF1 ≤ s0 ∧ s0 ≤ 0xF3 then some (4, 0x80, 0xBF)
  else if s0 = 0xF4 then some (4, 0x80, 0x8F)
  else none

/-- Library function `utf8.DecodeRuneInString`: the rune at the start of the
string and its width in bytes; `(RuneError, 1)` for an encoding that is not
valid, `(RuneError, 0)` for the empty string.  The masks and shifts of the Go
code are written as remainders and products. -/
def DecodeRuneInString : Bytes → Nat × Nat
  | [] => (RuneError, 0)
  | s0 :: rest =>
    if s0 < 0x80 then (s0, 1)
    else
      match first s0 with
      | none => (RuneError, 1)
      | some (sz, lo, hi) =>
        if (s0 :: rest).length < sz then (RuneError, 1)
        else
          match rest with
          | [] => (RuneError, 1)
          | s1 :: rest1 =>
            if s1 < lo ∨ hi < s1 then (RuneError, 1)
            else if sz = 2 then (s0 % 32 * 64 + s1 % 64, 2)
            else
              match rest1 with
              | [] => (RuneError, 1)
              | s2 :: rest2 =>
                if s2 < 0x80 ∨ 0xBF < s2 then (RuneError, 1)
                else if sz = 3 then (s0 % 16 * 4096 + s1 % 64 * 64 + s2 % 64, 3)
                else
                  match rest2 with
                  | [] => (RuneError, 1)
                  | s3 :: _ =>
                    if s3 < 0x80 ∨ 0xBF < s3 then (RuneError, 1)
                    else (s0 % 8 * 262144 + s1 % 64 * 4096 + s2 % 64 * 64 + s3 % 64, 4)

/-- Library function `utf8.ValidString`, as a loop over the string with one
step per rune; `fuel` bounds the number of steps. -/
def validString : Nat → Bytes → Bool
  | _, [] => true
  | 0, _ :: _ => false
  | fuel + 1, b :: rest =>
    if b < 0x80 then validString fuel rest
    else
      let r := DecodeRuneInString (b :: rest)
      if r.1 = RuneError ∧ r.2 = 1 then false
      else validString fuel (rest.drop (r.2 - 1))

/-- Library function `utf8.ValidString`: the string is valid UTF-8.  A string
has at most as many runes as bytes. -/
def ValidString (s : Bytes) : Bool := validString s.length s

/-- The digit `"0123456789abcdef"[n]` of `encoding/json`. -/
def hex (n : Nat) : Nat := if n < 10 then 0x30 + n else 0x57 + n

/-- What the string encoder of `encoding/json` (with `escapeHTML` set, as
`json.Marshal` sets it) writes for a byte below `utf8.RuneSelf`: the byte
itself, or `\\`, `\"`, `\n`, `\r`, `\t`, or `\u00XX` for the other bytes below
0x20 and for `<`, `>`, `&`. -/
def escapeByte (b : Nat) : Bytes :=
  if 0x20 ≤ b ∧ b ≠ 0x5c ∧ b ≠ 0x22 ∧ b ≠ 0x3c ∧ b ≠ 0x3e ∧ b ≠ 0x26 then [b]
  else if b = 0x5c ∨ b = 0x22 then [0x5c, b]
  else if b = 0x0a then [0x5c, 0x6e]
  else if b = 0x0d then [0x5c, 0x72]
  else if b = 0x09 then [0x5c, 0x74]
  else [0x5c, 0x75, 0x30, 0x30, hex (b / 16), hex (b % 16)]

/-- The loop of the string encoder of `encoding/json` (library code), from the
position it has reached; `fuel` bounds the number of steps.  A byte that
starts no valid encoding is written as the six characters `\ufffd`; U+2028 and
U+2029 are written as `\u2028` and `\u2029`; every other rune is copied. -/
def encodeString : Nat → Bytes → Bytes
  | _, [] => []
  | 0, _ :: _ => []
  | fuel + 1, b :: rest =>
    if b < 0x80 then escapeByte b ++ encodeString fuel rest
    else
      let r := DecodeRuneInString (b :: rest)
      if r.1 = RuneError ∧ r.2 = 1 then
        [0x5c, 0x75, 0x66, 0x66, 0x66, 0x64] ++ encodeString fuel rest
      else if r.1 = 0x2028 ∨ r.1 = 0x2029 then
        [0x5c, 0x75, 0x32, 0x30, 0x32, hex (r.1 % 16)] ++ encodeString fuel (rest.drop (r.2 - 1))
      else (b :: rest).take r.2 ++ encodeString fuel (rest.drop (r.2 - 1))

/-- Library function `json.Marshal` on a string: the encoded string between
double quotes.  The loop takes at most one step per byte. -/
def Marshal (str : Bytes) : Bytes := [0x22] ++ encodeString str.length str ++ [0x22]

/-- Go `jsonEscape`: `json.Marshal` returns no error for a string. -/
def jsonEscape (str : Bytes) : Bytes := Marshal str

/-- The value of a hexadecimal digit. -/
def hexVal (c : Nat) : Option Nat :=
  if 0x30 ≤ c ∧ c ≤ 0x39 then some (c - 0x30)
  else if 0x61 ≤ c ∧ c ≤ 0x66 then some (c - 0x57)
  else if 0x41 ≤ c ∧ c ≤ 0x46 then some (c - 0x37)
  else none

/-- Library function `utf8.EncodeRune` for a rune below 0x10000; a surrogate
is written as the replacement character. -/
def EncodeRune (r : Nat) : Bytes :=
  if r < 0x80 then [r]
  else if r < 0x800 then [0xC0 + r / 64, 0x80 + r % 64]
  else if 0xD800 ≤ r ∧ r ≤ 0xDFFF then [0xEF, 0xBF, 0xBD]
  else [0xE0 + r / 4096, 0x80 + r / 64 % 64, 0x80 + r % 64]

/-- The character a two-byte escape `\c` of JSON stands for. -/
def unescapeChar (c : Nat) : Option Nat :=
  if c = 0x22 ∨ c = 0x5c ∨ c = 0x2f then some c
  else if c = 0x62 then some 0x08
  else if c = 0x66 then some 0x0c
  else if c = 0x6e then some 0x0a
  else if c = 0x72 then some 0x0d
  else if c = 0x74 then some 0x09
  else none

/-- JSON decoding of the inside of a string literal, up to the closing quote,
which must end the input: an escape is replaced by what it stands for, a
control character is refused, every other byte is copied (surrogate pairs are
not put together: the encoder writes none). -/
def unquoteBody : Bytes → Option Bytes
  | [] => none
  | b :: rest =>
    if b = 0x22 then (if rest = [] then some [] else none)
    else if b = 0x5c then
      match rest with
      | [] => none
      | c :: rest1 =>
        if c = 0x75 then
          match rest1 with
          | h1 :: h2 :: h3 :: h4 :: rest2 =>
            match hexVal h1, hexVal h2, hexVal h3, hexVal h4 with
            | some d1, some d2, some d3, some d4 =>
              (unquoteBody rest2).map
                (fun t => EncodeRune (d1 * 4096 + d2 * 256 + d3 * 16 + d4) ++ t)
            | _, _, _, _ => none
          | _ => none
        else
          match unescapeChar c with
          | none => none
          | some x => (unquoteBody rest1).map (fun t => x :: t)
    else if b < 0x20 then none
    else (unquoteBody rest).map (fun t => b :: t)

/-- JSON decoding of a string literal (`json.Unmarshal` into a string). -/
def Unmarshal : Bytes → Option Bytes
  | [] => none
  | b :: rest => if b = 0x22 then unquoteBody rest else none

end Types

end Lino

/-! ## Example states -/

namespace Lino

/-- A store with one voter `v` (deposit 100, delegated power 10) and the one
delegation `d1 -> v` of amount 10. -/
def exVoteState : VoteState :=
  { voters := [("v", { Username := "v", Deposit := ⟨100⟩, DelegatedPower := ⟨10⟩ })],
    delegations := [(("v", "d1"), { Delegator := "d1", Amount := ⟨10⟩ })],
    votes := [],
    referenceList := some { AllValidators := [] },
    voteParam := some { VoterMinDeposit := ⟨0⟩, VoterMinWithdraw := ⟨0⟩,
                        DelegatorMinWithdraw := ⟨0⟩ },
    validatorParam := some { ValidatorMinVotingDeposit := ⟨0⟩ } }

/-- The same store with the protocol's usual positive minimum deposit. -/
def exVoteStateMin : VoteState :=
  { exVoteState with
    voteParam := some { VoterMinDeposit := ⟨1000⟩, VoterMinWithdraw := ⟨1⟩,
                        DelegatorMinWithdraw := ⟨1⟩ } }

/-- The empty store, with the protocol's usual positive minimum deposit. -/
def exEmptyState : VoteState :=
  { exVoteStateMin with voters := [], delegations := [] }

/-- The store with the one voter `v` (deposit 1000) and no delegation. -/
def exVoterOnlyState : VoteState :=
  { exVoteStateMin with
    voters := [("v", { Username := "v", Deposit := ⟨1000⟩, DelegatedPower := ⟨0⟩ })],
    delegations := [] }

/-- A store with minimum deposit 1000 and minimum withdrawals 1: voter `v`
(deposit 3000) with the delegation `d1 -> v` of 10, and voter `w` (deposit
5000), who is a validator. -/
def exLegalState : VoteState :=
  { exVoteStateMin with
    voters := [("v", { Username := "v", Deposit := ⟨3000⟩, DelegatedPower := ⟨10⟩ }),
               ("w", { Username := "w", Deposit := ⟨5000⟩, DelegatedPower := ⟨0⟩ })],
    referenceList := some { AllValidators := ["w"] } }

/-- The store `exVoteState` with the one vote of validator `A` on proposal
`p1`. -/
def exVotedState : VoteState :=
  { exVoteState with
    votes := [(("p1", "A"), { Voter := "A", Result := true, VotingPower := ⟨100⟩ })] }

/-- The store of `TestValidatorDeposit`: `newUser` has made a voter deposit of
3000 LNO (`3000 * Decimals` coins, `Decimals = 100000`), taken here as the
validators' minimum voting deposit. -/
def exValidatorState : VoteState :=
  { exVoteState with
    voters := [("newUser", { Username := "newUser", Deposit := ⟨3000 * 100000⟩,
                             DelegatedPower := ⟨0⟩ })],
    validatorParam := some { ValidatorMinVotingDeposit := ⟨3000 * 100000⟩ } }

/-- Collaborators for the examples: two amounts parse, the evaluated reward
is the donated amount, the pool accepts every event. -/
def exEnv : Env :=
  { LinoToCoin := fun a =>
      if a = "0.00030" then some ⟨30⟩
      else if a = "0.00033" then some ⟨33⟩
      else none,
    EvaluateConsumption := fun coin _ _ _ => some coin,
    RejectsRewardEvent := fun _ => false,
    NewRatFromDecimal := fun d =>
      if d = "0.5" then some (1/2)
      else if d = "2" then some 2
      else if d = "-1" then some (-1)
      else none,
    RejectsPost := fun _ _ => false }

/-- The collaborators of `exEnv`, with a pool that rejects the reward events of
the posts of `bob`. -/
def exEnvRejectBob : Env :=
  { exEnv with RejectsRewardEvent := fun rewardEvent => decide (rewardEvent.PostAuthor = "bob") }

def exAccount (saving : Int) : AccountBank :=
  { Saving := ⟨saving⟩, Stake := ⟨7⟩, DirectDeposit := ⟨0⟩, LastActivityAt := 0,
    LastPostAt := 0, LastReportOrUpvoteAt := 0 }

def exPost (sourceAuthor : AccountKey) (sourcePostID : String) (rate : ℚ) (deleted : Bool) :
    Post :=
  { Title := "", Content := "", Links := [], ParentAuthor := "", ParentPostID := "",
    Comments := [],
    SourceAuthor := sourceAuthor, SourcePostID := sourcePostID,
    RedistributionSplitRate := rate, IsDeleted := deleted, CreatedAt := 0,
    TotalReward := ⟨0⟩, TotalDonation := ⟨0⟩, Donations := [], ReportOrUpvotes := [] }

/-- Accounts `alice` (balance 100), `bob`, `dave`; no account `carol`.  Posts:
`bob/p1` derived from `carol/s1`; `bob/p2` original; `bob/p3` derived from
`dave/s2` (split rate 1/4); `bob/gone` deleted.  Friction rate 1/10. -/
def exPostState : PostState :=
  { BlockTime := 1000,
    postParam := some { PostIntervalSec := 600, ReportOrUpvoteIntervalSec := 60 },
    accounts := [("alice", exAccount 100), ("bob", exAccount 50), ("dave", exAccount 0)],
    relationships := [],
    posts := [(("bob", "p1"), exPost "carol" "s1" 0 false),
              (("carol", "s1"), exPost "" "" (1/2) false),
              (("bob", "p2"), exPost "" "" 0 false),
              (("bob", "p3"), exPost "dave" "s2" 0 false),
              (("dave", "s2"), exPost "" "" (1/4) false),
              (("bob", "gone"), exPost "" "" 0 true)],
    developers := ["app"],
    pool := { ConsumptionFrictionRate := some (1/10), Consumption := ⟨0⟩,
              InflationPool := ⟨0⟩, RewardEvents := [] } }

/-- The message `alice` donates 33 coins to `bob/postID`. -/
def exDonate (postID : String) : DonateMsg :=
  { Username := "alice", Amount := "0.00033", Author := "bob", PostID := postID,
    FromApp := "", Memo := "" }

/-- The message `bob` donates 33 coins to his own post `bob/postID`. -/
def exSelfDonate (postID : String) : DonateMsg :=
  { Username := "bob", Amount := "0.00033", Author := "bob", PostID := postID,
    FromApp := "", Memo := "" }

/-- The message: `alice` creates the post `alice/postID`, with the parent
`parentAuthor/parentPostID` and the split rate `rate`. -/
def exCreate (postID : String) (parentAuthor : AccountKey) (parentPostID : String)
    (rate : String) : CreatePostMsg :=
  { Author := "alice", PostID := postID, Title := "t", Content := "c",
    ParentAuthor := parentAuthor, ParentPostID := parentPostID,
    SourceAuthor := "", SourcePostID := "", Links := [],
    RedistributionSplitRate := rate }

/-- The message: `alice` donates an amount that does not convert to the post
`bob/postID`. -/
def exBadDonate (postID : String) : DonateMsg :=
  { Username := "alice", Amount := "abc", Author := "bob", PostID := postID,
    FromApp := "", Memo := "" }

/-- The message: `alice` reports the post `bob/postID`. -/
def exReport (postID : String) : ReportOrUpvoteMsg :=
  { Username := "alice", Author := "bob", PostID := postID, IsReport := true }

/-- The message: `bob` updates his post `bob/postID`. -/
def exUpdate (postID : String) : UpdatePostMsg :=
  { Author := "bob", PostID := postID, Title := "t2", Content := "c2", Links := [] }

/-- A `tx/` state at block time 1000: `alice` with balance 100 and `bob` with
balance 0, the post `bob/p2` without donations, friction rate 1/10. -/
def exTxDonateState : Tx.DonateState :=
  { BlockTime := 1000,
    bank := { accounts := [("alice", ⟨100⟩), ("bob", ⟨0⟩)],
              globalProxy := { ConsumptionFrictionRate := some (1/10), Consumption := ⟨0⟩,
                               RedistributeCoin := ⟨0⟩ } },
    lastActivity := [("alice", 0), ("bob", 0)],
    donations := [(("bob", "p2"), [])] }

/-- The `tx/` message: `alice` donates 33 coins to `bob/p2`. -/
def exTxDonate : Tx.DonateMsg :=
  { Username := "alice", Amount := "0.00033", Author := "bob", PostID := "p2" }

/-- An encoding for the examples: a chain id is encoded by its length, a
`SendTx` by the addresses and the signatures of its inputs. -/
def exWire : Types.Wire :=
  { BinaryBytesString := fun chainID => [chainID.length],
    BinaryBytesSendTx := fun tx =>
      (tx.Inputs.map (fun input => input.Address ++ input.Signature.getD [])).flatten }

/-- A `SendTx` with one input, of address `1, 2` and sequence 2, signed with
`sig`, and no output. -/
def exSendTx (sig : Types.Signature) : Types.SendTx :=
  { Gas := 0, Fee := ⟨0⟩,
    Inputs := [{ Address := [1, 2], Coins := ⟨true, false, [("lino", 5)]⟩, Sequence := 2,
                 Signature := sig, PubKey := none }],
    Outputs := [] }

/-- A `tx/` state: `bob` with balance 0, friction rate 1/10. -/
def exTxState : Tx.TxState :=
  { accounts := [("bob", ⟨0⟩)],
    globalProxy := { ConsumptionFrictionRate := some (1/10), Consumption := ⟨0⟩,
                     RedistributeCoin := ⟨0⟩ } }

end Lino

/-! ## Store lemmas -/

namespace Lino

namespace KV

variable {K V : Type} [DecidableEq K]

theorem get_set_self (m : KV K V) (k : K) (v : V) : get (set m k v) k = some v := by
  induction m with
  | nil => simp [set, get]
  | cons p t ih =>
    obtain ⟨k', v'⟩ := p
    by_cases h : k' = k
    · simp [set, get, h]
    · simp [set, get, h, ih]

theorem get_set_of_ne (m : KV K V) (k k' : K) (v : V) (h : k' ≠ k) :
    get (set m k v) k' = get m k' := by
  induction m with
  | nil => simp [set, get, Ne.symm h]
  | cons p t ih =>
    obtain ⟨k0, v0⟩ := p
    by_cases h0 : k0 = k
    · subst h0
      simp [set, get, Ne.symm h]
    · by_cases h1 : k0 = k'
      · subst h1
        simp [set, get, h0]
      · simp [set, get, h0, h1, ih]

theorem get_delete_self (m : KV K V) (k : K) : get (delete m k) k = none := by
  induction m with
  | nil => simp [delete, get]
  | cons p t ih =>
    obtain ⟨k0, v0⟩ := p
    by_cases h0 : k0 = k
    · simpa [delete, List.filter_cons, h0] using ih
    · simpa [delete, List.filter_cons, h0, get] using ih

theorem get_delete_of_ne (m : KV K V) (k k' : K) (h : k' ≠ k) :
    get (delete m k) k' = get m k' := by
  induction m with
  | nil => simp [delete, get]
  | cons p t ih =>
    obtain ⟨k0, v0⟩ := p
    by_cases h0 : k0 = k
    · subst h0
      simpa [delete, List.filter_cons, get, Ne.symm h] using ih
    · by_cases h1 : k0 = k'
      · subst h1
        simp [delete, List.filter_cons, h0, get]
      · simpa [delete, List.filter_cons, h0, get, h1] using ih

end KV

end Lino

/-! ## Vote manager: theorems -/

namespace Lino

namespace VoteManager

open VoteStorage

/-- C1 (delegation conservation), at the failing input.  In `exVoteState` the
delegated power of `v` (10) equals the sum of the stored delegations to `v`
(10).  `DelegatorWithdraw v d2 5`, for a delegator `d2` that has no
delegation, returns `ErrGetDelegation`, yet afterwards the delegated power of
`v` is 5 while the stored delegations to `v` still sum to 10. -/
theorem C1_conservation_broken_by_failed_withdraw :
    (exVoteState.voters.get "v").map (fun v => v.DelegatedPower.Amount)
        = some (delegationSum exVoteState "v")
      ∧ (DelegatorWithdraw exVoteState "v" "d2" ⟨5⟩).1 = some VoteError.ErrGetDelegation
      ∧ ((DelegatorWithdraw exVoteState "v" "d2" ⟨5⟩).2.voters.get "v").map
          (fun v => v.DelegatedPower.Amount) = some 5
      ∧ delegationSum (DelegatorWithdraw exVoteState "v" "d2" ⟨5⟩).2 "v" = 10 := by
  decide

/-- C9 (DelegatorWithdraw is all-or-nothing), at the failing input.
`DelegatorWithdraw v d2 5` on `exVoteState`, where `d2` has no delegation,
returns an error, the Delegation records are untouched, but the Voter record
of `v` has been rewritten with its delegated power reduced from 10 to 5. -/
theorem C9_failed_withdraw_rewrites_voter :
    (DelegatorWithdraw exVoteState "v" "d2" ⟨5⟩).1 = some VoteError.ErrGetDelegation
      ∧ (DelegatorWithdraw exVoteState "v" "d2" ⟨5⟩).2.delegations = exVoteState.delegations
      ∧ exVoteState.voters.get "v"
          = some { Username := "v", Deposit := ⟨100⟩, DelegatedPower := ⟨10⟩ }
      ∧ (DelegatorWithdraw exVoteState "v" "d2" ⟨5⟩).2.voters.get "v"
          = some { Username := "v", Deposit := ⟨100⟩, DelegatedPower := ⟨5⟩ }
      ∧ (DelegatorWithdraw exVoteState "v" "d2" ⟨5⟩).2 ≠ exVoteState := by
  decide

/-- C10, counterexample.  With `VoterMinDeposit = 0`, `AddVoter u 0` succeeds,
but the following `VoterWithdrawAll u` fails with `ErrInvalidCoin` (the
zero-coin guard of `VoterWithdraw`) and the Voter record of `u` stays. -/
theorem C10_zero_deposit_roundtrip_fails :
    (AddVoter exVoteState "u" ⟨0⟩).1 = none
      ∧ (VoterWithdrawAll (AddVoter exVoteState "u" ⟨0⟩).2 "u").2.1
          = some VoteError.ErrInvalidCoin
      ∧ DoesVoterExist (VoterWithdrawAll (AddVoter exVoteState "u" ⟨0⟩).2 "u").2.2 "u"
          = true := by
  decide

/-- C10, amended (deposit/withdraw round trip).  For every account `u` and
every NON-ZERO coin `D` for which `AddVoter u D` succeeds, the following
`VoterWithdrawAll u` succeeds, returns exactly `D`, and leaves no Voter record
for `u`. -/
theorem C10_roundtrip (s s1 : VoteState) (u : AccountKey) (D : Coin)
    (hD : D.Amount ≠ 0) (hadd : AddVoter s u D = (none, s1)) :
    ∃ s2, VoterWithdrawAll s1 u = (D, none, s2)
      ∧ DoesVoterExist s2 u = false ∧ s2.voters.get u = none := by
  unfold AddVoter at hadd
  cases hp : GetVoteParam s with
  | error e => simp [hp] at hadd
  | ok param =>
    simp only [hp] at hadd
    split at hadd
    · simp at hadd
    · simp only [Prod.mk.injEq, true_and] at hadd
      subst hadd
      refine ⟨DeleteVoter (SetVoter s u ⟨u, D, ⟨0⟩⟩) u, ?_, ?_, ?_⟩
      · simp [VoterWithdrawAll, VoterWithdraw, GetVoter, SetVoter, KV.get_set_self,
          Coin.IsZero, Coin.Minus, hD]
      · simp [DoesVoterExist, DeleteVoter, KV.has, KV.get_delete_self]
      · simp [DeleteVoter, KV.get_delete_self]

/-- C10, amended: witness.  `AddVoter u 3000` on `exVoteStateMin` (minimum
deposit 1000) followed by `VoterWithdrawAll u`. -/
theorem C10_roundtrip_witness :
    ∃ s2, VoterWithdrawAll (AddVoter exVoteStateMin "u" ⟨3000⟩).2 "u" = (⟨3000⟩, none, s2)
      ∧ DoesVoterExist s2 "u" = false ∧ s2.voters.get "u" = none :=
  C10_roundtrip exVoteStateMin (AddVoter exVoteStateMin "u" ⟨3000⟩).2 "u" ⟨3000⟩
    (by decide) (by decide)

end VoteManager

end Lino

/-! ## Delegation conservation along successful calls -/

namespace Lino

namespace KV

variable {K V : Type} [DecidableEq K]

theorem total_set (P : K → Bool) (f : V → Int) (m : KV K V) (k : K) (x : V)
    (hk : P k = true) :
    total P f (set m k x) = total P f m - ((get m k).map f).getD 0 + f x := by
  induction m with
  | nil => simp [set, get, total, hk]
  | cons p t ih =>
    obtain ⟨k0, v0⟩ := p
    by_cases h0 : k0 = k
    · subst h0
      simp [set, get, total, hk, List.filter_cons]
      ring
    · unfold total at ih
      by_cases hp : P k0 = true
      · simp [set, get, total, h0, hp, List.filter_cons, ih]
        ring
      · simp [set, get, total, h0, hp, List.filter_cons, ih]

theorem delete_of_not_mem (m : KV K V) (k : K) (h : k ∉ m.map Prod.fst) : delete m k = m := by
  induction m with
  | nil => simp [delete]
  | cons p t ih =>
    obtain ⟨k0, v0⟩ := p
    simp only [List.map_cons, List.mem_cons, not_or] at h
    have h0 : k0 ≠ k := fun e => h.1 e.symm
    have := ih h.2
    unfold delete at this ⊢
    rw [List.filter_cons, if_pos (by simpa using h0), this]

theorem total_delete (P : K → Bool) (f : V → Int) (m : KV K V) (k : K)
    (hm : (m.map Prod.fst).Nodup) (hk : P k = true) :
    total P f (delete m k) = total P f m - ((get m k).map f).getD 0 := by
  induction m with
  | nil => simp [delete, get, total]
  | cons p t ih =>
    obtain ⟨k0, v0⟩ := p
    simp only [List.map_cons, List.nodup_cons] at hm
    by_cases h0 : k0 = k
    · subst h0
      have hd : delete ((k0, v0) :: t) k0 = t := by
        have := delete_of_not_mem t k0 hm.1
        unfold delete at this ⊢
        rw [List.filter_cons, if_neg (by simp), this]
      rw [hd]
      simp [get, total, hk, List.filter_cons]
    · have hd : delete ((k0, v0) :: t) k = (k0, v0) :: delete t k := by
        unfold delete
        simp [List.filter_cons, h0]
      have ih' := ih hm.2
      unfold total at ih' ⊢
      rw [hd]
      by_cases hp : P k0 = true
      · simp [get, h0, hp, List.filter_cons, ih']
        ring
      · simp [get, h0, hp, List.filter_cons, ih']

theorem keys_set (m : KV K V) (k : K) (x : V) :
    ∀ k', k' ∈ (set m k x).map Prod.fst ↔ k' = k ∨ k' ∈ m.map Prod.fst := by
  induction m with
  | nil => simp [set]
  | cons p t ih =>
    obtain ⟨k0, v0⟩ := p
    intro k'
    by_cases h0 : k0 = k
    · subst h0
      simp [set]
    · have := ih k'
      simp only [set, h0, if_false, List.map_cons, List.mem_cons, this]
      tauto

theorem nodup_set (m : KV K V) (k : K) (x : V) (hm : (m.map Prod.fst).Nodup) :
    ((set m k x).map Prod.fst).Nodup := by
  induction m with
  | nil => simp [set]
  | cons p t ih =>
    obtain ⟨k0, v0⟩ := p
    simp only [List.map_cons, List.nodup_cons] at hm
    by_cases h0 : k0 = k
    · subst h0
      simpa [set] using hm
    · simp only [set, h0, if_false, List.map_cons, List.nodup_cons]
      refine ⟨?_, ih hm.2⟩
      rw [keys_set]
      rintro (h | h)
      · exact h0 h
      · exact hm.1 h

theorem nodup_delete (m : KV K V) (k : K) (hm : (m.map Prod.fst).Nodup) :
    ((delete m k).map Prod.fst).Nodup := by
  unfold delete
  exact (List.Nodup.sublist ((List.filter_sublist m).map Prod.fst) hm)

end KV

namespace VoteManager

open VoteStorage

theorem delegationSum_eq_total (s : VoteState) (v : AccountKey) :
    delegationSum s v
      = KV.total (fun k => decide (k.1 = v)) (fun d => d.Amount.Amount) s.delegations := by
  simp [delegationSum, GetAllDelegations, KV.total, List.map_map, Function.comp_def]

/-- Delegation conservation is kept by every `AddDelegation` on the voter. -/
theorem AddDelegation_conserved (s : VoteState) (v d : AccountKey) (coin : Coin)
    (h : Conserved s v) :
    (AddDelegation s v d coin).1 = none ∧ Conserved (AddDelegation s v d coin).2 v := by
  obtain ⟨hnd, voter, hv, hsum⟩ := h
  rw [delegationSum_eq_total] at hsum
  unfold AddDelegation
  cases hd : s.delegations.get (v, d) with
  | none =>
    simp only [DoesDelegationExist, KV.has, hd, Option.isSome_none, Bool.not_false, if_true,
      GetVoter, hv, true_and]
    refine ⟨KV.nodup_set _ _ _ hnd, _, KV.get_set_self _ _ _, ?_⟩
    rw [delegationSum_eq_total]
    simp only [SetVoter, SetDelegation]
    rw [KV.total_set _ _ _ _ _ (by simp), hd]
    simp [Coin.Plus, Coin.NewCoinFromInt64, hsum]
  | some del =>
    simp only [DoesDelegationExist, KV.has, hd, Option.isSome_some, Bool.not_true,
      Bool.false_eq_true, if_false, GetDelegation, GetVoter, hv, true_and]
    refine ⟨KV.nodup_set _ _ _ hnd, _, KV.get_set_self _ _ _, ?_⟩
    rw [delegationSum_eq_total]
    simp only [SetVoter, SetDelegation]
    rw [KV.total_set _ _ _ _ _ (by simp), hd]
    simp [Coin.Plus, hsum]
    ring

/-- Delegation conservation is kept by every `DelegatorWithdraw` on the voter
that returns `nil`, and by one that rejects a zero coin. -/
theorem DelegatorWithdraw_conserved (s s' : VoteState) (v d : AccountKey) (coin : Coin)
    (r : Option VoteError) (h : Conserved s v)
    (hw : DelegatorWithdraw s v d coin = (r, s'))
    (hr : r = none ∨ r = some .ErrInvalidCoin) : Conserved s' v := by
  obtain ⟨hnd, voter, hv, hsum⟩ := h
  rw [delegationSum_eq_total] at hsum
  unfold DelegatorWithdraw at hw
  by_cases hz : coin.IsZero = true
  · simp only [hz, if_true, Prod.mk.injEq] at hw
    rw [← hw.2]
    exact ⟨hnd, voter, hv, by rw [delegationSum_eq_total]; exact hsum⟩
  simp only [hz, Bool.false_eq_true, if_false, GetVoter, hv] at hw
  cases hd : s.delegations.get (v, d) with
  | none =>
    simp only [GetDelegation, SetVoter, hd, Prod.mk.injEq] at hw
    rcases hr with hr | hr <;> simp [hr] at hw
  | some del =>
    simp only [GetDelegation, SetVoter, hd] at hw
    split at hw
    · simp only [Prod.mk.injEq] at hw
      rw [← hw.2]
      refine ⟨KV.nodup_delete _ _ hnd, _, KV.get_set_self _ _ _, ?_⟩
      rw [delegationSum_eq_total]
      simp only [DeleteDelegation]
      rw [KV.total_delete _ _ _ _ hnd (by simp), hd]
      have hzero : del.Amount.Amount - coin.Amount = 0 := by
        simpa [Coin.IsZero, Coin.Minus] using ‹(del.Amount.Minus coin).IsZero = true›
      simp only [Coin.Minus, hsum, Option.map_some', Option.getD_some]
      omega
    · simp only [Prod.mk.injEq] at hw
      rw [← hw.2]
      refine ⟨KV.nodup_set _ _ _ hnd, _, KV.get_set_self _ _ _, ?_⟩
      rw [delegationSum_eq_total]
      simp only [SetDelegation]
      rw [KV.total_set _ _ _ _ _ (by simp), hd]
      simp [Coin.Minus, hsum]

end VoteManager

end Lino

/-! ## Vote manager: votes -/

namespace Lino

namespace VoteManager

open VoteStorage

theorem AddDelegation_votes (s : VoteState) (v d : AccountKey) (c : Coin) :
    (AddDelegation s v d c).2.votes = s.votes := by
  unfold AddDelegation
  simp only []
  split
  · rfl
  · split <;> rfl

theorem AddVoter_votes (s : VoteState) (u : AccountKey) (c : Coin) :
    (AddVoter s u c).2.votes = s.votes := by
  unfold AddVoter
  simp only []
  split
  · rfl
  · split <;> rfl

theorem Deposit_votes (s : VoteState) (u : AccountKey) (c : Coin) :
    (Deposit s u c).2.votes = s.votes := by
  unfold Deposit
  split <;> rfl

theorem VoterWithdraw_votes (s : VoteState) (u : AccountKey) (c : Coin) :
    (VoterWithdraw s u c).2.votes = s.votes := by
  unfold VoterWithdraw
  split
  · rfl
  · split
    · rfl
    · simp only []
      split <;> rfl

theorem VoterWithdrawAll_votes (s : VoteState) (u : AccountKey) :
    (VoterWithdrawAll s u).2.2.votes = s.votes := by
  unfold VoterWithdrawAll
  split
  · rfl
  · rename_i voter _
    have h := VoterWithdraw_votes s u voter.Deposit
    split <;> rename_i hw <;> rw [hw] at h <;> exact h

theorem DelegatorWithdraw_votes (s : VoteState) (v d : AccountKey) (c : Coin) :
    (DelegatorWithdraw s v d c).2.votes = s.votes := by
  unfold DelegatorWithdraw
  split
  · rfl
  · split
    · rfl
    · simp only []
      split
      · rfl
      · split <;> rfl

theorem DelegatorWithdrawAll_votes (s : VoteState) (v d : AccountKey) :
    (DelegatorWithdrawAll s v d).2.2.votes = s.votes := by
  unfold DelegatorWithdrawAll
  split
  · rfl
  · rename_i del _
    have h := DelegatorWithdraw_votes s v d del.Amount
    split <;> rename_i hw <;> rw [hw] at h <;> exact h

/-- No call of the vote manager changes a vote that is stored. -/
theorem run_keeps_vote (op : VoteOp) (s : VoteState) (k : ProposalKey × AccountKey)
    (vote : Vote) (h : s.votes.get k = some vote) : (op.run s).votes.get k = some vote := by
  cases op with
  | AddVote p v res =>
    simp only [VoteOp.run, AddVote]
    by_cases he : DoesVoteExist s p v = true
    · simpa [he] using h
    · simp only [he, Bool.false_eq_true, if_false]
      split
      · exact h
      · have hne : k ≠ (p, v) := by
          intro hk
          subst hk
          simp [DoesVoteExist, KV.has, h] at he
        simp only [SetVote]
        rw [KV.get_set_of_ne _ _ _ _ hne]
        exact h
  | AddDelegation v d c => simpa [VoteOp.run, AddDelegation_votes] using h
  | AddVoter u c => simpa [VoteOp.run, AddVoter_votes] using h
  | Deposit u c => simpa [VoteOp.run, Deposit_votes] using h
  | VoterWithdraw u c => simpa [VoteOp.run, VoterWithdraw_votes] using h
  | VoterWithdrawAll u => simpa [VoteOp.run, VoterWithdrawAll_votes] using h
  | DelegatorWithdraw v d c => simpa [VoteOp.run, DelegatorWithdraw_votes] using h
  | DelegatorWithdrawAll v d => simpa [VoteOp.run, DelegatorWithdrawAll_votes] using h

theorem runAll_keeps_vote (ops : List VoteOp) (s : VoteState) (k : ProposalKey × AccountKey)
    (vote : Vote) (h : s.votes.get k = some vote) :
    (runAll ops s).votes.get k = some vote := by
  induction ops generalizing s with
  | nil => exact h
  | cons op t ih => exact ih (op.run s) (run_keeps_vote op s k vote h)

/-- C11 (votes are write-once).  Once a vote for `(proposal, voter)` is
stored, then after any sequence of vote-manager calls (`AddVote`, `Deposit`,
`VoterWithdraw`, `AddDelegation`, `DelegatorWithdraw`, and the others too) the
stored vote is the same record, with the same result and voting power, and an
`AddVote` for the same pair fails with `ErrVoteAlreadyExist` and writes
nothing. -/
theorem C11_votes_write_once (s : VoteState) (proposalID : ProposalKey) (voter : AccountKey)
    (vote : Vote) (h : s.votes.get (proposalID, voter) = some vote)
    (ops : List VoteOp) (res : Bool) :
    (runAll ops s).votes.get (proposalID, voter) = some vote
      ∧ AddVote (runAll ops s) proposalID voter res
          = (some VoteError.ErrVoteAlreadyExist, runAll ops s) := by
  have hk := runAll_keeps_vote ops s (proposalID, voter) vote h
  refine ⟨hk, ?_⟩
  simp [AddVote, DoesVoteExist, KV.has, hk]

/-- C11, witness: the vote of `A` on `p1` (voting power 100), then a deposit,
a second vote and a withdrawal by `A`. -/
theorem C11_votes_write_once_witness :
    (runAll [VoteOp.AddVoter "A" ⟨5⟩, VoteOp.Deposit "A" ⟨7⟩, VoteOp.AddVote "p1" "A" false,
        VoteOp.VoterWithdraw "A" ⟨3⟩] exVotedState).votes.get ("p1", "A")
        = some { Voter := "A", Result := true, VotingPower := ⟨100⟩ }
      ∧ AddVote (runAll [VoteOp.AddVoter "A" ⟨5⟩, VoteOp.Deposit "A" ⟨7⟩,
            VoteOp.AddVote "p1" "A" false, VoteOp.VoterWithdraw "A" ⟨3⟩] exVotedState)
          "p1" "A" false
          = (some VoteError.ErrVoteAlreadyExist,
              runAll [VoteOp.AddVoter "A" ⟨5⟩, VoteOp.Deposit "A" ⟨7⟩,
                VoteOp.AddVote "p1" "A" false, VoteOp.VoterWithdraw "A" ⟨3⟩] exVotedState) :=
  C11_votes_write_once exVotedState "p1" "A" _ (by decide) _ false

end VoteManager

end Lino

/-! ## Vote manager: the operations one by one -/

namespace Lino

namespace VoteManager

open VoteStorage

/-- C12 (AddVote snapshot).  For an existing voter with no stored vote on the
proposal, `AddVote` succeeds and stores `Vote{voter, res, votingPower}` with
`votingPower = deposit + delegatedPower` of the voter at the call, which is
the value `GetVotingPower` returns; nothing else is written.  If the voter has
no Voter record, `AddVote` fails and the store is unchanged. -/
theorem C12_AddVote_snapshot (s : VoteState) (proposalID : ProposalKey) (voter : AccountKey)
    (res : Bool) :
    (∀ rec, s.voters.get voter = some rec → s.votes.get (proposalID, voter) = none →
      GetVotingPower s voter = .ok ⟨rec.Deposit.Amount + rec.DelegatedPower.Amount⟩
      ∧ AddVote s proposalID voter res
          = (none, SetVote s proposalID voter
              { Voter := voter, Result := res,
                VotingPower := ⟨rec.Deposit.Amount + rec.DelegatedPower.Amount⟩ })
      ∧ (AddVote s proposalID voter res).2.votes.get (proposalID, voter)
          = some { Voter := voter, Result := res,
                   VotingPower := ⟨rec.Deposit.Amount + rec.DelegatedPower.Amount⟩ }
      ∧ ∀ k, k ≠ (proposalID, voter) →
          (AddVote s proposalID voter res).2.votes.get k = s.votes.get k)
    ∧ (s.voters.get voter = none →
        ∃ e, AddVote s proposalID voter res = (some e, s)) := by
  refine ⟨?_, ?_⟩
  · intro rec hv hn
    have hp : GetVotingPower s voter
        = .ok ⟨rec.Deposit.Amount + rec.DelegatedPower.Amount⟩ := by
      simp [GetVotingPower, GetVoter, hv, Coin.Plus]
    have ha : AddVote s proposalID voter res
        = (none, SetVote s proposalID voter
              { Voter := voter, Result := res,
                VotingPower := ⟨rec.Deposit.Amount + rec.DelegatedPower.Amount⟩ }) := by
      simp [AddVote, DoesVoteExist, KV.has, hn, hp, SetVote]
    refine ⟨hp, ha, ?_, ?_⟩
    · rw [ha]
      exact KV.get_set_self _ _ _
    · intro k hk
      rw [ha]
      exact KV.get_set_of_ne _ _ _ _ hk
  · intro hv
    by_cases he : DoesVoteExist s proposalID voter = true
    · exact ⟨.ErrVoteAlreadyExist, by simp [AddVote, he]⟩
    · exact ⟨.ErrGetVoter, by simp [AddVote, he, GetVotingPower, GetVoter, hv]⟩

/-- C12, witness: `v` (deposit 100, delegated power 10) votes on `p1` with
voting power 110; `ghost`, who is no voter, cannot vote. -/
theorem C12_AddVote_snapshot_witness :
    (GetVotingPower exVoteState "v" = .ok ⟨110⟩
      ∧ AddVote exVoteState "p1" "v" true
          = (none, SetVote exVoteState "p1" "v"
              { Voter := "v", Result := true, VotingPower := ⟨110⟩ })
      ∧ (AddVote exVoteState "p1" "v" true).2.votes.get ("p1", "v")
          = some { Voter := "v", Result := true, VotingPower := ⟨110⟩ }
      ∧ ∀ k, k ≠ ("p1", "v") →
          (AddVote exVoteState "p1" "v" true).2.votes.get k = exVoteState.votes.get k)
    ∧ ∃ e, AddVote exVoteState "p1" "ghost" true = (some e, exVoteState) :=
  ⟨(C12_AddVote_snapshot exVoteState "p1" "v" true).1
      { Username := "v", Deposit := ⟨100⟩, DelegatedPower := ⟨10⟩ } (by decide) (by decide),
   (C12_AddVote_snapshot exVoteState "p1" "ghost" true).2 (by decide)⟩

/-- C14 (AddVoter).  With the vote parameters readable: when
`coin < VoterMinDeposit`, `AddVoter` fails with `ErrInsufficientDeposit` and
leaves the store unchanged; otherwise it succeeds, the stored Voter record of
the account has `deposit = coin` and `delegatedPower = 0`, and no other record
is written. -/
theorem C14_AddVoter (s : VoteState) (username : AccountKey) (coin : Coin) (param : VoteParam)
    (hp : s.voteParam = some param) :
    (coin.Amount < param.VoterMinDeposit.Amount →
      AddVoter s username coin = (some VoteError.ErrInsufficientDeposit, s))
    ∧ (¬ coin.Amount < param.VoterMinDeposit.Amount →
      AddVoter s username coin
          = (none, SetVoter s username
              { Username := username, Deposit := coin, DelegatedPower := ⟨0⟩ })
      ∧ (AddVoter s username coin).2.voters.get username
          = some { Username := username, Deposit := coin, DelegatedPower := ⟨0⟩ }
      ∧ ∀ k, k ≠ username → (AddVoter s username coin).2.voters.get k = s.voters.get k) := by
  refine ⟨?_, ?_⟩
  · intro hlt
    simp [AddVoter, GetVoteParam, hp, Coin.IsGTE, hlt]
  · intro hge
    have ha : AddVoter s username coin
        = (none, SetVoter s username
              { Username := username, Deposit := coin, DelegatedPower := ⟨0⟩ }) := by
      simp [AddVoter, GetVoteParam, hp, Coin.IsGTE, not_lt.mp hge, SetVoter]
    refine ⟨ha, ?_, ?_⟩
    · rw [ha]
      exact KV.get_set_self _ _ _
    · intro k hk
      rw [ha]
      exact KV.get_set_of_ne _ _ _ _ hk

/-- C14, witness: with `VoterMinDeposit = 1000`, a deposit of 999 is refused
and one of 1000 registers the voter. -/
theorem C14_AddVoter_witness :
    AddVoter exVoteStateMin "u" ⟨999⟩ = (some VoteError.ErrInsufficientDeposit, exVoteStateMin)
      ∧ AddVoter exVoteStateMin "u" ⟨1000⟩
          = (none, SetVoter exVoteStateMin "u"
              { Username := "u", Deposit := ⟨1000⟩, DelegatedPower := ⟨0⟩ })
      ∧ (AddVoter exVoteStateMin "u" ⟨1000⟩).2.voters.get "u"
          = some { Username := "u", Deposit := ⟨1000⟩, DelegatedPower := ⟨0⟩ }
      ∧ ∀ k, k ≠ "u" →
          (AddVoter exVoteStateMin "u" ⟨1000⟩).2.voters.get k = exVoteStateMin.voters.get k :=
  ⟨(C14_AddVoter exVoteStateMin "u" ⟨999⟩
      { VoterMinDeposit := ⟨1000⟩, VoterMinWithdraw := ⟨1⟩, DelegatorMinWithdraw := ⟨1⟩ }
      rfl).1 (by decide),
   (C14_AddVoter exVoteStateMin "u" ⟨1000⟩
      { VoterMinDeposit := ⟨1000⟩, VoterMinWithdraw := ⟨1⟩, DelegatorMinWithdraw := ⟨1⟩ }
      rfl).2 (by decide)⟩

/-- C15 (Deposit).  For an account with a Voter record, `Deposit` succeeds,
the record's deposit grows by exactly the coin, its delegated power (and
username) stay, and every other record of the store is unchanged; for an
account without a Voter record it returns an error and leaves the store
unchanged. -/
theorem C15_Deposit (s : VoteState) (username : AccountKey) (coin : Coin) :
    (∀ rec, s.voters.get username = some rec →
      Deposit s username coin
          = (none, SetVoter s username
              { rec with Deposit := ⟨rec.Deposit.Amount + coin.Amount⟩ })
      ∧ (Deposit s username coin).2.voters.get username
          = some { Username := rec.Username,
                   Deposit := ⟨rec.Deposit.Amount + coin.Amount⟩,
                   DelegatedPower := rec.DelegatedPower }
      ∧ ∀ k, k ≠ username → (Deposit s username coin).2.voters.get k = s.voters.get k)
    ∧ (s.voters.get username = none →
        ∃ e, Deposit s username coin = (some e, s)) := by
  refine ⟨?_, ?_⟩
  · intro rec hv
    have ha : Deposit s username coin
        = (none, SetVoter s username
              { rec with Deposit := ⟨rec.Deposit.Amount + coin.Amount⟩ }) := by
      simp [Deposit, GetVoter, hv, SetVoter, Coin.Plus]
    refine ⟨ha, ?_, ?_⟩
    · rw [ha]
      exact KV.get_set_self _ _ _
    · intro k hk
      rw [ha]
      exact KV.get_set_of_ne _ _ _ _ hk
  · intro hv
    exact ⟨.ErrGetVoter, by simp [Deposit, GetVoter, hv]⟩

/-- C15, witness: `v` (deposit 100, delegated power 10) deposits 5; `ghost`,
who is no voter, cannot. -/
theorem C15_Deposit_witness :
    (Deposit exVoteState "v" ⟨5⟩
          = (none, SetVoter exVoteState "v"
              { Username := "v", Deposit := ⟨105⟩, DelegatedPower := ⟨10⟩ })
      ∧ (Deposit exVoteState "v" ⟨5⟩).2.voters.get "v"
          = some { Username := "v", Deposit := ⟨105⟩, DelegatedPower := ⟨10⟩ }
      ∧ ∀ k, k ≠ "v" → (Deposit exVoteState "v" ⟨5⟩).2.voters.get k = exVoteState.voters.get k)
    ∧ ∃ e, Deposit exVoteState "ghost" ⟨5⟩ = (some e, exVoteState) :=
  ⟨(C15_Deposit exVoteState "v" ⟨5⟩).1
      { Username := "v", Deposit := ⟨100⟩, DelegatedPower := ⟨10⟩ } (by decide),
   (C15_Deposit exVoteState "ghost" ⟨5⟩).2 (by decide)⟩

/-- C16 (VoterWithdraw effect).  For an existing voter with deposit `d` and a
non-zero coin `c`, `VoterWithdraw` succeeds; if `d - c` is zero the Voter
record is deleted, otherwise the record is kept with deposit `d - c` and its
delegated power unchanged; no other record is written. -/
theorem C16_VoterWithdraw (s : VoteState) (username : AccountKey) (coin : Coin) (rec : Voter)
    (hv : s.voters.get username = some rec) (hc : coin.Amount ≠ 0) :
    (rec.Deposit.Amount - coin.Amount = 0 →
      VoterWithdraw s username coin = (none, DeleteVoter s username)
      ∧ (VoterWithdraw s username coin).2.voters.get username = none)
    ∧ (rec.Deposit.Amount - coin.Amount ≠ 0 →
      VoterWithdraw s username coin
          = (none, SetVoter s username
              { rec with Deposit := ⟨rec.Deposit.Amount - coin.Amount⟩ })
      ∧ (VoterWithdraw s username coin).2.voters.get username
          = some { Username := rec.Username,
                   Deposit := ⟨rec.Deposit.Amount - coin.Amount⟩,
                   DelegatedPower := rec.DelegatedPower })
    ∧ ∀ k, k ≠ username → (VoterWithdraw s username coin).2.voters.get k = s.voters.get k := by
  have ha1 : rec.Deposit.Amount - coin.Amount = 0 →
      VoterWithdraw s username coin = (none, DeleteVoter s username) := by
    intro h0
    simp [VoterWithdraw, GetVoter, hv, Coin.Minus, Coin.IsZero, hc, h0]
  have ha2 : rec.Deposit.Amount - coin.Amount ≠ 0 →
      VoterWithdraw s username coin
        = (none, SetVoter s username
            { rec with Deposit := ⟨rec.Deposit.Amount - coin.Amount⟩ }) := by
    intro h0
    simp [VoterWithdraw, GetVoter, hv, Coin.Minus, Coin.IsZero, hc, h0]
  refine ⟨?_, ?_, ?_⟩
  · intro h0
    refine ⟨ha1 h0, ?_⟩
    rw [ha1 h0]
    exact KV.get_delete_self _ _
  · intro h0
    refine ⟨ha2 h0, ?_⟩
    rw [ha2 h0]
    exact KV.get_set_self _ _ _
  · intro k hk
    by_cases h0 : rec.Deposit.Amount - coin.Amount = 0
    · rw [ha1 h0]
      exact KV.get_delete_of_ne _ _ _ hk
    · rw [ha2 h0]
      exact KV.get_set_of_ne _ _ _ _ hk

/-- C16, witness: `v` (deposit 100) withdraws 100: the record is deleted. -/
theorem C16_VoterWithdraw_witness :
    ((100 : Int) - (100 : Int) = 0 →
      VoterWithdraw exVoteState "v" ⟨100⟩
          = (none, DeleteVoter exVoteState "v")
      ∧ (VoterWithdraw exVoteState "v" ⟨100⟩).2.voters.get "v" = none)
    ∧ ((100 : Int) - (100 : Int) ≠ 0 →
      VoterWithdraw exVoteState "v" ⟨100⟩
          = (none, SetVoter exVoteState "v"
              { Username := "v", Deposit := ⟨(100 : Int) - (100 : Int)⟩,
                DelegatedPower := ⟨10⟩ })
      ∧ (VoterWithdraw exVoteState "v" ⟨100⟩).2.voters.get "v"
          = some { Username := "v", Deposit := ⟨(100 : Int) - (100 : Int)⟩,
                   DelegatedPower := ⟨10⟩ })
    ∧ ∀ k, k ≠ "v" →
        (VoterWithdraw exVoteState "v" ⟨100⟩).2.voters.get k = exVoteState.voters.get k :=
  C16_VoterWithdraw exVoteState "v" ⟨100⟩
    { Username := "v", Deposit := ⟨100⟩, DelegatedPower := ⟨10⟩ } (by decide) (by decide)

/-- C17, counterexample.  A negative coin is not rejected: `VoterWithdraw v
(-5)` returns `nil` and raises the deposit of `v` from 100 to 105, and
`DelegatorWithdraw v d1 (-5)` returns `nil` and raises the delegated power of
`v` from 10 to 15. -/
theorem C17_negative_coin_accepted :
    (VoterWithdraw exVoteState "v" ⟨-5⟩).1 = none
      ∧ (VoterWithdraw exVoteState "v" ⟨-5⟩).2.voters.get "v"
          = some { Username := "v", Deposit := ⟨105⟩, DelegatedPower := ⟨10⟩ }
      ∧ (DelegatorWithdraw exVoteState "v" "d1" ⟨-5⟩).1 = none
      ∧ (DelegatorWithdraw exVoteState "v" "d1" ⟨-5⟩).2.voters.get "v"
          = some { Username := "v", Deposit := ⟨100⟩, DelegatedPower := ⟨15⟩ }
      ∧ (DelegatorWithdraw exVoteState "v" "d1" ⟨-5⟩).2.delegations.get ("v", "d1")
          = some { Delegator := "d1", Amount := ⟨15⟩ } := by
  decide

/-- C17, amended (withdrawals reject the zero coin).  For the zero coin,
`VoterWithdraw` and `DelegatorWithdraw` fail with `ErrInvalidCoin` and leave
the store unchanged. -/
theorem C17_zero_coin_rejected (s : VoteState) (username voterName delegatorName : AccountKey)
    (coin : Coin) (h : coin.Amount = 0) :
    VoterWithdraw s username coin = (some VoteError.ErrInvalidCoin, s)
      ∧ DelegatorWithdraw s voterName delegatorName coin
          = (some VoteError.ErrInvalidCoin, s) := by
  constructor
  · simp [VoterWithdraw, Coin.IsZero, h]
  · simp [DelegatorWithdraw, Coin.IsZero, h]

/-- C17, amended: witness, the zero coin on `exVoteState`. -/
theorem C17_zero_coin_rejected_witness :
    VoterWithdraw exVoteState "v" ⟨0⟩ = (some VoteError.ErrInvalidCoin, exVoteState)
      ∧ DelegatorWithdraw exVoteState "v" "d1" ⟨0⟩
          = (some VoteError.ErrInvalidCoin, exVoteState) :=
  C17_zero_coin_rejected exVoteState "v" "v" "d1" ⟨0⟩ rfl

/-- C18 (AddDelegation).  For an existing voter, `AddDelegation` succeeds;
afterwards the delegation `(voter, delegator)` has amount `previous amount (0
if it did not exist) + coin`, the voter's delegated power is the previous one
plus `coin` with its deposit unchanged, and every other voter and delegation
is as before (votes, validator list and parameters are not written).  If the voter has no
Voter record, it returns an error and writes nothing. -/
theorem C18_AddDelegation (s : VoteState) (voterName delegatorName : AccountKey) (coin : Coin) :
    (∀ rec, s.voters.get voterName = some rec →
      (AddDelegation s voterName delegatorName coin).1 = none
      ∧ (∃ del, (AddDelegation s voterName delegatorName coin).2.delegations.get
              (voterName, delegatorName) = some del
          ∧ del.Amount.Amount
              = ((s.delegations.get (voterName, delegatorName)).map
                  (fun d => d.Amount.Amount)).getD 0 + coin.Amount)
      ∧ (AddDelegation s voterName delegatorName coin).2.voters.get voterName
          = some { Username := rec.Username, Deposit := rec.Deposit,
                   DelegatedPower := ⟨rec.DelegatedPower.Amount + coin.Amount⟩ }
      ∧ (∀ k, k ≠ voterName →
          (AddDelegation s voterName delegatorName coin).2.voters.get k = s.voters.get k)
      ∧ (∀ k, k ≠ (voterName, delegatorName) →
          (AddDelegation s voterName delegatorName coin).2.delegations.get k
            = s.delegations.get k)
      ∧ (AddDelegation s voterName delegatorName coin).2.votes = s.votes
      ∧ (AddDelegation s voterName delegatorName coin).2.referenceList = s.referenceList
      ∧ (AddDelegation s voterName delegatorName coin).2.voteParam = s.voteParam
      ∧ (AddDelegation s voterName delegatorName coin).2.validatorParam = s.validatorParam)
    ∧ (s.voters.get voterName = none →
        ∃ e, AddDelegation s voterName delegatorName coin = (some e, s)) := by
  refine ⟨?_, ?_⟩
  · intro rec hv
    cases hd : s.delegations.get (voterName, delegatorName) with
    | none =>
      have ha : AddDelegation s voterName delegatorName coin
          = (none, SetVoter (SetDelegation s voterName delegatorName
              { Delegator := delegatorName, Amount := ⟨0 + coin.Amount⟩ }) voterName
              { rec with DelegatedPower := ⟨rec.DelegatedPower.Amount + coin.Amount⟩ }) := by
        simp [AddDelegation, DoesDelegationExist, KV.has, hd, GetVoter, hv, Coin.Plus,
          Coin.NewCoinFromInt64]
      rw [ha]
      refine ⟨rfl, ⟨_, KV.get_set_self _ _ _, by simp⟩, KV.get_set_self _ _ _, ?_, ?_, rfl, rfl,
        rfl, rfl⟩
      · intro k hk
        exact KV.get_set_of_ne _ _ _ _ hk
      · intro k hk
        exact KV.get_set_of_ne _ _ _ _ hk
    | some del =>
      have ha : AddDelegation s voterName delegatorName coin
          = (none, SetVoter (SetDelegation s voterName delegatorName
              { del with Amount := ⟨del.Amount.Amount + coin.Amount⟩ }) voterName
              { rec with DelegatedPower := ⟨rec.DelegatedPower.Amount + coin.Amount⟩ }) := by
        simp [AddDelegation, DoesDelegationExist, KV.has, hd, GetDelegation, GetVoter, hv,
          Coin.Plus]
      rw [ha]
      refine ⟨rfl, ⟨_, KV.get_set_self _ _ _, by simp⟩, KV.get_set_self _ _ _, ?_, ?_, rfl, rfl,
        rfl, rfl⟩
      · intro k hk
        exact KV.get_set_of_ne _ _ _ _ hk
      · intro k hk
        exact KV.get_set_of_ne _ _ _ _ hk
  · intro hv
    refine ⟨.ErrGetVoter, ?_⟩
    cases hd : s.delegations.get (voterName, delegatorName) with
    | none => simp [AddDelegation, DoesDelegationExist, KV.has, hd, GetVoter, hv]
    | some del =>
      simp [AddDelegation, DoesDelegationExist, KV.has, hd, GetDelegation, GetVoter, hv]

/-- C18, witness: on `exVoteState` (voter `v` with deposit 100 and delegated
power 10), `d2` opens a delegation of 5; nobody can delegate to `ghost`, who
is no voter. -/
theorem C18_AddDelegation_witness :
    ((AddDelegation exVoteState "v" "d2" ⟨5⟩).1 = none
      ∧ (∃ del, (AddDelegation exVoteState "v" "d2" ⟨5⟩).2.delegations.get ("v", "d2")
              = some del
          ∧ del.Amount.Amount
              = ((exVoteState.delegations.get ("v", "d2")).map
                  (fun d => d.Amount.Amount)).getD 0 + 5)
      ∧ (AddDelegation exVoteState "v" "d2" ⟨5⟩).2.voters.get "v"
          = some { Username := "v", Deposit := ⟨100⟩, DelegatedPower := ⟨15⟩ }
      ∧ (∀ k, k ≠ "v" →
          (AddDelegation exVoteState "v" "d2" ⟨5⟩).2.voters.get k = exVoteState.voters.get k)
      ∧ (∀ k, k ≠ ("v", "d2") →
          (AddDelegation exVoteState "v" "d2" ⟨5⟩).2.delegations.get k
            = exVoteState.delegations.get k)
      ∧ (AddDelegation exVoteState "v" "d2" ⟨5⟩).2.votes = exVoteState.votes
      ∧ (AddDelegation exVoteState "v" "d2" ⟨5⟩).2.referenceList = exVoteState.referenceList
      ∧ (AddDelegation exVoteState "v" "d2" ⟨5⟩).2.voteParam = exVoteState.voteParam
      ∧ (AddDelegation exVoteState "v" "d2" ⟨5⟩).2.validatorParam
          = exVoteState.validatorParam)
    ∧ ∃ e, AddDelegation exVoteState "ghost" "d1" ⟨5⟩ = (some e, exVoteState) :=
  ⟨(C18_AddDelegation exVoteState "v" "d2" ⟨5⟩).1
      { Username := "v", Deposit := ⟨100⟩, DelegatedPower := ⟨10⟩ } (by decide),
   (C18_AddDelegation exVoteState "ghost" "d1" ⟨5⟩).2 (by decide)⟩

/-- C19 (DelegatorWithdraw effect).  For an existing voter, an existing
delegation `(voter, delegator)` with amount `a` and a non-zero coin `c`,
`DelegatorWithdraw` succeeds, reduces the voter's delegated power by exactly
`c` (deposit unchanged), and deletes the delegation when `a - c` is zero or
stores it with amount `a - c` otherwise; `DelegatorWithdrawAll`, for `a` not
zero, does this with `c = a` (so the delegation is deleted) and returns `a`. -/
theorem C19_DelegatorWithdraw (s : VoteState) (voterName delegatorName : AccountKey)
    (rec : Voter) (del : Delegation)
    (hv : s.voters.get voterName = some rec)
    (hd : s.delegations.get (voterName, delegatorName) = some del) :
    (∀ coin : Coin, coin.Amount ≠ 0 →
      (DelegatorWithdraw s voterName delegatorName coin).1 = none
      ∧ (DelegatorWithdraw s voterName delegatorName coin).2.voters.get voterName
          = some { Username := rec.Username, Deposit := rec.Deposit,
                   DelegatedPower := ⟨rec.DelegatedPower.Amount - coin.Amount⟩ }
      ∧ (del.Amount.Amount - coin.Amount = 0 →
          (DelegatorWithdraw s voterName delegatorName coin).2.delegations.get
            (voterName, delegatorName) = none)
      ∧ (del.Amount.Amount - coin.Amount ≠ 0 →
          (DelegatorWithdraw s voterName delegatorName coin).2.delegations.get
            (voterName, delegatorName)
            = some { Delegator := del.Delegator,
                     Amount := ⟨del.Amount.Amount - coin.Amount⟩ }))
    ∧ (del.Amount.Amount ≠ 0 →
        DelegatorWithdrawAll s voterName delegatorName
          = (del.Amount, none, (DelegatorWithdraw s voterName delegatorName del.Amount).2)
        ∧ (DelegatorWithdrawAll s voterName delegatorName).2.2.delegations.get
            (voterName, delegatorName) = none
        ∧ (DelegatorWithdrawAll s voterName delegatorName).2.2.voters.get voterName
            = some { Username := rec.Username, Deposit := rec.Deposit,
                     DelegatedPower := ⟨rec.DelegatedPower.Amount - del.Amount.Amount⟩ }) := by
  have key : ∀ coin : Coin, coin.Amount ≠ 0 →
      DelegatorWithdraw s voterName delegatorName coin
        = (none,
            if del.Amount.Amount - coin.Amount = 0 then
              DeleteDelegation (SetVoter s voterName
                { rec with DelegatedPower := ⟨rec.DelegatedPower.Amount - coin.Amount⟩ })
                voterName delegatorName
            else
              SetDelegation (SetVoter s voterName
                { rec with DelegatedPower := ⟨rec.DelegatedPower.Amount - coin.Amount⟩ })
                voterName delegatorName
                { del with Amount := ⟨del.Amount.Amount - coin.Amount⟩ }) := by
    intro coin hc
    by_cases h0 : del.Amount.Amount - coin.Amount = 0
    · simp [DelegatorWithdraw, Coin.IsZero, hc, GetVoter, hv, GetDelegation, SetVoter, hd,
        Coin.Minus, h0]
    · simp [DelegatorWithdraw, Coin.IsZero, hc, GetVoter, hv, GetDelegation, SetVoter, hd,
        Coin.Minus, h0]
  have part : ∀ coin : Coin, coin.Amount ≠ 0 →
      (DelegatorWithdraw s voterName delegatorName coin).1 = none
      ∧ (DelegatorWithdraw s voterName delegatorName coin).2.voters.get voterName
          = some { Username := rec.Username, Deposit := rec.Deposit,
                   DelegatedPower := ⟨rec.DelegatedPower.Amount - coin.Amount⟩ }
      ∧ (del.Amount.Amount - coin.Amount = 0 →
          (DelegatorWithdraw s voterName delegatorName coin).2.delegations.get
            (voterName, delegatorName) = none)
      ∧ (del.Amount.Amount - coin.Amount ≠ 0 →
          (DelegatorWithdraw s voterName delegatorName coin).2.delegations.get
            (voterName, delegatorName)
            = some { Delegator := del.Delegator,
                     Amount := ⟨del.Amount.Amount - coin.Amount⟩ }) := by
    intro coin hc
    rw [key coin hc]
    refine ⟨rfl, ?_, ?_, ?_⟩
    · by_cases h0 : del.Amount.Amount - coin.Amount = 0
      · simp only [h0, if_true, DeleteDelegation, SetVoter]
        exact KV.get_set_self _ _ _
      · simp only [h0, if_false, SetDelegation, SetVoter]
        exact KV.get_set_self _ _ _
    · intro h0
      simp only [h0, if_true, DeleteDelegation, SetVoter]
      exact KV.get_delete_self _ _
    · intro h0
      simp only [h0, if_false, SetDelegation, SetVoter]
      exact KV.get_set_self _ _ _
  refine ⟨part, ?_⟩
  intro ha
  obtain ⟨h1, h2, h3, _⟩ := part del.Amount ha
  have hall : DelegatorWithdrawAll s voterName delegatorName
      = (del.Amount, none, (DelegatorWithdraw s voterName delegatorName del.Amount).2) := by
    unfold DelegatorWithdrawAll
    simp only [GetDelegation, hd]
    cases hw : DelegatorWithdraw s voterName delegatorName del.Amount with
    | mk r s1 =>
      rw [hw] at h1
      simp only at h1
      subst h1
      rfl
  refine ⟨hall, ?_, ?_⟩
  · rw [hall]
    exact h3 (by omega)
  · rw [hall]
    exact h2

/-- C19, witness: on `exVoteState`, `d1` withdraws 4 of its 10, and withdraws
all. -/
theorem C19_DelegatorWithdraw_witness :
    ((DelegatorWithdraw exVoteState "v" "d1" ⟨4⟩).1 = none
      ∧ (DelegatorWithdraw exVoteState "v" "d1" ⟨4⟩).2.voters.get "v"
          = some { Username := "v", Deposit := ⟨100⟩, DelegatedPower := ⟨10 - 4⟩ }
      ∧ ((10 : Int) - 4 = 0 →
          (DelegatorWithdraw exVoteState "v" "d1" ⟨4⟩).2.delegations.get ("v", "d1") = none)
      ∧ ((10 : Int) - 4 ≠ 0 →
          (DelegatorWithdraw exVoteState "v" "d1" ⟨4⟩).2.delegations.get ("v", "d1")
            = some { Delegator := "d1", Amount := ⟨10 - 4⟩ }))
    ∧ (DelegatorWithdrawAll exVoteState "v" "d1"
          = (⟨10⟩, none, (DelegatorWithdraw exVoteState "v" "d1" ⟨10⟩).2)
        ∧ (DelegatorWithdrawAll exVoteState "v" "d1").2.2.delegations.get ("v", "d1") = none
        ∧ (DelegatorWithdrawAll exVoteState "v" "d1").2.2.voters.get "v"
            = some { Username := "v", Deposit := ⟨100⟩, DelegatedPower := ⟨10 - 10⟩ }) :=
  ⟨(C19_DelegatorWithdraw exVoteState "v" "d1"
      { Username := "v", Deposit := ⟨100⟩, DelegatedPower := ⟨10⟩ }
      { Delegator := "d1", Amount := ⟨10⟩ } (by decide) (by decide)).1 ⟨4⟩ (by decide),
   (C19_DelegatorWithdraw exVoteState "v" "d1"
      { Username := "v", Deposit := ⟨100⟩, DelegatedPower := ⟨10⟩ }
      { Delegator := "d1", Amount := ⟨10⟩ } (by decide) (by decide)).2 (by decide)⟩

/-- C20 (CanBecomeValidator).  `CanBecomeValidator` returns true exactly when
the account has a Voter record and the validator parameters are readable and
the record's own deposit (delegated power not counted) is at least
`ValidatorMinVotingDeposit`; so it returns false when the Voter record or the
parameter cannot be read. -/
theorem C20_CanBecomeValidator (s : VoteState) (username : AccountKey) :
    (CanBecomeValidator s username = true ↔
      ∃ rec param, s.voters.get username = some rec ∧ s.validatorParam = some param
        ∧ param.ValidatorMinVotingDeposit.Amount ≤ rec.Deposit.Amount)
    ∧ (s.voters.get username = none → CanBecomeValidator s username = false)
    ∧ (s.validatorParam = none → CanBecomeValidator s username = false) := by
  unfold CanBecomeValidator GetVoter GetValidatorParam
  cases hv : s.voters.get username with
  | none => simp
  | some rec =>
    cases hp : s.validatorParam with
    | none => simp
    | some param => simp [Coin.IsGTE]

/-- C20, witness (`TestValidatorDeposit`): after a voter deposit of 3000 LNO,
`newUser` can become a validator; an account without Voter record cannot, and
nobody can while the parameters are unreadable. -/
theorem C20_CanBecomeValidator_witness :
    CanBecomeValidator exValidatorState "newUser" = true
      ∧ CanBecomeValidator exValidatorState "ghost" = false
      ∧ CanBecomeValidator { exValidatorState with validatorParam := none } "newUser"
          = false :=
  ⟨(C20_CanBecomeValidator exValidatorState "newUser").1.mpr
      ⟨{ Username := "newUser", Deposit := ⟨3000 * 100000⟩, DelegatedPower := ⟨0⟩ },
        { ValidatorMinVotingDeposit := ⟨3000 * 100000⟩ }, by decide, rfl, by decide⟩,
   (C20_CanBecomeValidator exValidatorState "ghost").2.1 (by decide),
   (C20_CanBecomeValidator { exValidatorState with validatorParam := none } "newUser").2.2 rfl⟩

/-- C20, in numbers: one coin below the minimum is not enough, whatever the
delegated power. -/
theorem C20_CanBecomeValidator_example :
    CanBecomeValidator
        { exValidatorState with
          voters := [("newUser", { Username := "newUser", Deposit := ⟨3000 * 100000 - 1⟩,
                                   DelegatedPower := ⟨3000 * 100000⟩ })] } "newUser"
      = false := by
  decide

end VoteManager

end Lino

/-! ## Vote manager: the penalty list -/

namespace Lino

namespace KV

variable {K V : Type} [DecidableEq K]

theorem has_iff_mem_keys (m : KV K V) (k : K) : has m k = true ↔ k ∈ m.map Prod.fst := by
  induction m with
  | nil => simp [has, get]
  | cons p t ih =>
    obtain ⟨k0, v0⟩ := p
    by_cases h0 : k0 = k
    · simp [has, get, h0]
    · have : has t k = true ↔ k ∈ t.map Prod.fst := ih
      simp only [has] at this
      simp only [has, get, h0, if_false, this, List.map_cons, List.mem_cons]
      constructor
      · exact Or.inr
      · rintro (h | h)
        · exact absurd h.symm h0
        · exact h

end KV

namespace VoteManager

open VoteStorage

/-- On a duplicate-free list, removing for each vote the first validator equal
to its voter leaves the validators no vote names, in their order. -/
theorem foldl_erase_eq_filter (votes : List Vote) (oncall : List AccountKey)
    (hnd : oncall.Nodup) :
    votes.foldl (fun oncall vote => oncall.erase vote.Voter) oncall
      = oncall.filter (fun v => decide (∀ vote ∈ votes, vote.Voter ≠ v)) := by
  induction votes generalizing oncall with
  | nil => simp
  | cons w ws ih =>
    simp only [List.foldl_cons]
    rw [ih (oncall.erase w.Voter) (hnd.erase _), hnd.erase_eq_filter, List.filter_filter]
    apply List.filter_congr
    intro v _
    simp only [List.mem_cons, forall_eq_or_imp, Bool.decide_and, bne_iff_ne, ne_eq,
      Bool.and_comm]
    by_cases h1 : w.Voter = v
    · simp [h1]
    · have h2 : ¬ v = w.Voter := fun e => h1 e.symm
      simp [h1, h2]

/-- In a store whose votes name the voter of their key, an account has a vote
among the votes of a proposal exactly when a vote is stored for the pair. -/
theorem voted_iff_exists (s : VoteState) (hk : VotesKeyed s) (proposalID : ProposalKey)
    (v : AccountKey) :
    (∃ vote ∈ GetAllVotes s proposalID, vote.Voter = v) ↔ DoesVoteExist s proposalID v = true := by
  unfold DoesVoteExist
  rw [KV.has_iff_mem_keys]
  simp only [GetAllVotes, List.mem_map, List.mem_filter, decide_eq_true_eq]
  constructor
  · rintro ⟨vote, ⟨e, ⟨he, hp⟩, rfl⟩, hv⟩
    refine ⟨e, he, ?_⟩
    have := hk e he
    rw [hv] at this
    exact Prod.ext hp this.symm
  · rintro ⟨e, he, hkey⟩
    refine ⟨e.2, ⟨e, ⟨he, ?_⟩, rfl⟩, ?_⟩
    · rw [hkey]
    · rw [hk e he, hkey]

/-- C13 (penalty list correctness).  For a duplicate-free list of on-call
validators, `GetPenaltyList` returns no error and, when the proposal type is
`ChangeParam` or `ProtocolUpgrade`, exactly the on-call validators that no
vote of the proposal names, in their original order (in a store whose votes
name the voter of their key: the validators for which no vote is stored); for
every other proposal type it returns the empty list. -/
theorem C13_GetPenaltyList (s : VoteState) (proposalID : ProposalKey)
    (proposalType : ProposalType) (oncallValidators : List AccountKey)
    (hnd : oncallValidators.Nodup) :
    (GetPenaltyList s proposalID proposalType oncallValidators).2 = none
      ∧ ((proposalType = .ChangeParam ∨ proposalType = .ProtocolUpgrade) →
          (GetPenaltyList s proposalID proposalType oncallValidators).1.PenaltyList
            = oncallValidators.filter
                (fun v => decide (∀ vote ∈ GetAllVotes s proposalID, vote.Voter ≠ v))
          ∧ (VotesKeyed s →
              (GetPenaltyList s proposalID proposalType oncallValidators).1.PenaltyList
                = oncallValidators.filter (fun v => !DoesVoteExist s proposalID v)))
      ∧ (¬ (proposalType = .ChangeParam ∨ proposalType = .ProtocolUpgrade) →
          (GetPenaltyList s proposalID proposalType oncallValidators).1.PenaltyList = []) := by
  refine ⟨?_, ?_, ?_⟩
  · unfold GetPenaltyList
    simp only []
    split <;> rfl
  · intro ht
    have h1 : (GetPenaltyList s proposalID proposalType oncallValidators).1.PenaltyList
        = oncallValidators.filter
            (fun v => decide (∀ vote ∈ GetAllVotes s proposalID, vote.Voter ≠ v)) := by
      unfold GetPenaltyList
      simp only [ht, if_true]
      exact foldl_erase_eq_filter _ _ hnd
    refine ⟨h1, ?_⟩
    intro hk
    rw [h1]
    apply List.filter_congr
    intro v _
    have := voted_iff_exists s hk proposalID v
    by_cases hx : DoesVoteExist s proposalID v = true
    · have ⟨vote, hm, hv⟩ := this.mpr hx
      simp only [hx, Bool.not_true, decide_eq_false_iff_not, not_forall]
      exact ⟨vote, hm, fun hne => hne hv⟩
    · have hne : ∀ vote ∈ GetAllVotes s proposalID, vote.Voter ≠ v :=
        fun vote hm hv => hx (this.mp ⟨vote, hm, hv⟩)
      simp only [hx, Bool.false_eq_true, not_false_eq_true, Bool.not_false, decide_eq_true_eq]
      exact hne
  · intro ht
    unfold GetPenaltyList
    simp only [ht, if_false]

/-- C13, witness: on-call validators `A, B, C` and the one vote of `A` on
`p1`: the penalty list is `B, C` for `ChangeParam` and empty for
`ContentCensorship`. -/
theorem C13_GetPenaltyList_witness :
    (GetPenaltyList exVotedState "p1" .ChangeParam ["A", "B", "C"]).1.PenaltyList = ["B", "C"]
      ∧ (GetPenaltyList exVotedState "p1" .ContentCensorship ["A", "B", "C"]).1.PenaltyList
          = [] :=
  ⟨((C13_GetPenaltyList exVotedState "p1" .ChangeParam ["A", "B", "C"] (by decide)).2.1
      (Or.inl rfl)).1.trans (by decide),
   (C13_GetPenaltyList exVotedState "p1" .ContentCensorship ["A", "B", "C"] (by decide)).2.2
      (by decide)⟩

end VoteManager

namespace KV

variable {K V : Type} [DecidableEq K]

theorem mem_set (m : KV K V) (k : K) (x : V) (e : K × V) (h : e ∈ set m k x) :
    e = (k, x) ∨ e ∈ m := by
  induction m with
  | nil => simpa [set] using h
  | cons p t ih =>
    obtain ⟨k0, v0⟩ := p
    by_cases h0 : k0 = k
    · simp only [set, h0, if_true, List.mem_cons] at h
      rcases h with h | h
      · exact Or.inl h
      · exact Or.inr (List.mem_cons_of_mem _ h)
    · simp only [set, h0, if_false, List.mem_cons] at h
      rcases h with h | h
      · exact Or.inr (h ▸ List.mem_cons_self _ _)
      · rcases ih h with h | h
        · exact Or.inl h
        · exact Or.inr (List.mem_cons_of_mem _ h)

end KV

namespace VoteManager

open VoteStorage

theorem VotesKeyed_of_votes_eq (s s' : VoteState) (hv : s'.votes = s.votes)
    (h : VotesKeyed s) : VotesKeyed s' := by
  intro e he
  rw [hv] at he
  exact h e he

/-- Every call of the vote manager keeps the votes keyed by their voter. -/
theorem run_keeps_VotesKeyed (op : VoteOp) (s : VoteState) (h : VotesKeyed s) :
    VotesKeyed (op.run s) := by
  cases op with
  | AddVote p v res =>
    simp only [VoteOp.run, AddVote]
    split
    · exact h
    · split
      · exact h
      · intro e he
        rcases KV.mem_set _ _ _ _ he with he | he
        · rw [he]
        · exact h e he
  | AddDelegation v d c => exact VotesKeyed_of_votes_eq _ _ (AddDelegation_votes s v d c) h
  | AddVoter u c => exact VotesKeyed_of_votes_eq _ _ (AddVoter_votes s u c) h
  | Deposit u c => exact VotesKeyed_of_votes_eq _ _ (Deposit_votes s u c) h
  | VoterWithdraw u c => exact VotesKeyed_of_votes_eq _ _ (VoterWithdraw_votes s u c) h
  | VoterWithdrawAll u => exact VotesKeyed_of_votes_eq _ _ (VoterWithdrawAll_votes s u) h
  | DelegatorWithdraw v d c =>
    exact VotesKeyed_of_votes_eq _ _ (DelegatorWithdraw_votes s v d c) h
  | DelegatorWithdrawAll v d =>
    exact VotesKeyed_of_votes_eq _ _ (DelegatorWithdrawAll_votes s v d) h

end VoteManager

end Lino

/-! ## Vote manager: legality checks -/

namespace Lino

namespace VoteManager

open VoteStorage

theorem IsInValidatorList_iff (s : VoteState) (username : AccountKey) :
    IsInValidatorList s username = true
      ↔ ∃ lst, s.referenceList = some lst ∧ username ∈ lst.AllValidators := by
  unfold IsInValidatorList GetReferenceList
  cases h : s.referenceList with
  | none => simp
  | some lst =>
    simp only [List.any_eq_true, decide_eq_true_eq, Option.some.injEq, exists_eq_left']
    constructor
    · rintro ⟨x, hx, rfl⟩
      exact hx
    · intro hx
      exact ⟨username, hx, rfl⟩

/-- C21 (IsLegalVoterWithdraw).  It returns true exactly when the account has
a Voter record, the account is not in the stored validator reference list,
the vote parameters are readable, `coin >= VoterMinWithdraw` and
`deposit - coin >= VoterMinDeposit`; so it returns false without a Voter
record, for a validator, and with unreadable parameters. -/
theorem C21_IsLegalVoterWithdraw (s : VoteState) (username : AccountKey) (coin : Coin) :
    (IsLegalVoterWithdraw s username coin = true ↔
      ∃ rec param, s.voters.get username = some rec ∧ s.voteParam = some param
        ∧ ¬ (∃ lst, s.referenceList = some lst ∧ username ∈ lst.AllValidators)
        ∧ param.VoterMinWithdraw.Amount ≤ coin.Amount
        ∧ param.VoterMinDeposit.Amount ≤ rec.Deposit.Amount - coin.Amount)
    ∧ (s.voters.get username = none → IsLegalVoterWithdraw s username coin = false)
    ∧ (s.voteParam = none → IsLegalVoterWithdraw s username coin = false)
    ∧ ((∃ lst, s.referenceList = some lst ∧ username ∈ lst.AllValidators) →
        IsLegalVoterWithdraw s username coin = false) := by
  have hval := IsInValidatorList_iff s username
  unfold IsLegalVoterWithdraw GetVoter GetVoteParam
  cases hv : s.voters.get username with
  | none => simp
  | some rec =>
    by_cases hin : IsInValidatorList s username = true
    · have hin' := hval.mp hin
      simp [hin, hin']
    · have hin' : ¬ ∃ lst, s.referenceList = some lst ∧ username ∈ lst.AllValidators :=
        fun h => hin (hval.mpr h)
      cases hp : s.voteParam with
      | none => simp [hin]
      | some param =>
        simp only [hin, Bool.false_eq_true, if_false, Coin.IsGTE, Coin.Minus,
          Option.some.injEq, exists_and_left, exists_eq_left', hin', not_false_eq_true,
          true_and, IsEmpty.forall_iff, and_true, false_implies]
        by_cases h1 : param.VoterMinWithdraw.Amount ≤ coin.Amount
        · by_cases h2 : param.VoterMinDeposit.Amount ≤ rec.Deposit.Amount - coin.Amount
          · simp [h1, h2]
          · simp [h1, h2]
        · simp [h1]

/-- C21, witness: in `exLegalState` (minimum deposit 1000, minimum withdrawal
1) `v`, with deposit 3000, may withdraw 2000 but not 2001; the validator `w`
may withdraw nothing. -/
theorem C21_IsLegalVoterWithdraw_witness :
    IsLegalVoterWithdraw exLegalState "v" ⟨2000⟩ = true
      ∧ IsLegalVoterWithdraw exLegalState "w" ⟨2000⟩ = false :=
  ⟨(C21_IsLegalVoterWithdraw exLegalState "v" ⟨2000⟩).1.mpr
      ⟨{ Username := "v", Deposit := ⟨3000⟩, DelegatedPower := ⟨10⟩ },
        { VoterMinDeposit := ⟨1000⟩, VoterMinWithdraw := ⟨1⟩, DelegatorMinWithdraw := ⟨1⟩ },
        by decide, rfl, by decide, by decide, by decide⟩,
   (C21_IsLegalVoterWithdraw exLegalState "w" ⟨2000⟩).2.2.2 ⟨_, rfl, by decide⟩⟩

/-- C21, in numbers: one coin more than leaves the minimum deposit is not
legal, nor is a withdrawal by an account without Voter record. -/
theorem C21_IsLegalVoterWithdraw_example :
    IsLegalVoterWithdraw exLegalState "v" ⟨2001⟩ = false
      ∧ IsLegalVoterWithdraw exLegalState "v" ⟨0⟩ = false
      ∧ IsLegalVoterWithdraw exLegalState "ghost" ⟨1⟩ = false := by
  decide

/-- C22 (IsLegalDelegatorWithdraw).  It returns true exactly when the
delegation `(voter, delegator)` exists, the vote parameters are readable,
`coin >= DelegatorMinWithdraw` and `coin <=` the delegation's amount; in every
other case it returns false. -/
theorem C22_IsLegalDelegatorWithdraw (s : VoteState) (voterName delegatorName : AccountKey)
    (coin : Coin) :
    (IsLegalDelegatorWithdraw s voterName delegatorName coin = true ↔
      ∃ del param, s.delegations.get (voterName, delegatorName) = some del
        ∧ s.voteParam = some param
        ∧ param.DelegatorMinWithdraw.Amount ≤ coin.Amount
        ∧ coin.Amount ≤ del.Amount.Amount)
    ∧ (s.delegations.get (voterName, delegatorName) = none →
        IsLegalDelegatorWithdraw s voterName delegatorName coin = false) := by
  unfold IsLegalDelegatorWithdraw GetDelegation GetVoteParam
  cases hd : s.delegations.get (voterName, delegatorName) with
  | none => simp
  | some del =>
    cases hp : s.voteParam with
    | none => simp
    | some param =>
      simp only [Coin.IsGTE, Coin.Minus, Coin.IsNotNegative, Option.some.injEq,
        exists_and_left, exists_eq_left', IsEmpty.forall_iff, and_true, false_implies]
      by_cases h1 : param.DelegatorMinWithdraw.Amount ≤ coin.Amount
      · simp [h1]
      · simp [h1]

/-- C22, witness: in `exLegalState` (minimum withdrawal 1) the delegator `d1`,
with a delegation of 10 to `v`, may withdraw 10. -/
theorem C22_IsLegalDelegatorWithdraw_witness :
    IsLegalDelegatorWithdraw exLegalState "v" "d1" ⟨10⟩ = true
      ∧ IsLegalDelegatorWithdraw exLegalState "v" "d2" ⟨10⟩ = false :=
  ⟨(C22_IsLegalDelegatorWithdraw exLegalState "v" "d1" ⟨10⟩).1.mpr
      ⟨{ Delegator := "d1", Amount := ⟨10⟩ },
        { VoterMinDeposit := ⟨1000⟩, VoterMinWithdraw := ⟨1⟩, DelegatorMinWithdraw := ⟨1⟩ },
        by decide, rfl, by decide, by decide⟩,
   (C22_IsLegalDelegatorWithdraw exLegalState "v" "d2" ⟨10⟩).2 (by decide)⟩

/-- C22, in numbers: 11 of a delegation of 10 is not legal, nor is 0, below
the minimum withdrawal. -/
theorem C22_IsLegalDelegatorWithdraw_example :
    IsLegalDelegatorWithdraw exLegalState "v" "d1" ⟨11⟩ = false
      ∧ IsLegalDelegatorWithdraw exLegalState "v" "d1" ⟨0⟩ = false := by
  decide

end VoteManager

end Lino

/-! ## Vote manager: invariants along sequences of calls -/

namespace Lino

namespace KV

variable {K V : Type} [DecidableEq K]

theorem forall_get_set (Q : V → Prop) (m : KV K V) (u : K) (x : V)
    (hm : ∀ k v, get m k = some v → Q v) (hx : Q x) :
    ∀ k v, get (set m u x) k = some v → Q v := by
  intro k v h
  by_cases hk : k = u
  · subst hk
    rw [get_set_self] at h
    exact (Option.some.inj h) ▸ hx
  · rw [get_set_of_ne _ _ _ _ hk] at h
    exact hm k v h

theorem forall_get_delete (Q : V → Prop) (m : KV K V) (u : K)
    (hm : ∀ k v, get m k = some v → Q v) :
    ∀ k v, get (delete m u) k = some v → Q v := by
  intro k v h
  by_cases hk : k = u
  · subst hk
    rw [get_delete_self] at h
    exact absurd h (by simp)
  · rw [get_delete_of_ne _ _ _ hk] at h
    exact hm k v h

end KV

namespace VoteManager

open VoteStorage

theorem AddVote_voters (s : VoteState) (p : ProposalKey) (v : AccountKey) (res : Bool) :
    (AddVote s p v res).2.voters = s.voters
      ∧ (AddVote s p v res).2.delegations = s.delegations
      ∧ (AddVote s p v res).2.voteParam = s.voteParam := by
  unfold AddVote
  split
  · exact ⟨rfl, rfl, rfl⟩
  · split <;> exact ⟨rfl, rfl, rfl⟩

/-- The effect of `VoterWithdraw` on the Voter records: none, or the record of
the account is deleted or stored again with the coin subtracted; nothing else
is written. -/
theorem VoterWithdraw_effect (s : VoteState) (u : AccountKey) (c : Coin) :
    (VoterWithdraw s u c).2.delegations = s.delegations
      ∧ (VoterWithdraw s u c).2.voteParam = s.voteParam
      ∧ ((VoterWithdraw s u c).2.voters = s.voters
        ∨ ∃ rec, s.voters.get u = some rec
          ∧ ((rec.Deposit.Amount - c.Amount = 0
              ∧ (VoterWithdraw s u c).2.voters = s.voters.delete u)
            ∨ (rec.Deposit.Amount - c.Amount ≠ 0
              ∧ (VoterWithdraw s u c).2.voters
                  = s.voters.set u { rec with Deposit := ⟨rec.Deposit.Amount - c.Amount⟩ }))) := by
  unfold VoterWithdraw
  by_cases hz : c.Amount = 0
  · simp [Coin.IsZero, hz]
  · cases hv : s.voters.get u with
    | none => simp [Coin.IsZero, hz, GetVoter, hv]
    | some rec =>
      by_cases h0 : rec.Deposit.Amount - c.Amount = 0
      · simp [Coin.IsZero, hz, GetVoter, hv, Coin.Minus, h0, DeleteVoter]
      · simp [Coin.IsZero, hz, GetVoter, hv, Coin.Minus, h0, SetVoter]

theorem VoterWithdrawAll_eq (s : VoteState) (u : AccountKey) :
    (VoterWithdrawAll s u).2.2 = s
      ∨ ∃ rec, s.voters.get u = some rec
        ∧ (VoterWithdrawAll s u).2.2 = (VoterWithdraw s u rec.Deposit).2 := by
  unfold VoterWithdrawAll
  cases hv : s.voters.get u with
  | none => simp [GetVoter, hv]
  | some rec =>
    right
    refine ⟨rec, rfl, ?_⟩
    simp only [GetVoter, hv]
    split <;> rename_i hw <;> rw [hw]

/-- The effect of `DelegatorWithdraw` on the records: none; or the voter is
stored with the coin subtracted from its delegated power and then the
delegation is left alone (it does not exist), deleted, or stored with the
coin subtracted. -/
theorem DelegatorWithdraw_effect (s : VoteState) (v d : AccountKey) (c : Coin) :
    (DelegatorWithdraw s v d c).2.voteParam = s.voteParam
      ∧ ((DelegatorWithdraw s v d c).2 = s
        ∨ ∃ rec, s.voters.get v = some rec
          ∧ (DelegatorWithdraw s v d c).2.voters
              = s.voters.set v
                  { rec with DelegatedPower := ⟨rec.DelegatedPower.Amount - c.Amount⟩ }
          ∧ ((DelegatorWithdraw s v d c).2.delegations = s.delegations
            ∨ ∃ del, s.delegations.get (v, d) = some del
              ∧ ((del.Amount.Amount - c.Amount = 0
                  ∧ (DelegatorWithdraw s v d c).2.delegations = s.delegations.delete (v, d))
                ∨ (del.Amount.Amount - c.Amount ≠ 0
                  ∧ (DelegatorWithdraw s v d c).2.delegations
                      = s.delegations.set (v, d)
                          { del with Amount := ⟨del.Amount.Amount - c.Amount⟩ })))) := by
  unfold DelegatorWithdraw
  by_cases hz : c.Amount = 0
  · simp [Coin.IsZero, hz]
  · cases hv : s.voters.get v with
    | none => simp [Coin.IsZero, hz, GetVoter, hv]
    | some rec =>
      cases hd : s.delegations.get (v, d) with
      | none => simp [Coin.IsZero, hz, GetVoter, hv, GetDelegation, SetVoter, hd, Coin.Minus]
      | some del =>
        by_cases h0 : del.Amount.Amount - c.Amount = 0
        · simp [Coin.IsZero, hz, GetVoter, hv, GetDelegation, SetVoter, hd, Coin.Minus, h0,
            DeleteDelegation]
        · simp [Coin.IsZero, hz, GetVoter, hv, GetDelegation, SetVoter, hd, Coin.Minus, h0,
            SetDelegation]

theorem DelegatorWithdrawAll_eq (s : VoteState) (v d : AccountKey) :
    (DelegatorWithdrawAll s v d).2.2 = s
      ∨ ∃ del, s.delegations.get (v, d) = some del
        ∧ (DelegatorWithdrawAll s v d).2.2 = (DelegatorWithdraw s v d del.Amount).2 := by
  unfold DelegatorWithdrawAll
  cases hd : s.delegations.get (v, d) with
  | none => simp [GetDelegation, hd]
  | some del =>
    right
    refine ⟨del, rfl, ?_⟩
    simp only [GetDelegation, hd]
    split <;> rename_i hw <;> rw [hw]

/-- The effect of `AddDelegation`: none, or both records are stored with the
coin added. -/
theorem AddDelegation_effect (s : VoteState) (v d : AccountKey) (c : Coin) :
    (AddDelegation s v d c).2.voteParam = s.voteParam
      ∧ ((AddDelegation s v d c).2 = s
        ∨ ∃ rec del, s.voters.get v = some rec
          ∧ (s.delegations.get (v, d) = some del
            ∨ (s.delegations.get (v, d) = none ∧ del = { Delegator := d, Amount := ⟨0⟩ }))
          ∧ (AddDelegation s v d c).2.voters
              = s.voters.set v
                  { rec with DelegatedPower := ⟨rec.DelegatedPower.Amount + c.Amount⟩ }
          ∧ (AddDelegation s v d c).2.delegations
              = s.delegations.set (v, d)
                  { del with Amount := ⟨del.Amount.Amount + c.Amount⟩ }) := by
  unfold AddDelegation
  cases hv : s.voters.get v with
  | none =>
    cases hd : s.delegations.get (v, d) with
    | none => simp [DoesDelegationExist, KV.has, hd, GetVoter, hv]
    | some del => simp [DoesDelegationExist, KV.has, hd, GetDelegation, GetVoter, hv]
  | some rec =>
    cases hd : s.delegations.get (v, d) with
    | none =>
      refine ⟨?_, Or.inr ⟨rec, { Delegator := d, Amount := ⟨0⟩ }, rfl, Or.inr ⟨rfl, rfl⟩, ?_, ?_⟩⟩
      · simp [DoesDelegationExist, KV.has, hd, GetVoter, hv, SetVoter, SetDelegation]
      · simp [DoesDelegationExist, KV.has, hd, GetVoter, hv, SetVoter, SetDelegation,
          Coin.Plus]
      · simp [DoesDelegationExist, KV.has, hd, GetVoter, hv, SetVoter, SetDelegation,
          Coin.Plus, Coin.NewCoinFromInt64]
    | some del =>
      refine ⟨?_, Or.inr ⟨rec, del, rfl, Or.inl rfl, ?_, ?_⟩⟩
      · simp [DoesDelegationExist, KV.has, hd, GetDelegation, GetVoter, hv, SetVoter,
          SetDelegation]
      · simp [DoesDelegationExist, KV.has, hd, GetDelegation, GetVoter, hv, SetVoter,
          SetDelegation, Coin.Plus]
      · simp [DoesDelegationExist, KV.has, hd, GetDelegation, GetVoter, hv, SetVoter,
          SetDelegation, Coin.Plus]

/-- The effect of `AddVoter`: none, or the record `Voter{username, coin, 0}`
is stored, for a coin that is at least the minimum deposit. -/
theorem AddVoter_effect (s : VoteState) (u : AccountKey) (c : Coin) :
    (AddVoter s u c).2.delegations = s.delegations
      ∧ (AddVoter s u c).2.voteParam = s.voteParam
      ∧ ((AddVoter s u c).2.voters = s.voters
        ∨ ∃ param, s.voteParam = some param ∧ param.VoterMinDeposit.Amount ≤ c.Amount
          ∧ (AddVoter s u c).2.voters
              = s.voters.set u { Username := u, Deposit := c, DelegatedPower := ⟨0⟩ }) := by
  unfold AddVoter
  cases hp : s.voteParam with
  | none => simp [GetVoteParam, hp]
  | some param =>
    by_cases hge : param.VoterMinDeposit.Amount ≤ c.Amount
    · simp [GetVoteParam, hp, Coin.IsGTE, hge, SetVoter]
    · simp [GetVoteParam, hp, Coin.IsGTE, hge]

/-- The effect of `Deposit`: none, or the record is stored with the coin
added to its deposit. -/
theorem Deposit_effect (s : VoteState) (u : AccountKey) (c : Coin) :
    (Deposit s u c).2.delegations = s.delegations
      ∧ (Deposit s u c).2.voteParam = s.voteParam
      ∧ ((Deposit s u c).2.voters = s.voters
        ∨ ∃ rec, s.voters.get u = some rec
          ∧ (Deposit s u c).2.voters
              = s.voters.set u { rec with Deposit := ⟨rec.Deposit.Amount + c.Amount⟩ }) := by
  unfold Deposit
  cases hv : s.voters.get u with
  | none => simp [GetVoter, hv]
  | some rec => simp [GetVoter, hv, SetVoter, Coin.Plus]

end VoteManager

end Lino

namespace Lino

namespace VoteManager

open VoteStorage

theorem voters_inv_VoterWithdraw (Q : Voter → Prop) (s : VoteState) (u : AccountKey) (c : Coin)
    (h : ∀ k rec, s.voters.get k = some rec → Q rec)
    (hQ : ∀ rec, s.voters.get u = some rec → rec.Deposit.Amount - c.Amount ≠ 0 →
      Q { rec with Deposit := ⟨rec.Deposit.Amount - c.Amount⟩ }) :
    ∀ k rec, (VoterWithdraw s u c).2.voters.get k = some rec → Q rec := by
  rcases (VoterWithdraw_effect s u c).2.2 with he | ⟨rec, hv, ⟨_, he⟩ | ⟨h0, he⟩⟩
  · rw [he]
    exact h
  · rw [he]
    exact KV.forall_get_delete Q _ _ h
  · rw [he]
    exact KV.forall_get_set Q _ _ _ h (hQ rec hv h0)

theorem voters_inv_VoterWithdrawAll (Q : Voter → Prop) (s : VoteState) (u : AccountKey)
    (h : ∀ k rec, s.voters.get k = some rec → Q rec) :
    ∀ k rec, (VoterWithdrawAll s u).2.2.voters.get k = some rec → Q rec := by
  rcases VoterWithdrawAll_eq s u with he | ⟨rec, hv, he⟩
  · rw [he]
    exact h
  · rw [he]
    apply voters_inv_VoterWithdraw Q s u rec.Deposit h
    intro rec' hv' h0
    rw [hv] at hv'
    cases hv'
    exact absurd (sub_self _) h0

theorem voters_inv_Deposit (Q : Voter → Prop) (s : VoteState) (u : AccountKey) (c : Coin)
    (h : ∀ k rec, s.voters.get k = some rec → Q rec)
    (hQ : ∀ rec, s.voters.get u = some rec →
      Q { rec with Deposit := ⟨rec.Deposit.Amount + c.Amount⟩ }) :
    ∀ k rec, (Deposit s u c).2.voters.get k = some rec → Q rec := by
  rcases (Deposit_effect s u c).2.2 with he | ⟨rec, hv, he⟩
  · rw [he]
    exact h
  · rw [he]
    exact KV.forall_get_set Q _ _ _ h (hQ rec hv)

theorem voters_inv_AddVoter (Q : Voter → Prop) (s : VoteState) (u : AccountKey) (c : Coin)
    (h : ∀ k rec, s.voters.get k = some rec → Q rec)
    (hQ : ∀ param, s.voteParam = some param → param.VoterMinDeposit.Amount ≤ c.Amount →
      Q { Username := u, Deposit := c, DelegatedPower := ⟨0⟩ }) :
    ∀ k rec, (AddVoter s u c).2.voters.get k = some rec → Q rec := by
  rcases (AddVoter_effect s u c).2.2 with he | ⟨param, hp, hge, he⟩
  · rw [he]
    exact h
  · rw [he]
    exact KV.forall_get_set Q _ _ _ h (hQ param hp hge)

theorem voters_inv_AddDelegation (Q : Voter → Prop) (s : VoteState) (v d : AccountKey)
    (c : Coin) (h : ∀ k rec, s.voters.get k = some rec → Q rec)
    (hQ : ∀ rec, s.voters.get v = some rec →
      Q { rec with DelegatedPower := ⟨rec.DelegatedPower.Amount + c.Amount⟩ }) :
    ∀ k rec, (AddDelegation s v d c).2.voters.get k = some rec → Q rec := by
  rcases (AddDelegation_effect s v d c).2 with he | ⟨rec, del, hv, _, he, _⟩
  · rw [he]
    exact h
  · rw [he]
    exact KV.forall_get_set Q _ _ _ h (hQ rec hv)

theorem voters_inv_DelegatorWithdraw (Q : Voter → Prop) (s : VoteState) (v d : AccountKey)
    (c : Coin) (h : ∀ k rec, s.voters.get k = some rec → Q rec)
    (hQ : ∀ rec, s.voters.get v = some rec →
      Q { rec with DelegatedPower := ⟨rec.DelegatedPower.Amount - c.Amount⟩ }) :
    ∀ k rec, (DelegatorWithdraw s v d c).2.voters.get k = some rec → Q rec := by
  rcases (DelegatorWithdraw_effect s v d c).2 with he | ⟨rec, hv, he, _⟩
  · rw [he]
    exact h
  · rw [he]
    exact KV.forall_get_set Q _ _ _ h (hQ rec hv)

theorem voters_inv_DelegatorWithdrawAll (Q : Voter → Prop) (s : VoteState) (v d : AccountKey)
    (h : ∀ k rec, s.voters.get k = some rec → Q rec)
    (hQ : ∀ rec del, s.voters.get v = some rec → s.delegations.get (v, d) = some del →
      Q { rec with DelegatedPower := ⟨rec.DelegatedPower.Amount - del.Amount.Amount⟩ }) :
    ∀ k rec, (DelegatorWithdrawAll s v d).2.2.voters.get k = some rec → Q rec := by
  rcases DelegatorWithdrawAll_eq s v d with he | ⟨del, hd, he⟩
  · rw [he]
    exact h
  · rw [he]
    exact voters_inv_DelegatorWithdraw Q s v d del.Amount h (fun rec hv => hQ rec del hv hd)

/-- One covered call keeps every stake non-negative. -/
theorem NonNegativeStake_run (op : VoteOp) (s : VoteState) (h : NonNegativeStake s)
    (hg : stakeCovered s op) : NonNegativeStake (op.run s) := by
  unfold NonNegativeStake at h ⊢
  cases op with
  | AddVote p v res =>
    simp only [VoteOp.run, (AddVote_voters s p v res).1]
    exact h
  | AddDelegation v d c =>
    apply voters_inv_AddDelegation _ s v d c h
    intro rec hv
    have := h v rec hv
    simp only [stakeCovered] at hg
    exact ⟨this.1, by simp only []; omega⟩
  | AddVoter u c =>
    apply voters_inv_AddVoter _ s u c h
    intro _ _ _
    simp only [stakeCovered] at hg
    exact ⟨hg, le_refl _⟩
  | Deposit u c =>
    apply voters_inv_Deposit _ s u c h
    intro rec hv
    have := h u rec hv
    simp only [stakeCovered] at hg
    exact ⟨by simp only []; omega, this.2⟩
  | VoterWithdraw u c =>
    apply voters_inv_VoterWithdraw _ s u c h
    intro rec hv _
    have := h u rec hv
    have hc := hg rec hv
    exact ⟨by simp only []; omega, this.2⟩
  | VoterWithdrawAll u => exact voters_inv_VoterWithdrawAll _ s u h
  | DelegatorWithdraw v d c =>
    apply voters_inv_DelegatorWithdraw _ s v d c h
    intro rec hv
    have := h v rec hv
    have hc := hg rec hv
    exact ⟨this.1, by simp only []; omega⟩
  | DelegatorWithdrawAll v d =>
    apply voters_inv_DelegatorWithdrawAll _ s v d h
    intro rec del hv hd
    have := h v rec hv
    have hc := hg rec del hv hd
    exact ⟨this.1, by simp only []; omega⟩

theorem exVoteState_NonNegativeStake : NonNegativeStake exVoteState := by
  intro k rec hk
  simp only [exVoteState, KV.get] at hk
  split at hk
  · cases hk
    decide
  · cases hk

/-- C23, counterexample.  In `exVoteState` every stake is non-negative (`v`
has deposit 100 and delegated power 10).  `VoterWithdraw v 150`, with the
non-negative coin 150, is not rejected: it returns `nil` and stores `v` with
deposit -50. -/
theorem C23_negative_deposit_stored :
    NonNegativeStake exVoteState
      ∧ (VoterWithdraw exVoteState "v" ⟨150⟩).1 = none
      ∧ (runAll [VoteOp.VoterWithdraw "v" ⟨150⟩] exVoteState).voters.get "v"
          = some { Username := "v", Deposit := ⟨-50⟩, DelegatedPower := ⟨10⟩ }
      ∧ ¬ NonNegativeStake (runAll [VoteOp.VoterWithdraw "v" ⟨150⟩] exVoteState) := by
  refine ⟨exVoteState_NonNegativeStake, by decide, by decide, ?_⟩
  · intro hn
    have := (hn "v" { Username := "v", Deposit := ⟨-50⟩, DelegatedPower := ⟨10⟩ }
      (by decide)).1
    exact absurd this (by decide)

/-- C23, amended (non-negative stake).  From a store whose Voter records all
have deposit and delegated power `>= 0`, after any sequence of calls in which
`AddVoter`, `Deposit` and `AddDelegation` get non-negative coins and no
withdrawal takes more than the deposit (`VoterWithdraw`), respectively the
delegated power (`DelegatorWithdraw`, `DelegatorWithdrawAll`), it is taken
from, every stored Voter record has deposit and delegated power `>= 0`. -/
theorem C23_non_negative_stake (s : VoteState) (ops : List VoteOp)
    (h : NonNegativeStake s) (hg : allGuarded stakeCovered ops s) :
    NonNegativeStake (runAll ops s) := by
  induction ops generalizing s with
  | nil => exact h
  | cons op t ih => exact ih (op.run s) (NonNegativeStake_run op s h hg.1) hg.2

/-- C23, amended: witness.  On `exVoteState`: `v` deposits 5, withdraws the
whole deposit of 105 (the record is deleted), `d1` withdraws its delegation. -/
theorem C23_non_negative_stake_witness :
    NonNegativeStake (runAll [VoteOp.Deposit "v" ⟨5⟩, VoteOp.DelegatorWithdraw "v" "d1" ⟨10⟩,
      VoteOp.VoterWithdraw "v" ⟨105⟩] exVoteState) :=
  C23_non_negative_stake exVoteState _ exVoteState_NonNegativeStake
    (by
      refine ⟨(by decide : (0 : Int) ≤ 5), ?_, ?_, trivial⟩
      · intro rec hv
        have : rec = { Username := "v", Deposit := ⟨105⟩, DelegatedPower := ⟨10⟩ } :=
          (Option.some.inj ((show _ = some _ from by decide).symm.trans hv)).symm
        subst this
        decide
      · intro rec hv
        have : rec = { Username := "v", Deposit := ⟨105⟩, DelegatedPower := ⟨0⟩ } :=
          (Option.some.inj ((show _ = some _ from by decide).symm.trans hv)).symm
        subst this
        decide)

end VoteManager

end Lino

namespace Lino

namespace VoteManager

open VoteStorage

theorem run_voteParam (op : VoteOp) (s : VoteState) : (op.run s).voteParam = s.voteParam := by
  cases op with
  | AddVote p v res => exact (AddVote_voters s p v res).2.2
  | AddDelegation v d c => exact (AddDelegation_effect s v d c).1
  | AddVoter u c => exact (AddVoter_effect s u c).2.1
  | Deposit u c => exact (Deposit_effect s u c).2.1
  | VoterWithdraw u c => exact (VoterWithdraw_effect s u c).2.1
  | VoterWithdrawAll u =>
    rcases VoterWithdrawAll_eq s u with he | ⟨rec, _, he⟩
    · simp only [VoteOp.run, he]
    · simp only [VoteOp.run, he]
      exact (VoterWithdraw_effect s u rec.Deposit).2.1
  | DelegatorWithdraw v d c => exact (DelegatorWithdraw_effect s v d c).1
  | DelegatorWithdrawAll v d =>
    rcases DelegatorWithdrawAll_eq s v d with he | ⟨del, _, he⟩
    · simp only [VoteOp.run, he]
    · simp only [VoteOp.run, he]
      exact (DelegatorWithdraw_effect s v d del.Amount).1

/-- One call that deposits a non-negative coin, or withdraws no more than the
deposit, keeps every deposit positive when the minimum deposit is. -/
theorem PositiveDeposits_run (op : VoteOp) (s : VoteState) (h : PositiveDeposits s)
    (hmin : ∀ param, s.voteParam = some param → 0 < param.VoterMinDeposit.Amount)
    (hg : depositCovered s op) : PositiveDeposits (op.run s) := by
  unfold PositiveDeposits at h ⊢
  cases op with
  | AddVote p v res =>
    simp only [VoteOp.run, (AddVote_voters s p v res).1]
    exact h
  | AddDelegation v d c =>
    apply voters_inv_AddDelegation _ s v d c h
    intro rec hv
    exact h v rec hv
  | AddVoter u c =>
    apply voters_inv_AddVoter _ s u c h
    intro param hp hge
    have := hmin param hp
    simp only []
    omega
  | Deposit u c =>
    apply voters_inv_Deposit _ s u c h
    intro rec hv
    have := h u rec hv
    simp only [depositCovered] at hg
    simp only []
    omega
  | VoterWithdraw u c =>
    apply voters_inv_VoterWithdraw _ s u c h
    intro rec hv h0
    have hc := hg rec hv
    simp only []
    omega
  | VoterWithdrawAll u => exact voters_inv_VoterWithdrawAll _ s u h
  | DelegatorWithdraw v d c =>
    apply voters_inv_DelegatorWithdraw _ s v d c h
    intro rec hv
    exact h v rec hv
  | DelegatorWithdrawAll v d =>
    apply voters_inv_DelegatorWithdrawAll _ s v d h
    intro rec del hv _
    exact h v rec hv

theorem PositiveDeposits_runAll (s : VoteState) (ops : List VoteOp) (h : PositiveDeposits s)
    (hmin : ∀ param, s.voteParam = some param → 0 < param.VoterMinDeposit.Amount)
    (hg : allGuarded depositCovered ops s) : PositiveDeposits (runAll ops s) := by
  induction ops generalizing s with
  | nil => exact h
  | cons op t ih =>
    refine ih (op.run s) (PositiveDeposits_run op s h hmin hg.1) ?_ hg.2
    rw [run_voteParam]
    exact hmin

/-- C24, counterexample.  From the empty store, with minimum deposit 1000:
`AddVoter u 1000`, then `VoterWithdraw u 1500` (not rejected: the deposit is
now -500), then `Deposit u 500`: the Voter record of `u` is stored with
deposit 0. -/
theorem C24_zero_deposit_retained :
    exEmptyState.voters = []
      ∧ (runAll [VoteOp.AddVoter "u" ⟨1000⟩, VoteOp.VoterWithdraw "u" ⟨1500⟩,
            VoteOp.Deposit "u" ⟨500⟩] exEmptyState).voters.get "u"
          = some { Username := "u", Deposit := ⟨0⟩, DelegatedPower := ⟨0⟩ } := by
  decide

/-- C24, amended (no zero-deposit voter is retained).  With a positive
`VoterMinDeposit`, in every state reached from the empty store by `AddVoter`,
`Deposit`, `VoterWithdraw` and `VoterWithdrawAll` calls (and any other call of
the vote manager) in which `Deposit` gets a non-negative coin and no
`VoterWithdraw` takes more than the deposit, every stored Voter record has a
positive, so non-zero, deposit. -/
theorem C24_no_zero_deposit (s : VoteState) (ops : List VoteOp) (hempty : s.voters = [])
    (hmin : ∀ param, s.voteParam = some param → 0 < param.VoterMinDeposit.Amount)
    (hg : allGuarded depositCovered ops s) :
    ∀ k rec, (runAll ops s).voters.get k = some rec →
      0 < rec.Deposit.Amount ∧ rec.Deposit.Amount ≠ 0 := by
  have h0 : PositiveDeposits s := by
    intro k rec hk
    rw [hempty] at hk
    cases hk
  intro k rec hk
  have := PositiveDeposits_runAll s ops h0 hmin hg k rec hk
  exact ⟨this, by omega⟩

/-- C24, amended: witness.  From the empty store with minimum deposit 1000:
`AddVoter u 1000`, `Deposit u 500`, `VoterWithdraw u 300`: the record of `u`
is stored with the deposit 1200. -/
theorem C24_no_zero_deposit_witness :
    (runAll [VoteOp.AddVoter "u" ⟨1000⟩, VoteOp.Deposit "u" ⟨500⟩,
        VoteOp.VoterWithdraw "u" ⟨300⟩] exEmptyState).voters.get "u"
        = some ⟨"u", ⟨1200⟩, ⟨0⟩⟩
      ∧ (0 < (1200 : Int) ∧ (1200 : Int) ≠ 0) :=
  ⟨by decide,
   C24_no_zero_deposit exEmptyState
    [VoteOp.AddVoter "u" ⟨1000⟩, VoteOp.Deposit "u" ⟨500⟩, VoteOp.VoterWithdraw "u" ⟨300⟩] rfl
    (by
      intro param hp
      have : param = ⟨⟨1000⟩, ⟨1⟩, ⟨1⟩⟩ :=
        (Option.some.inj ((show _ = some _ from rfl).symm.trans hp)).symm
      subst this
      decide)
    (by
      refine ⟨trivial, (by decide : (0 : Int) ≤ 500), ?_, trivial⟩
      intro rec hv
      have : rec = ⟨"u", ⟨1500⟩, ⟨0⟩⟩ :=
        (Option.some.inj ((show _ = some _ from by decide).symm.trans hv)).symm
      subst this
      decide)
    "u" ⟨"u", ⟨1200⟩, ⟨0⟩⟩ (by decide)⟩

theorem delegations_inv_DelegatorWithdraw (Q : Delegation → Prop) (s : VoteState)
    (v d : AccountKey) (c : Coin) (h : ∀ k del, s.delegations.get k = some del → Q del)
    (hQ : ∀ del, s.delegations.get (v, d) = some del → del.Amount.Amount - c.Amount ≠ 0 →
      Q { del with Amount := ⟨del.Amount.Amount - c.Amount⟩ }) :
    ∀ k del, (DelegatorWithdraw s v d c).2.delegations.get k = some del → Q del := by
  rcases (DelegatorWithdraw_effect s v d c).2 with he | ⟨rec, _, _, he | ⟨del, hd, hcase⟩⟩
  · rw [he]
    exact h
  · rw [he]
    exact h
  · rcases hcase with ⟨_, he⟩ | ⟨h0, he⟩
    · rw [he]
      exact KV.forall_get_delete Q _ _ h
    · rw [he]
      exact KV.forall_get_set Q _ _ _ h (hQ del hd h0)

/-- One call that delegates a positive coin, or withdraws no more than the
delegation's amount, keeps every delegation positive. -/
theorem PositiveDelegations_run (op : VoteOp) (s : VoteState) (h : PositiveDelegations s)
    (hg : delegationCovered s op) : PositiveDelegations (op.run s) := by
  unfold PositiveDelegations at h ⊢
  cases op with
  | AddVote p v res =>
    simp only [VoteOp.run, (AddVote_voters s p v res).2.1]
    exact h
  | AddDelegation v d c =>
    simp only [delegationCovered] at hg
    rcases (AddDelegation_effect s v d c).2 with he | ⟨rec, del, _, hdel, _, he⟩
    · simp only [VoteOp.run, he]
      exact h
    · simp only [VoteOp.run, he]
      apply KV.forall_get_set _ _ _ _ h
      rcases hdel with hd | ⟨_, hd⟩
      · have := h _ del hd
        simp only []
        omega
      · subst hd
        simp only []
        omega
  | AddVoter u c =>
    simp only [VoteOp.run, (AddVoter_effect s u c).1]
    exact h
  | Deposit u c =>
    simp only [VoteOp.run, (Deposit_effect s u c).1]
    exact h
  | VoterWithdraw u c =>
    simp only [VoteOp.run, (VoterWithdraw_effect s u c).1]
    exact h
  | VoterWithdrawAll u =>
    rcases VoterWithdrawAll_eq s u with he | ⟨rec, _, he⟩
    · simp only [VoteOp.run, he]
      exact h
    · simp only [VoteOp.run, he, (VoterWithdraw_effect s u rec.Deposit).1]
      exact h
  | DelegatorWithdraw v d c =>
    apply delegations_inv_DelegatorWithdraw _ s v d c h
    intro del hd h0
    have hc := hg del hd
    simp only []
    omega
  | DelegatorWithdrawAll v d =>
    rcases DelegatorWithdrawAll_eq s v d with he | ⟨del, hd, he⟩
    · simp only [VoteOp.run, he]
      exact h
    · simp only [VoteOp.run, he]
      apply delegations_inv_DelegatorWithdraw _ s v d del.Amount h
      intro del' hd' h0
      rw [hd] at hd'
      cases hd'
      exact absurd (sub_self _) h0

/-- C25, counterexample.  From a store with the voter `v` and no delegation,
`AddDelegation v d 0`, with the non-negative coin 0, returns `nil` and stores
a Delegation record of amount 0. -/
theorem C25_zero_delegation_stored :
    exVoterOnlyState.delegations = []
      ∧ (AddDelegation exVoterOnlyState "v" "d" ⟨0⟩).1 = none
      ∧ (runAll [VoteOp.AddDelegation "v" "d" ⟨0⟩] exVoterOnlyState).delegations.get ("v", "d")
          = some { Delegator := "d", Amount := ⟨0⟩ } := by
  decide

/-- C25, amended (live delegations are positive).  In every state reached
from the empty delegation store by `AddDelegation`, `DelegatorWithdraw` and
`DelegatorWithdrawAll` calls (and any other call of the vote manager) in which
`AddDelegation` gets a positive coin and no `DelegatorWithdraw` takes more than
the delegation's amount, every stored Delegation record has amount `> 0`. -/
theorem C25_positive_delegations (s : VoteState) (ops : List VoteOp)
    (hempty : s.delegations = []) (hg : allGuarded delegationCovered ops s) :
    PositiveDelegations (runAll ops s) := by
  have h0 : PositiveDelegations s := by
    intro k del hk
    rw [hempty] at hk
    cases hk
  clear hempty
  induction ops generalizing s with
  | nil => exact h0
  | cons op t ih => exact ih (op.run s) hg.2 (PositiveDelegations_run op s h0 hg.1)

/-- C25, amended: witness.  From the store with the voter `v` and no
delegation: `d` delegates 7, withdraws 3, and withdraws all. -/
theorem C25_positive_delegations_witness :
    PositiveDelegations (runAll [VoteOp.AddDelegation "v" "d" ⟨7⟩,
      VoteOp.DelegatorWithdraw "v" "d" ⟨3⟩, VoteOp.DelegatorWithdrawAll "v" "d"]
      exVoterOnlyState) :=
  C25_positive_delegations exVoterOnlyState _ rfl
    (by
      refine ⟨(by decide : (0 : Int) < 7), ?_, trivial, trivial⟩
      intro del hd
      have : del = { Delegator := "d", Amount := ⟨7⟩ } :=
        (Option.some.inj ((show _ = some _ from by decide).symm.trans hd)).symm
      subst this
      decide)

end VoteManager

end Lino

/-! ## Donation pipeline: one leg -/

namespace Lino

/-- A leg that returns an error has written nothing. -/
theorem processDonationFriction_error (env : Env) (s s' : PostState)
    (consumer : AccountKey) (coin : Coin) (postAuthor : AccountKey) (postID : String)
    (fromApp : AccountKey) (e : PostError)
    (h : processDonationFriction env s consumer coin postAuthor postID fromApp = (some e, s')) :
    s' = s := by
  unfold processDonationFriction at h
  simp only [] at h
  by_cases hz : coin.IsZero = true
  · simp [hz] at h
  simp only [hz, Bool.false_eq_true, if_false] at h
  cases hacc : s.accounts.get postAuthor with
  | none =>
    simp only [DoesAccountExist, KV.has, hacc, Option.isSome_none, Bool.not_false,
      if_true, Prod.mk.injEq] at h
    exact h.2.symm
  | some acct =>
    simp only [DoesAccountExist, KV.has, hacc, Option.isSome_some, Bool.not_true,
      Bool.false_eq_true, if_false] at h
    cases hrate : GetConsumptionFrictionRate s with
    | error e1 =>
      simp only [hrate, Prod.mk.injEq] at h
      exact h.2.symm
    | ok rate =>
      simp only [hrate] at h
      cases hev : evaluateConsumption env s consumer coin postAuthor postID with
      | error e1 =>
        simp only [hev, Prod.mk.injEq] at h
        exact h.2.symm
      | ok evaluateResult =>
        simp only [hev] at h
        have hpost : ∃ p, s.posts.get (GetPermlink postAuthor postID) = some p := by
          unfold evaluateConsumption at hev
          cases hrel : GetDonationRelationship s consumer postAuthor with
          | error e1 => simp [hrel] at hev
          | ok n =>
            simp only [hrel] at hev
            unfold GetCreatedTimeAndReward at hev
            cases hp : s.posts.get (GetPermlink postAuthor postID) with
            | none => simp [hp] at hev
            | some p => exact ⟨p, rfl⟩
        obtain ⟨post, hpost⟩ := hpost
        unfold AddFrictionAndRegisterContentRewardEvent at h
        by_cases hrej : env.RejectsRewardEvent
            { PostAuthor := postAuthor, PostID := postID, Consumer := consumer,
              Evaluate := evaluateResult, Original := coin,
              Friction := RatToCoin (coin.ToRat * rate), FromApp := fromApp } = true
        · simp only [hrej, if_true, Prod.mk.injEq] at h
          exact h.2.symm
        · simp [hrej, AddDonation, hpost, AddSavingCoin, hacc, AddDirectDeposit,
            KV.get_set_self, AddConsumption, UpdateDonationRelationship, DoesAccountExist,
            KV.has] at h

/-- What a leg that returns `nil` has done: nothing for a zero coin;
otherwise it has registered one reward event carrying the coin and the
friction, added the friction to the inflation pool, and credited the coin
minus the friction to the post author. -/
theorem processDonationFriction_ok (env : Env) (s s' : PostState)
    (consumer : AccountKey) (coin : Coin) (postAuthor : AccountKey) (postID : String)
    (fromApp : AccountKey)
    (h : processDonationFriction env s consumer coin postAuthor postID fromApp = (none, s')) :
    (coin.Amount = 0 ∧ s' = s)
    ∨ (coin.Amount ≠ 0 ∧ ∃ rate evaluateResult,
        GetConsumptionFrictionRate s = .ok rate
        ∧ DoesAccountExist s postAuthor = true
        ∧ s'.pool.RewardEvents = s.pool.RewardEvents ++
            [{ PostAuthor := postAuthor, PostID := postID, Consumer := consumer,
               Evaluate := evaluateResult, Original := coin,
               Friction := RatToCoin (coin.ToRat * rate), FromApp := fromApp }]
        ∧ s'.pool.InflationPool = s.pool.InflationPool.Plus (RatToCoin (coin.ToRat * rate))
        ∧ s'.pool.Consumption = s.pool.Consumption.Plus coin
        ∧ ∀ k, savingOf s' k = savingOf s k +
            if k = postAuthor then coin.Amount - (RatToCoin (coin.ToRat * rate)).Amount
            else 0) := by
  unfold processDonationFriction at h
  simp only [] at h
  by_cases hz : coin.Amount = 0
  · left
    simp only [Coin.IsZero, hz, decide_True, if_true, Prod.mk.injEq, true_and] at h
    exact ⟨hz, h.symm⟩
  right
  refine ⟨hz, ?_⟩
  simp only [Coin.IsZero, hz, decide_False, Bool.false_eq_true, if_false] at h
  cases hacc : s.accounts.get postAuthor with
  | none => simp [DoesAccountExist, KV.has, hacc] at h
  | some acct =>
    simp only [DoesAccountExist, KV.has, hacc, Option.isSome_some, Bool.not_true,
      Bool.false_eq_true, if_false] at h
    cases hrate : GetConsumptionFrictionRate s with
    | error e1 => simp [hrate] at h
    | ok rate =>
      simp only [hrate] at h
      cases hev : evaluateConsumption env s consumer coin postAuthor postID with
      | error e1 => simp [hev] at h
      | ok evaluateResult =>
        simp only [hev] at h
        have hpost : ∃ p, s.posts.get (GetPermlink postAuthor postID) = some p := by
          unfold evaluateConsumption at hev
          cases hrel : GetDonationRelationship s consumer postAuthor with
          | error e1 => simp [hrel] at hev
          | ok n =>
            simp only [hrel] at hev
            unfold GetCreatedTimeAndReward at hev
            cases hp : s.posts.get (GetPermlink postAuthor postID) with
            | none => simp [hp] at hev
            | some p => exact ⟨p, rfl⟩
        obtain ⟨post, hpost⟩ := hpost
        unfold AddFrictionAndRegisterContentRewardEvent at h
        by_cases hrej : env.RejectsRewardEvent
            { PostAuthor := postAuthor, PostID := postID, Consumer := consumer,
              Evaluate := evaluateResult, Original := coin,
              Friction := RatToCoin (coin.ToRat * rate), FromApp := fromApp } = true
        · simp [hrej] at h
        · simp only [hrej, Bool.false_eq_true, if_false, AddDonation, hpost, AddSavingCoin, hacc,
            AddDirectDeposit, KV.get_set_self, AddConsumption, UpdateDonationRelationship,
            DoesAccountExist, KV.has, Option.isSome_some, Bool.not_true, Prod.mk.injEq,
            true_and] at h
          subst h
          refine ⟨rate, evaluateResult, rfl, ?_, rfl, rfl, rfl, ?_⟩
          · simp [DoesAccountExist, KV.has, hacc]
          · intro k
            by_cases hk : k = postAuthor
            · subst hk
              simp [savingOf, KV.get_set_self, hacc, Coin.Plus, Coin.Minus]
            · simp [savingOf, KV.get_set_of_ne _ _ _ _ hk, hk]

end Lino

/-! ## Donation pipeline: the handler -/

namespace Lino

/-- The debit and the stake-weight record leave the pool alone, change the
consumer's balance by the coin only, and keep every post's source link and
split rate. -/
theorem donate_prefix_frame (s s1 s2 : PostState) (user : AccountKey) (coin stake : Coin)
    (permlink : Permlink)
    (h1 : MinusSavingCoin s user coin = .ok s1)
    (h2 : ReportOrUpvoteToPost s1 permlink user stake false = .ok s2) :
    s2.pool = s.pool
      ∧ (∀ k, savingOf s2 k = savingOf s k - if k = user then coin.Amount else 0)
      ∧ (∀ pl, GetSourcePost s2 pl = GetSourcePost s pl)
      ∧ (∀ pl, GetRedistributionSplitRate s2 pl = GetRedistributionSplitRate s pl) := by
  unfold MinusSavingCoin at h1
  cases hacc : s.accounts.get user with
  | none => simp [hacc] at h1
  | some a =>
    simp only [hacc] at h1
    split at h1
    · simp at h1
    · simp only [Except.ok.injEq] at h1
      subst h1
      unfold ReportOrUpvoteToPost at h2
      cases hp : s.posts.get permlink with
      | none => simp [hp] at h2
      | some p =>
        simp only [hp, Except.ok.injEq] at h2
        subst h2
        refine ⟨rfl, ?_, ?_, ?_⟩
        · intro k
          by_cases hk : k = user
          · subst hk
            simp [savingOf, KV.get_set_self, hacc, Coin.Minus]
          · simp [savingOf, KV.get_set_of_ne _ _ _ _ hk, hk]
        · intro pl
          by_cases hk : pl = permlink
          · subst hk
            simp [GetSourcePost, KV.get_set_self, hp]
          · simp [GetSourcePost, KV.get_set_of_ne _ _ _ _ hk]
        · intro pl
          by_cases hk : pl = permlink
          · subst hk
            simp [GetRedistributionSplitRate, KV.get_set_self, hp]
          · simp [GetRedistributionSplitRate, KV.get_set_of_ne _ _ _ _ hk]

/-- The shape of a run of `handleDonateMsg` that got past the debit, the
stake-weight record and the read of the source link: the two legs. -/
theorem handleDonateMsg_legs (env : Env) (s : PostState) (msg : DonateMsg)
    (r : Option PostError) (s' : PostState)
    (h : handleDonateMsg env s msg = (r, s'))
    (hr : r = none ∨ (∃ p, r = some (.ErrProcessSourceDonation p))
      ∨ ∃ p, r = some (.ErrProcessDonation p)) :
    ∃ coin s1 stake s2 sa sp,
      env.LinoToCoin msg.Amount = some coin
      ∧ MinusSavingCoin s msg.Username coin = .ok s1
      ∧ GetStake s1 msg.Username = .ok stake
      ∧ ReportOrUpvoteToPost s1 (GetPermlink msg.Author msg.PostID) msg.Username stake false
          = .ok s2
      ∧ GetSourcePost s2 (GetPermlink msg.Author msg.PostID) = .ok (sa, sp)
      ∧ ((¬ (sa ≠ "" ∧ sp ≠ "")
            ∧ ∃ r4, processDonationFriction env s2 msg.Username coin msg.Author msg.PostID
                  msg.FromApp = (r4, s')
              ∧ r = r4.map (fun _ => .ErrProcessDonation (GetPermlink msg.Author msg.PostID)))
        ∨ ((sa ≠ "" ∧ sp ≠ "") ∧ ∃ rate r3 s3,
            GetRedistributionSplitRate s2 (GetPermlink sa sp) = .ok rate
            ∧ processDonationFriction env s2 msg.Username
                (RatToCoin (coin.ToRat * (1 - rate))) sa sp msg.FromApp = (r3, s3)
            ∧ ((∃ e3, r3 = some e3 ∧ s' = s3
                  ∧ r = some (.ErrProcessSourceDonation (GetPermlink sa sp)))
              ∨ (r3 = none ∧ ∃ r4,
                  processDonationFriction env s3 msg.Username
                    (coin.Minus (RatToCoin (coin.ToRat * (1 - rate))))
                    msg.Author msg.PostID msg.FromApp = (r4, s')
                  ∧ r = r4.map
                      (fun _ => .ErrProcessDonation (GetPermlink msg.Author msg.PostID)))))) := by
  unfold handleDonateMsg at h
  simp only [] at h
  cases hc : env.LinoToCoin msg.Amount with
  | none =>
    simp only [hc, Prod.mk.injEq] at h
    rcases hr with hr | ⟨p, hr⟩ | ⟨p, hr⟩ <;> simp [hr] at h
  | some coin =>
    simp only [hc] at h
    split at h
    · rcases hr with hr | ⟨p, hr⟩ | ⟨p, hr⟩ <;> simp [hr] at h
    split at h
    · rcases hr with hr | ⟨p, hr⟩ | ⟨p, hr⟩ <;> simp [hr] at h
    split at h
    · rcases hr with hr | ⟨p, hr⟩ | ⟨p, hr⟩ <;> simp [hr] at h
    split at h
    · rcases hr with hr | ⟨p, hr⟩ | ⟨p, hr⟩ <;> simp [hr] at h
    split at h
    · rcases hr with hr | ⟨p, hr⟩ | ⟨p, hr⟩ <;> simp [hr] at h
    cases hm : MinusSavingCoin s msg.Username coin with
    | error e =>
      simp only [hm, Prod.mk.injEq] at h
      have he : e = .ErrAccountLedger ∨ e = .ErrInsufficientFunds := by
        unfold MinusSavingCoin at hm
        split at hm
        · simp at hm; exact Or.inl hm.symm
        · split at hm
          · simp at hm; exact Or.inr hm.symm
          · simp at hm
      rcases he with he | he <;> subst he <;>
        (rcases hr with hr | ⟨p, hr⟩ | ⟨p, hr⟩ <;> simp [hr] at h)
    | ok s1 =>
      simp only [hm] at h
      cases hs : GetStake s1 msg.Username with
      | error e =>
        simp only [hs, Prod.mk.injEq] at h
        have he : e = .ErrAccountLedger := by
          unfold GetStake at hs
          split at hs <;> simp at hs
          exact hs.symm
        subst he
        rcases hr with hr | ⟨p, hr⟩ | ⟨p, hr⟩ <;> simp [hr] at h
      | ok stake =>
        simp only [hs] at h
        cases hrep : ReportOrUpvoteToPost s1 (GetPermlink msg.Author msg.PostID) msg.Username
            stake false with
        | error e =>
          simp only [hrep, Prod.mk.injEq] at h
          have he : e = .ErrPostLedger := by
            unfold ReportOrUpvoteToPost at hrep
            split at hrep <;> simp at hrep
            exact hrep.symm
          subst he
          rcases hr with hr | ⟨p, hr⟩ | ⟨p, hr⟩ <;> simp [hr] at h
        | ok s2 =>
          simp only [hrep] at h
          cases hsrc : GetSourcePost s2 (GetPermlink msg.Author msg.PostID) with
          | error e =>
            simp only [hsrc, Prod.mk.injEq] at h
            have he : e = .ErrPostLedger := by
              unfold GetSourcePost at hsrc
              split at hsrc <;> simp at hsrc
              exact hsrc.symm
            subst he
            rcases hr with hr | ⟨p, hr⟩ | ⟨p, hr⟩ <;> simp [hr] at h
          | ok src =>
            obtain ⟨sa, sp⟩ := src
            simp only [hsrc] at h
            refine ⟨coin, s1, stake, s2, sa, sp, rfl, hm, hs, hrep, hsrc, ?_⟩
            by_cases hsource : sa ≠ "" ∧ sp ≠ ""
            · right
              refine ⟨hsource, ?_⟩
              rw [if_pos hsource] at h
              cases hrt : GetRedistributionSplitRate s2 (GetPermlink sa sp) with
              | error e =>
                simp only [hrt, Prod.mk.injEq] at h
                have he : e = .ErrPostLedger := by
                  unfold GetRedistributionSplitRate at hrt
                  split at hrt <;> simp at hrt
                  exact hrt.symm
                subst he
                rcases hr with hr | ⟨p, hr⟩ | ⟨p, hr⟩ <;> simp [hr] at h
              | ok rate =>
                simp only [hrt] at h
                cases hl1 : processDonationFriction env s2 msg.Username
                    (RatToCoin (coin.ToRat * (1 - rate))) sa sp msg.FromApp with
                | mk r3 s3 =>
                  refine ⟨rate, r3, s3, rfl, hl1, ?_⟩
                  simp only [hl1] at h
                  cases r3 with
                  | some e3 =>
                    left
                    simp only [Prod.mk.injEq] at h
                    exact ⟨e3, rfl, h.2.symm, h.1.symm⟩
                  | none =>
                    right
                    refine ⟨rfl, ?_⟩
                    simp only [] at h
                    cases hl2 : processDonationFriction env s3 msg.Username
                        (coin.Minus (RatToCoin (coin.ToRat * (1 - rate))))
                        msg.Author msg.PostID msg.FromApp with
                    | mk r4 s4 =>
                      simp only [hl2] at h
                      cases r4 with
                      | some e4 =>
                        simp only [Prod.mk.injEq] at h
                        exact ⟨some e4, by rw [h.2], by simp [← h.1]⟩
                      | none =>
                        simp only [Prod.mk.injEq] at h
                        exact ⟨none, by rw [h.2], by simp [← h.1]⟩
            · left
              refine ⟨hsource, ?_⟩
              rw [if_neg hsource] at h
              cases hl2 : processDonationFriction env s2 msg.Username coin
                  msg.Author msg.PostID msg.FromApp with
              | mk r4 s4 =>
                simp only [hl2] at h
                cases r4 with
                | some e4 =>
                  simp only [Prod.mk.injEq] at h
                  exact ⟨some e4, by rw [h.2], by simp [← h.1]⟩
                | none =>
                  simp only [Prod.mk.injEq] at h
                  exact ⟨none, by rw [h.2], by simp [← h.1]⟩

end Lino

/-! ## Donation pipeline: theorems -/

namespace Lino

/-- C7 (donation pre-validation).  If the consumer account does not exist, or
the target post does not exist, or the target post is deleted, or the consumer
is the author, or `FromApp` is non-empty and not a registered developer, then
`handleDonateMsg` returns an error result and the state (account ledger, post
ledger, Global Pool) is left exactly as it was. -/
theorem C7_prevalidation_rejects_without_write (env : Env) (s : PostState) (msg : DonateMsg)
    (h : DoesAccountExist s msg.Username = false
      ∨ DoesPostExist s (GetPermlink msg.Author msg.PostID) = false
      ∨ IsDeleted s (GetPermlink msg.Author msg.PostID) = .ok true
      ∨ msg.Username = msg.Author
      ∨ (msg.FromApp ≠ "" ∧ DoesDeveloperExist s msg.FromApp = false)) :
    ∃ e, handleDonateMsg env s msg = (some e, s) := by
  unfold handleDonateMsg
  cases hc : env.LinoToCoin msg.Amount with
  | none => exact ⟨.ErrInvalidCoins, rfl⟩
  | some coin =>
    simp only []
    by_cases h1 : DoesAccountExist s msg.Username = true
    swap
    · exact ⟨.ErrAccountNotFound msg.Username, by simp [h1]⟩
    by_cases h2 : DoesPostExist s (GetPermlink msg.Author msg.PostID) = true
    swap
    · exact ⟨.ErrPostNotFound (GetPermlink msg.Author msg.PostID), by simp [h1, h2]⟩
    cases h3 : IsDeleted s (GetPermlink msg.Author msg.PostID) with
    | error e =>
      exact ⟨.ErrDonatePostIsDeleted (GetPermlink msg.Author msg.PostID), by simp [h1, h2]⟩
    | ok b =>
      cases b with
      | true =>
        exact ⟨.ErrDonatePostIsDeleted (GetPermlink msg.Author msg.PostID), by simp [h1, h2]⟩
      | false =>
        by_cases h4 : msg.Username = msg.Author
        · refine ⟨.ErrCannotDonateToSelf msg.Username, ?_⟩
          simp only [h1, h2, Bool.not_true, Bool.false_eq_true, if_false]
          exact if_pos h4
        by_cases h5 : msg.FromApp ≠ "" ∧ DoesDeveloperExist s msg.FromApp = false
        · refine ⟨.ErrDeveloperNotFound msg.FromApp, ?_⟩
          simp only [h1, h2, Bool.not_true, Bool.false_eq_true, if_false]
          rw [if_neg h4, if_pos h5]
        · exfalso
          rcases h with h | h | h | h | h
          · simp [h1] at h
          · simp [h2] at h
          · simp [h3] at h
          · exact h4 h
          · exact h5 h

/-- C7, witness: `alice` donates to the deleted post `bob/gone`. -/
theorem C7_prevalidation_witness :
    ∃ e, handleDonateMsg exEnv exPostState (exDonate "gone") = (some e, exPostState) :=
  C7_prevalidation_rejects_without_write exEnv exPostState (exDonate "gone")
    (Or.inr (Or.inr (Or.inl (by rfl))))

/-- C8, counterexample.  `bob` donates to his own post `bob/gone`, which is
deleted: the message has `Username = Author`, and `handleDonateMsg` fails with
`ErrDonatePostIsDeleted`, not with `ErrCannotDonateToSelf`: the deleted-post
check comes first. -/
theorem C8_self_donation_other_error :
    (exSelfDonate "gone").Username = (exSelfDonate "gone").Author
      ∧ (handleDonateMsg exEnv exPostState (exSelfDonate "gone")).1
          = some (PostError.ErrDonatePostIsDeleted ("bob", "gone"))
      ∧ (handleDonateMsg exEnv exPostState (exSelfDonate "gone")).1
          ≠ some (PostError.ErrCannotDonateToSelf "bob") := by
  decide

/-- C8, amended (self-donation rejection).  For every donate message whose
`Username` equals its `Author`, `handleDonateMsg` returns an error result and
leaves the whole state (so every balance) unchanged; the error is
`ErrCannotDonateToSelf` whenever the amount converts, the account exists and
the target post exists and is not deleted. -/
theorem C8_self_donation_rejected (env : Env) (s : PostState) (msg : DonateMsg)
    (h : msg.Username = msg.Author) :
    (∃ e, handleDonateMsg env s msg = (some e, s))
      ∧ ((∃ coin, env.LinoToCoin msg.Amount = some coin) →
          DoesAccountExist s msg.Username = true →
          IsDeleted s (GetPermlink msg.Author msg.PostID) = .ok false →
          handleDonateMsg env s msg = (some (.ErrCannotDonateToSelf msg.Username), s)) := by
  have key : ∀ coin, env.LinoToCoin msg.Amount = some coin →
      DoesAccountExist s msg.Username = true →
      IsDeleted s (GetPermlink msg.Author msg.PostID) = .ok false →
      handleDonateMsg env s msg = (some (.ErrCannotDonateToSelf msg.Username), s) := by
    intro coin hc h1 h3
    have h2 : DoesPostExist s (GetPermlink msg.Author msg.PostID) = true := by
      unfold IsDeleted at h3
      unfold DoesPostExist KV.has
      cases hp : s.posts.get (GetPermlink msg.Author msg.PostID) with
      | none => simp [hp] at h3
      | some p => rfl
    unfold handleDonateMsg
    simp only [hc, h1, h2, h3, Bool.not_true, Bool.false_eq_true, if_false]
    exact if_pos h
  refine ⟨?_, fun ⟨coin, hc⟩ h1 h3 => key coin hc h1 h3⟩
  cases hc : env.LinoToCoin msg.Amount with
  | none => exact ⟨.ErrInvalidCoins, by simp [handleDonateMsg, hc]⟩
  | some coin =>
    by_cases h1 : DoesAccountExist s msg.Username = true
    swap
    · exact ⟨.ErrAccountNotFound msg.Username, by simp [handleDonateMsg, hc, h1]⟩
    by_cases h2 : DoesPostExist s (GetPermlink msg.Author msg.PostID) = true
    swap
    · exact ⟨.ErrPostNotFound (GetPermlink msg.Author msg.PostID),
        by simp [handleDonateMsg, hc, h1, h2]⟩
    cases h3 : IsDeleted s (GetPermlink msg.Author msg.PostID) with
    | error e =>
      exact ⟨.ErrDonatePostIsDeleted (GetPermlink msg.Author msg.PostID),
        by simp [handleDonateMsg, hc, h1, h2, h3]⟩
    | ok b =>
      cases b with
      | true =>
        exact ⟨.ErrDonatePostIsDeleted (GetPermlink msg.Author msg.PostID),
          by simp [handleDonateMsg, hc, h1, h2, h3]⟩
      | false => exact ⟨_, key coin hc h1 h3⟩

/-- C8, amended: witness.  `bob` donates to his own live post `bob/p2`. -/
theorem C8_self_donation_witness :
    (∃ e, handleDonateMsg exEnv exPostState (exSelfDonate "p2") = (some e, exPostState))
      ∧ ((∃ coin, exEnv.LinoToCoin (exSelfDonate "p2").Amount = some coin) →
          DoesAccountExist exPostState (exSelfDonate "p2").Username = true →
          IsDeleted exPostState
              (GetPermlink (exSelfDonate "p2").Author (exSelfDonate "p2").PostID) = .ok false →
          handleDonateMsg exEnv exPostState (exSelfDonate "p2")
            = (some (.ErrCannotDonateToSelf (exSelfDonate "p2").Username), exPostState)) :=
  C8_self_donation_rejected exEnv exPostState (exSelfDonate "p2") (by decide)

theorem RatToCoin_amount (r : ℚ) : (RatToCoin r).Amount = ⌊r⌋ := rfl

theorem RatToCoin_bounds (A : Int) (q : ℚ) (hA : 0 ≤ A) (h0 : 0 ≤ q) (h1 : q ≤ 1) :
    0 ≤ (RatToCoin ((A : ℚ) * q)).Amount ∧ (RatToCoin ((A : ℚ) * q)).Amount ≤ A := by
  rw [RatToCoin_amount]
  have hA' : (0 : ℚ) ≤ (A : ℚ) := by exact_mod_cast hA
  constructor
  · exact Int.floor_nonneg.mpr (mul_nonneg hA' h0)
  · have : (A : ℚ) * q ≤ (A : ℚ) := by nlinarith
    calc ⌊(A : ℚ) * q⌋ ≤ ⌊(A : ℚ)⌋ := Int.floor_mono this
      _ = A := Int.floor_intCast A

theorem newRewardEvents_of_append (s s' : PostState) (evs : List RewardEvent)
    (h : s'.pool.RewardEvents = s.pool.RewardEvents ++ evs) : newRewardEvents s s' = evs := by
  simp [newRewardEvents, h]

/-- One leg, in terms of the reward events it registers: a zero coin
registers none, any other coin exactly one; the inflation pool grows by the
frictions of the events and each account by the direct deposits of the
events it is the author of. -/
theorem processDonationFriction_summary (env : Env) (s s' : PostState)
    (consumer : AccountKey) (coin : Coin) (postAuthor : AccountKey) (postID : String)
    (fromApp : AccountKey)
    (h : processDonationFriction env s consumer coin postAuthor postID fromApp = (none, s')) :
    ∃ evs : List RewardEvent,
      s'.pool.RewardEvents = s.pool.RewardEvents ++ evs
      ∧ evs.map (fun e => (e.PostAuthor, e.PostID, e.Original.Amount))
          = (if coin.Amount = 0 then [] else [(postAuthor, postID, coin.Amount)])
      ∧ s'.pool.InflationPool.Amount
          = s.pool.InflationPool.Amount + (evs.map (fun e => e.Friction.Amount)).sum
      ∧ ∀ k, savingOf s' k = savingOf s k
          + ((evs.filter (fun e => decide (e.PostAuthor = k))).map RewardEvent.directDeposit).sum := by
  rcases processDonationFriction_ok env s s' consumer coin postAuthor postID fromApp h with
    ⟨hz, hs⟩ | ⟨hz, rate, ev, _, _, hev, hpool, _, hsav⟩
  · subst hs
    exact ⟨[], by simp, by simp [hz], by simp, by simp⟩
  · refine ⟨_, hev, by simp [hz], ?_, ?_⟩
    · simp [hpool, Coin.Plus]
    · intro k
      rw [hsav k]
      by_cases hk : k = postAuthor
      · subst hk
        simp [RewardEvent.directDeposit]
      · simp [hk, Ne.symm hk]

/-- C2 (leg conservation).  For every `processDonationFriction` call that
returns `nil`, with credit amount `A >= 0` and a consumption friction rate in
`[0,1]`: the friction added to the Global Pool's inflation pool and the direct
deposit credited to the author's balance (and recorded in the reward event the
leg registers, if any) satisfy `A = directDeposit + frictionCoin`, with both
parts non-negative. -/
theorem C2_leg_conservation (env : Env) (s s' : PostState) (consumer : AccountKey) (A : Coin)
    (postAuthor : AccountKey) (postID : String) (fromApp : AccountKey) (q : ℚ)
    (hA : 0 ≤ A.Amount) (hq : GetConsumptionFrictionRate s = .ok q) (h0 : 0 ≤ q) (h1 : q ≤ 1)
    (h : processDonationFriction env s consumer A postAuthor postID fromApp = (none, s')) :
    ∃ directDeposit frictionCoin : Int,
      s'.pool.InflationPool.Amount = s.pool.InflationPool.Amount + frictionCoin
      ∧ savingOf s' postAuthor = savingOf s postAuthor + directDeposit
      ∧ (∀ e ∈ newRewardEvents s s',
          e.Original = A ∧ e.Friction.Amount = frictionCoin ∧ e.directDeposit = directDeposit)
      ∧ A.Amount = directDeposit + frictionCoin
      ∧ 0 ≤ directDeposit ∧ 0 ≤ frictionCoin := by
  rcases processDonationFriction_ok env s s' consumer A postAuthor postID fromApp h with
    ⟨hz, hs⟩ | ⟨hz, rate, ev, hrate, _, hev, hpool, _, hsav⟩
  · subst hs
    refine ⟨0, 0, by simp, by simp, ?_, by simp [hz], le_refl _, le_refl _⟩
    simp [newRewardEvents]
  · have hrq : rate = q := by
      rw [hq] at hrate
      exact (Except.ok.inj hrate).symm
    subst hrq
    obtain ⟨hf0, hf1⟩ := RatToCoin_bounds A.Amount rate hA h0 h1
    refine ⟨A.Amount - (RatToCoin (A.ToRat * rate)).Amount, (RatToCoin (A.ToRat * rate)).Amount,
      ?_, ?_, ?_, by ring, ?_, ?_⟩
    · simp [hpool, Coin.Plus]
    · simp [hsav postAuthor]
    · rw [newRewardEvents_of_append s s' _ hev]
      intro e he
      simp only [List.mem_singleton] at he
      subst he
      simp [RewardEvent.directDeposit]
    · simpa [Coin.ToRat] using hf1
    · simpa [Coin.ToRat] using hf0

/-- C2, witness: the leg `alice -> bob/p2` of 33 coins at friction rate 1/10. -/
theorem C2_leg_conservation_witness :
    ∃ directDeposit frictionCoin : Int,
      (processDonationFriction exEnv exPostState "alice" ⟨33⟩ "bob" "p2" "").2.pool.InflationPool.Amount
          = exPostState.pool.InflationPool.Amount + frictionCoin
      ∧ savingOf (processDonationFriction exEnv exPostState "alice" ⟨33⟩ "bob" "p2" "").2 "bob"
          = savingOf exPostState "bob" + directDeposit
      ∧ (∀ e ∈ newRewardEvents exPostState
            (processDonationFriction exEnv exPostState "alice" ⟨33⟩ "bob" "p2" "").2,
          e.Original = ⟨33⟩ ∧ e.Friction.Amount = frictionCoin
            ∧ e.directDeposit = directDeposit)
      ∧ (33 : Int) = directDeposit + frictionCoin
      ∧ 0 ≤ directDeposit ∧ 0 ≤ frictionCoin :=
  C2_leg_conservation exEnv exPostState _ "alice" ⟨33⟩ "bob" "p2" "" (1 / 10)
    (by decide) rfl (by norm_num) (by norm_num) (Prod.ext (by decide!) rfl)

theorem sum_original_of_legs (evs : List RewardEvent) (author : AccountKey) (postID : String)
    (coin : Coin)
    (h : evs.map (fun e => (e.PostAuthor, e.PostID, e.Original.Amount))
          = (if coin.Amount = 0 then [] else [(author, postID, coin.Amount)])) :
    (evs.map (fun e => e.directDeposit + e.Friction.Amount)).sum = coin.Amount := by
  have h2 : evs.map (fun e => e.directDeposit + e.Friction.Amount)
      = (evs.map (fun e => (e.PostAuthor, e.PostID, e.Original.Amount))).map (fun t => t.2.2) := by
    simp [RewardEvent.directDeposit, Function.comp_def]
  rw [h2, h]
  by_cases hz : coin.Amount = 0 <;> simp [hz]

/-- C3 (whole-donation conservation).  For every `handleDonateMsg` that
returns a success result for an amount `A`, on a derivative or a
non-derivative target post: with `legs` the reward events registered by the
message (one per settled leg, none for a skipped zero leg), the inflation pool
grows by the frictions of the legs, every balance changes by the debit of `A`
(for the consumer) plus the direct deposits of the legs the account is the
author of, and `A` equals the sum over the legs of
`directDeposit + frictionCoin`. -/
theorem C3_donation_conservation (env : Env) (s s' : PostState) (msg : DonateMsg) (A : Coin)
    (hA : env.LinoToCoin msg.Amount = some A)
    (h : handleDonateMsg env s msg = (none, s')) :
    s'.pool.RewardEvents = s.pool.RewardEvents ++ newRewardEvents s s'
      ∧ s'.pool.InflationPool.Amount = s.pool.InflationPool.Amount
          + ((newRewardEvents s s').map (fun e => e.Friction.Amount)).sum
      ∧ (∀ k, savingOf s' k = savingOf s k - (if k = msg.Username then A.Amount else 0)
          + (((newRewardEvents s s').filter (fun e => decide (e.PostAuthor = k))).map
              RewardEvent.directDeposit).sum)
      ∧ A.Amount
          = ((newRewardEvents s s').map (fun e => e.directDeposit + e.Friction.Amount)).sum := by
  obtain ⟨coin, s1, stake, s2, sa, sp, hc, hm, _, hrep, _, hlegs⟩ :=
    handleDonateMsg_legs env s msg none s' h (Or.inl rfl)
  have hcA : coin = A := by
    rw [hA] at hc
    exact (Option.some.inj hc).symm
  subst hcA
  obtain ⟨hpool2, hsav2, _, _⟩ := donate_prefix_frame s s1 s2 msg.Username coin stake _ hm hrep
  rcases hlegs with ⟨_, r4, hl, hr4⟩ | ⟨_, rate, r3, s3, _, hl1, hcase⟩
  · cases r4 with
    | some e4 => simp at hr4
    | none =>
      obtain ⟨evs, hev, htri, hinf, hsav⟩ :=
        processDonationFriction_summary env s2 s' _ _ _ _ _ hl
      rw [hpool2] at hev hinf
      rw [newRewardEvents_of_append s s' evs hev]
      refine ⟨hev, hinf, ?_, (sum_original_of_legs evs _ _ _ htri).symm⟩
      intro k
      rw [hsav k, hsav2 k]
  · rcases hcase with ⟨e3, _, _, hr⟩ | ⟨hr3, r4, hl2, hr4⟩
    · simp at hr
    · subst hr3
      cases r4 with
      | some e4 => simp at hr4
      | none =>
        obtain ⟨evs1, hev1, htri1, hinf1, hsav1⟩ :=
          processDonationFriction_summary env s2 s3 _ _ _ _ _ hl1
        obtain ⟨evs2, hev2, htri2, hinf2, hsav2'⟩ :=
          processDonationFriction_summary env s3 s' _ _ _ _ _ hl2
        rw [hpool2] at hev1 hinf1
        have hev : s'.pool.RewardEvents = s.pool.RewardEvents ++ (evs1 ++ evs2) := by
          rw [hev2, hev1, List.append_assoc]
        rw [newRewardEvents_of_append s s' _ hev]
        refine ⟨hev, ?_, ?_, ?_⟩
        · rw [hinf2, hinf1]
          simp only [List.map_append, List.sum_append]
          ring
        · intro k
          rw [hsav2' k, hsav1 k, hsav2 k]
          simp only [List.filter_append, List.map_append, List.sum_append]
          ring
        · simp only [List.map_append, List.sum_append]
          rw [sum_original_of_legs evs1 _ _ _ htri1, sum_original_of_legs evs2 _ _ _ htri2]
          simp [Coin.Minus]

/-- C3, witness: `alice` donates 33 coins to `bob/p3`, a derivative of
`dave/s2`; both legs are settled. -/
theorem C3_donation_conservation_witness :
    (handleDonateMsg exEnv exPostState (exDonate "p3")).2.pool.RewardEvents
        = exPostState.pool.RewardEvents
          ++ newRewardEvents exPostState (handleDonateMsg exEnv exPostState (exDonate "p3")).2
      ∧ (handleDonateMsg exEnv exPostState (exDonate "p3")).2.pool.InflationPool.Amount
          = exPostState.pool.InflationPool.Amount
            + ((newRewardEvents exPostState
                (handleDonateMsg exEnv exPostState (exDonate "p3")).2).map
                  (fun e => e.Friction.Amount)).sum
      ∧ (∀ k, savingOf (handleDonateMsg exEnv exPostState (exDonate "p3")).2 k
          = savingOf exPostState k - (if k = (exDonate "p3").Username then (33 : Int) else 0)
            + (((newRewardEvents exPostState
                  (handleDonateMsg exEnv exPostState (exDonate "p3")).2).filter
                    (fun e => decide (e.PostAuthor = k))).map RewardEvent.directDeposit).sum)
      ∧ (33 : Int)
          = ((newRewardEvents exPostState
                (handleDonateMsg exEnv exPostState (exDonate "p3")).2).map
                  (fun e => e.directDeposit + e.Friction.Amount)).sum :=
  C3_donation_conservation exEnv exPostState _ (exDonate "p3") ⟨33⟩ rfl
    (Prod.ext (by decide!) rfl)

/-- C4 (derivative split).  When the target post of a donation of amount
`A >= 0` has a source post `sa/sp` whose redistribution split rate is `r`
(`0 <= r <= 1`), a `handleDonateMsg` that returns a success result has settled
the source leg with `sourceIncome = floor(A * (1 - r))` and then the target leg
with `residual = A - sourceIncome` (a leg of zero amount registers nothing),
and `0 <= sourceIncome <= A`, `sourceIncome + residual = A`. -/
theorem C4_derivative_split (env : Env) (s s' : PostState) (msg : DonateMsg) (A : Coin)
    (sa : AccountKey) (sp : String) (r : ℚ)
    (hA : env.LinoToCoin msg.Amount = some A) (hA0 : 0 ≤ A.Amount)
    (hsrc : GetSourcePost s (GetPermlink msg.Author msg.PostID) = .ok (sa, sp))
    (hsa : sa ≠ "") (hsp : sp ≠ "")
    (hr : GetRedistributionSplitRate s (GetPermlink sa sp) = .ok r)
    (hr0 : 0 ≤ r) (hr1 : r ≤ 1)
    (h : handleDonateMsg env s msg = (none, s')) :
    (newRewardEvents s s').map (fun e => (e.PostAuthor, e.PostID, e.Original.Amount))
        = (if ⌊(A.Amount : ℚ) * (1 - r)⌋ = 0 then []
            else [(sa, sp, ⌊(A.Amount : ℚ) * (1 - r)⌋)])
          ++ (if A.Amount - ⌊(A.Amount : ℚ) * (1 - r)⌋ = 0 then []
            else [(msg.Author, msg.PostID, A.Amount - ⌊(A.Amount : ℚ) * (1 - r)⌋)])
      ∧ 0 ≤ ⌊(A.Amount : ℚ) * (1 - r)⌋
      ∧ ⌊(A.Amount : ℚ) * (1 - r)⌋ ≤ A.Amount
      ∧ ⌊(A.Amount : ℚ) * (1 - r)⌋ + (A.Amount - ⌊(A.Amount : ℚ) * (1 - r)⌋) = A.Amount := by
  obtain ⟨coin, s1, stake, s2, sa', sp', hc, hm, _, hrep, hsrc2, hlegs⟩ :=
    handleDonateMsg_legs env s msg none s' h (Or.inl rfl)
  have hcA : coin = A := by
    rw [hA] at hc
    exact (Option.some.inj hc).symm
  subst hcA
  obtain ⟨hpool2, _, hsrcf, hratef⟩ :=
    donate_prefix_frame s s1 s2 msg.Username coin stake _ hm hrep
  rw [hsrcf, hsrc] at hsrc2
  obtain ⟨h1, h2⟩ := Prod.mk.inj (Except.ok.inj hsrc2)
  subst h1
  subst h2
  obtain ⟨hb0, hb1⟩ := RatToCoin_bounds coin.Amount (1 - r) hA0 (by linarith) (by linarith)
  rw [RatToCoin_amount] at hb0 hb1
  refine ⟨?_, hb0, hb1, by ring⟩
  rcases hlegs with ⟨hno, _⟩ | ⟨_, rate, r3, s3, hrate, hl1, hcase⟩
  · exact absurd ⟨hsa, hsp⟩ hno
  · rw [hratef, hr] at hrate
    have hrr : rate = r := (Except.ok.inj hrate).symm
    subst hrr
    rcases hcase with ⟨e3, _, _, hr'⟩ | ⟨hr3, r4, hl2, hr4⟩
    · simp at hr'
    · subst hr3
      cases r4 with
      | some e4 => simp at hr4
      | none =>
        obtain ⟨evs1, hev1, htri1, _, _⟩ :=
          processDonationFriction_summary env s2 s3 _ _ _ _ _ hl1
        obtain ⟨evs2, hev2, htri2, _, _⟩ :=
          processDonationFriction_summary env s3 s' _ _ _ _ _ hl2
        rw [hpool2] at hev1
        have hev : s'.pool.RewardEvents = s.pool.RewardEvents ++ (evs1 ++ evs2) := by
          rw [hev2, hev1, List.append_assoc]
        rw [newRewardEvents_of_append s s' _ hev, List.map_append, htri1, htri2]
        simp only [Coin.Minus, Coin.ToRat, RatToCoin_amount]

/-- C4, witness: `alice` donates 33 coins to `bob/p3`, derived from `dave/s2`
whose split rate is 1/4: the source leg gets `floor(33 * 3/4) = 24`. -/
theorem C4_derivative_split_witness :
    (newRewardEvents exPostState (handleDonateMsg exEnv exPostState (exDonate "p3")).2).map
        (fun e => (e.PostAuthor, e.PostID, e.Original.Amount))
        = (if ⌊((33 : Int) : ℚ) * (1 - 1 / 4)⌋ = 0 then []
            else [("dave", "s2", ⌊((33 : Int) : ℚ) * (1 - 1 / 4)⌋)])
          ++ (if (33 : Int) - ⌊((33 : Int) : ℚ) * (1 - 1 / 4)⌋ = 0 then []
            else [("bob", "p3", (33 : Int) - ⌊((33 : Int) : ℚ) * (1 - 1 / 4)⌋)])
      ∧ 0 ≤ ⌊((33 : Int) : ℚ) * (1 - 1 / 4)⌋
      ∧ ⌊((33 : Int) : ℚ) * (1 - 1 / 4)⌋ ≤ (33 : Int)
      ∧ ⌊((33 : Int) : ℚ) * (1 - 1 / 4)⌋ + ((33 : Int) - ⌊((33 : Int) : ℚ) * (1 - 1 / 4)⌋)
          = (33 : Int) :=
  C4_derivative_split exEnv exPostState _ (exDonate "p3") ⟨33⟩ "dave" "s2" (1 / 4) rfl
    (by decide) rfl (by decide) (by decide) rfl (by norm_num) (by norm_num)
    (Prod.ext (by decide!) rfl)

/-- C6, counterexample.  `alice` (balance 100) donates 33 coins to `bob/p1`,
whose source post is `carol/s1`; `carol` has no account, so settling the
source leg fails and `handleDonateMsg` returns `ErrProcessSourceDonation`.
The state is not the one before the message: `alice` has been debited (balance
67) and the stake-weight record has been added to the post. -/
theorem C6_failed_source_leg_keeps_debit :
    (handleDonateMsg exEnv exPostState (exDonate "p1")).1
        = some (PostError.ErrProcessSourceDonation ("carol", "s1"))
      ∧ savingOf exPostState "alice" = 100
      ∧ savingOf (handleDonateMsg exEnv exPostState (exDonate "p1")).2 "alice" = 67
      ∧ (handleDonateMsg exEnv exPostState (exDonate "p1")).2 ≠ exPostState := by
  decide!

/-- C6, amended.  If `handleDonateMsg` returns an error result because
settling the source leg or the target leg failed (`ErrProcessSourceDonation`,
`ErrProcessDonation`), the failing leg has written nothing, but what was
written before it stays.  With `A` the amount, `s2` the state after the
consumer's debit of `A` and the stake-weight record, and `(sa, sp)` the source
link of the target post:
* after `ErrProcessSourceDonation` the target is a derivative post, the error
  names its source post, the leg that failed is the leg of the source post
  with `sourceIncome = floor(A * (1 - r))`, the state returned is `s2`, and the
  consumer's balance is the balance before the message minus `A`;
* after `ErrProcessDonation` the error names the target post, and either the
  target is no derivative post, the leg that failed is the leg of the target
  with `A`, and the state returned is `s2`; or the target is a derivative
  post, the state returned is `s2` after the settled leg of its source post
  `sa/sp` with `sourceIncome`, and the leg that failed is the leg of the
  target with `A - sourceIncome`. -/
theorem C6_failed_leg_state (env : Env) (s s' : PostState) (msg : DonateMsg) (e : PostError)
    (h : handleDonateMsg env s msg = (some e, s'))
    (he : (∃ p, e = .ErrProcessSourceDonation p) ∨ ∃ p, e = .ErrProcessDonation p) :
    ∃ A s1 stake s2 sa sp,
      env.LinoToCoin msg.Amount = some A
      ∧ MinusSavingCoin s msg.Username A = .ok s1
      ∧ GetStake s1 msg.Username = .ok stake
      ∧ ReportOrUpvoteToPost s1 (GetPermlink msg.Author msg.PostID) msg.Username stake false
          = .ok s2
      ∧ GetSourcePost s2 (GetPermlink msg.Author msg.PostID) = .ok (sa, sp)
      ∧ ((∃ p, e = .ErrProcessSourceDonation p) →
          (sa ≠ "" ∧ sp ≠ "")
          ∧ e = .ErrProcessSourceDonation (GetPermlink sa sp)
          ∧ s' = s2
          ∧ savingOf s' msg.Username = savingOf s msg.Username - A.Amount
          ∧ ∃ rate e3, GetRedistributionSplitRate s2 (GetPermlink sa sp) = .ok rate
              ∧ processDonationFriction env s2 msg.Username
                  (RatToCoin (A.ToRat * (1 - rate))) sa sp msg.FromApp = (some e3, s2))
      ∧ ((∃ p, e = .ErrProcessDonation p) →
          e = .ErrProcessDonation (GetPermlink msg.Author msg.PostID)
          ∧ ((¬ (sa ≠ "" ∧ sp ≠ "") ∧ s' = s2
                ∧ ∃ e4, processDonationFriction env s2 msg.Username A msg.Author msg.PostID
                    msg.FromApp = (some e4, s2))
            ∨ ((sa ≠ "" ∧ sp ≠ "") ∧ ∃ rate e4,
                GetRedistributionSplitRate s2 (GetPermlink sa sp) = .ok rate
                ∧ processDonationFriction env s2 msg.Username
                    (RatToCoin (A.ToRat * (1 - rate))) sa sp msg.FromApp = (none, s')
                ∧ processDonationFriction env s' msg.Username
                    (A.Minus (RatToCoin (A.ToRat * (1 - rate)))) msg.Author msg.PostID
                    msg.FromApp = (some e4, s')))) := by
  obtain ⟨coin, s1, stake, s2, sa, sp, hc, hm, hs, hrep, hsrc, hlegs⟩ :=
    handleDonateMsg_legs env s msg (some e) s' h
      (by
        rcases he with ⟨p, hp⟩ | ⟨p, hp⟩
        · exact Or.inr (Or.inl ⟨p, by rw [hp]⟩)
        · exact Or.inr (Or.inr ⟨p, by rw [hp]⟩))
  obtain ⟨_, hsav2, _, _⟩ := donate_prefix_frame s s1 s2 msg.Username coin stake _ hm hrep
  refine ⟨coin, s1, stake, s2, sa, sp, hc, hm, hs, hrep, hsrc, ?_, ?_⟩
  · rintro ⟨p, hp⟩
    subst hp
    rcases hlegs with ⟨_, r4, hl, hr4⟩ | ⟨hder, rate, r3, s3, hrate, hl1, hcase⟩
    · cases r4 with
      | none => simp at hr4
      | some e4 => simp at hr4
    · rcases hcase with ⟨e3, hr3, hs3, hr⟩ | ⟨hr3, r4, hl2, hr4⟩
      · subst hr3
        subst hs3
        have hs2 := processDonationFriction_error env s2 s' _ _ _ _ _ e3 hl1
        subst hs2
        refine ⟨hder, Option.some.inj hr, rfl, ?_, rate, e3, hrate, hl1⟩
        rw [hsav2 msg.Username]
        simp
      · cases r4 with
        | none => simp at hr4
        | some e4 => simp at hr4
  · rintro ⟨p, hp⟩
    subst hp
    rcases hlegs with ⟨hnd, r4, hl, hr4⟩ | ⟨hder, rate, r3, s3, hrate, hl1, hcase⟩
    · cases r4 with
      | none => simp at hr4
      | some e4 =>
        have hs2 := processDonationFriction_error env s2 s' _ _ _ _ _ e4 hl
        subst hs2
        exact ⟨Option.some.inj hr4, Or.inl ⟨hnd, rfl, e4, hl⟩⟩
    · rcases hcase with ⟨e3, hr3, hs3, hr⟩ | ⟨hr3, r4, hl2, hr4⟩
      · simp at hr
      · subst hr3
        cases r4 with
        | none => simp at hr4
        | some e4 =>
          have hs3 := processDonationFriction_error env s3 s' _ _ _ _ _ e4 hl2
          subst hs3
          exact ⟨Option.some.inj hr4, Or.inr ⟨hder, rate, e4, hrate, hl1, hl2⟩⟩

/-- C6, amended: witness.  With a pool that rejects the reward events of the
posts of `bob`, `alice` donates 33 coins to `bob/p3`, a derivative of
`dave/s2` (split rate 1/4): the leg of `dave/s2` is settled with
`floor(33 * 3/4) = 24` coins, the leg of `bob/p3` with the other 9 fails, and
the state returned is the state after the settled source leg: `alice` has been
debited 33 and `dave` credited `24 - floor(24/10) = 22`. -/
theorem C6_failed_leg_state_witness :
    (handleDonateMsg exEnvRejectBob exPostState (exDonate "p3")).1
        = some (.ErrProcessDonation ("bob", "p3"))
      ∧ savingOf (handleDonateMsg exEnvRejectBob exPostState (exDonate "p3")).2 "alice" = 67
      ∧ savingOf (handleDonateMsg exEnvRejectBob exPostState (exDonate "p3")).2 "dave" = 22
      ∧ ∃ A s1 stake s2 sa sp,
          exEnvRejectBob.LinoToCoin (exDonate "p3").Amount = some A
          ∧ MinusSavingCoin exPostState (exDonate "p3").Username A = .ok s1
          ∧ GetStake s1 (exDonate "p3").Username = .ok stake
          ∧ ReportOrUpvoteToPost s1 (GetPermlink (exDonate "p3").Author (exDonate "p3").PostID)
              (exDonate "p3").Username stake false = .ok s2
          ∧ GetSourcePost s2 (GetPermlink (exDonate "p3").Author (exDonate "p3").PostID)
              = .ok (sa, sp)
          ∧ ((sa ≠ "" ∧ sp ≠ "") ∧ ∃ rate e4,
              GetRedistributionSplitRate s2 (GetPermlink sa sp) = .ok rate
              ∧ processDonationFriction exEnvRejectBob s2 (exDonate "p3").Username
                  (RatToCoin (A.ToRat * (1 - rate))) sa sp (exDonate "p3").FromApp
                  = (none, (handleDonateMsg exEnvRejectBob exPostState (exDonate "p3")).2)
              ∧ processDonationFriction exEnvRejectBob
                  (handleDonateMsg exEnvRejectBob exPostState (exDonate "p3")).2
                  (exDonate "p3").Username (A.Minus (RatToCoin (A.ToRat * (1 - rate))))
                  (exDonate "p3").Author (exDonate "p3").PostID (exDonate "p3").FromApp
                  = (some e4, (handleDonateMsg exEnvRejectBob exPostState (exDonate "p3")).2)) := by
  refine ⟨by decide!, by decide!, by decide!, ?_⟩
  obtain ⟨A, s1, stake, s2, sa, sp, h1, h2, h3, h4, h5, _, h7⟩ :=
    C6_failed_leg_state exEnvRejectBob exPostState
      (handleDonateMsg exEnvRejectBob exPostState (exDonate "p3")).2 (exDonate "p3")
      (.ErrProcessDonation ("bob", "p3")) (Prod.ext (by decide!) rfl) (Or.inr ⟨_, rfl⟩)
  refine ⟨A, s1, stake, s2, sa, sp, h1, h2, h3, h4, h5, ?_⟩
  rcases (h7 ⟨_, rfl⟩).2 with ⟨hnd, hs2, _⟩ | hder
  · -- the target is a derivative post: its source link is `dave/s2`
    exfalso
    have hA : A = ⟨33⟩ := (Option.some.inj ((show _ = some _ from rfl).symm.trans h1)).symm
    subst hA
    have hs1 : s1 = (MinusSavingCoin exPostState "alice" ⟨33⟩).toOption.getD exPostState := by
      have : MinusSavingCoin exPostState "alice" ⟨33⟩ = .ok s1 := h2
      rw [this]
      rfl
    subst hs1
    have hstake : stake = ⟨7⟩ := by
      have : (Except.ok (⟨7⟩ : Coin) : Except PostError Coin) = .ok stake :=
        (show _ = Except.ok (⟨7⟩ : Coin) from rfl).symm.trans h3
      exact (Except.ok.inj this).symm
    subst hstake
    have hs2' : s2 = (ReportOrUpvoteToPost
        ((MinusSavingCoin exPostState "alice" ⟨33⟩).toOption.getD exPostState) ("bob", "p3")
        "alice" ⟨7⟩ false).toOption.getD exPostState := by
      have : ReportOrUpvoteToPost
          ((MinusSavingCoin exPostState "alice" ⟨33⟩).toOption.getD exPostState) ("bob", "p3")
          "alice" ⟨7⟩ false = .ok s2 := h4
      rw [this]
      rfl
    subst hs2'
    have hsrc : (Except.ok ("dave", "s2") : Except PostError (AccountKey × String))
        = .ok (sa, sp) := (show _ = Except.ok ("dave", "s2") from rfl).symm.trans h5
    have hpair := Except.ok.inj hsrc
    have hsa : sa = "dave" := (congrArg Prod.fst hpair).symm
    have hsp : sp = "s2" := (congrArg Prod.snd hpair).symm
    subst hsa
    subst hsp
    exact hnd ⟨by decide, by decide⟩
  · exact hder

/-- C5 (rate application truncates).  For a coin amount `A` and a friction
rate `q`, the friction computed by both donation handlers is `floor(A * q)`:
`processDonationFriction` (`x/`) adds exactly that to the inflation pool and
records it in the reward event, `ProcessPostFriction` (`tx/`) adds exactly that
to the redistributed coins; and `floor(A * q)` is never above `A * q`. -/
theorem C5_friction_is_floor (A : Coin) (q : ℚ) :
    (∀ (env : Env) (s s' : PostState) (consumer postAuthor : AccountKey) (postID : String)
        (fromApp : AccountKey),
        GetConsumptionFrictionRate s = .ok q →
        A.Amount ≠ 0 →
        processDonationFriction env s consumer A postAuthor postID fromApp = (none, s') →
        s'.pool.InflationPool.Amount = s.pool.InflationPool.Amount + ⌊(A.Amount : ℚ) * q⌋
          ∧ (newRewardEvents s s').map (fun e => e.Friction.Amount) = [⌊(A.Amount : ℚ) * q⌋])
      ∧ (∀ (s s' : Tx.TxState) (author : AccountKey),
        s.globalProxy.ConsumptionFrictionRate = some q →
        Tx.ProcessPostFriction s A author = (none, s') →
        s'.globalProxy.RedistributeCoin.Amount
          = s.globalProxy.RedistributeCoin.Amount + ⌊(A.Amount : ℚ) * q⌋)
      ∧ ((⌊(A.Amount : ℚ) * q⌋ : ℚ) ≤ (A.Amount : ℚ) * q) := by
  refine ⟨?_, ?_, Int.floor_le _⟩
  · intro env s s' consumer postAuthor postID fromApp hq hz h
    rcases processDonationFriction_ok env s s' consumer A postAuthor postID fromApp h with
      ⟨hz', _⟩ | ⟨_, rate, ev, hrate, _, hev, hpool, _, _⟩
    · exact absurd hz' hz
    · have hrq : rate = q := by
        rw [hq] at hrate
        exact (Except.ok.inj hrate).symm
      subst hrq
      rw [newRewardEvents_of_append s s' _ hev]
      simp [hpool, Coin.Plus, Coin.ToRat, RatToCoin_amount]
  · intro s s' author hq h
    unfold Tx.ProcessPostFriction at h
    cases hacc : s.accounts.get author with
    | none => simp [hacc] at h
    | some balance =>
      simp only [hacc, hq, Prod.mk.injEq, true_and] at h
      subst h
      simp only [Coin.Plus, Tx.Evaluate, Tx.NewRat]
      rfl

/-- C5, in numbers: 33 coins at rate 1/10 give the friction 3 in both
handlers, where `33 * 1/10 = 3.3`. -/
theorem C5_friction_example :
    ((processDonationFriction exEnv exPostState "alice" ⟨33⟩ "bob" "p2" "").2.pool.InflationPool
        = ⟨3⟩)
      ∧ ((Tx.ProcessPostFriction exTxState ⟨33⟩ "bob").2.globalProxy.RedistributeCoin = ⟨3⟩) := by
  decide!

/-- C5, witness: the theorem at 33 coins and rate 1/10, on a run of each
handler that returns `nil`. -/
theorem C5_friction_is_floor_witness :
    ((processDonationFriction exEnv exPostState "alice" ⟨33⟩ "bob" "p2" "").2.pool.InflationPool.Amount
          = exPostState.pool.InflationPool.Amount + ⌊((33 : Int) : ℚ) * (1 / 10)⌋
        ∧ (newRewardEvents exPostState
              (processDonationFriction exEnv exPostState "alice" ⟨33⟩ "bob" "p2" "").2).map
            (fun e => e.Friction.Amount) = [⌊((33 : Int) : ℚ) * (1 / 10)⌋])
      ∧ (Tx.ProcessPostFriction exTxState ⟨33⟩ "bob").2.globalProxy.RedistributeCoin.Amount
          = exTxState.globalProxy.RedistributeCoin.Amount + ⌊((33 : Int) : ℚ) * (1 / 10)⌋ :=
  ⟨(C5_friction_is_floor ⟨33⟩ (1 / 10)).1 exEnv exPostState _ "alice" "bob" "p2" "" rfl
      (by decide) (Prod.ext (by decide!) rfl),
    (C5_friction_is_floor ⟨33⟩ (1 / 10)).2.1 exTxState _ "bob" rfl
      (Prod.ext (by decide!) rfl)⟩

end Lino

/-! ## Donation pipeline: the timestamps of the accounts -/

namespace Lino

theorem SameTimestamps_refl (s : PostState) : SameTimestamps s s := fun _ => rfl

theorem SameTimestamps_trans (s s1 s2 : PostState) (h1 : SameTimestamps s s1)
    (h2 : SameTimestamps s1 s2) : SameTimestamps s s2 := fun k => (h2 k).trans (h1 k)

theorem MinusSavingCoin_timestamps (s s1 : PostState) (user : AccountKey) (coin : Coin)
    (h : MinusSavingCoin s user coin = .ok s1) : SameTimestamps s s1 := by
  unfold MinusSavingCoin at h
  cases hacc : s.accounts.get user with
  | none => simp [hacc] at h
  | some a =>
    simp only [hacc] at h
    split at h
    · simp at h
    · simp only [Except.ok.injEq] at h
      subst h
      intro k
      by_cases hk : k = user
      · subst hk
        simp [KV.get_set_self, hacc, AccountBank.timestamps]
      · simp [KV.get_set_of_ne _ _ _ _ hk]

theorem ReportOrUpvoteToPost_accounts (s s1 : PostState) (permlink : Permlink)
    (user : AccountKey) (stake : Coin) (isReport : Bool)
    (h : ReportOrUpvoteToPost s permlink user stake isReport = .ok s1) :
    s1.accounts = s.accounts := by
  unfold ReportOrUpvoteToPost at h
  cases hp : s.posts.get permlink with
  | none => simp [hp] at h
  | some p =>
    simp only [hp, Except.ok.injEq] at h
    subst h
    rfl

/-- A leg writes no timestamp of any account. -/
theorem processDonationFriction_timestamps (env : Env) (s s' : PostState)
    (consumer : AccountKey) (coin : Coin) (postAuthor : AccountKey) (postID : String)
    (fromApp : AccountKey) (r : Option PostError)
    (h : processDonationFriction env s consumer coin postAuthor postID fromApp = (r, s')) :
    SameTimestamps s s' := by
  cases r with
  | some e =>
    rw [processDonationFriction_error env s s' consumer coin postAuthor postID fromApp e h]
    exact SameTimestamps_refl s
  | none =>
    unfold processDonationFriction at h
    simp only [] at h
    by_cases hz : coin.Amount = 0
    · simp only [Coin.IsZero, hz, decide_True, if_true, Prod.mk.injEq, true_and] at h
      rw [← h]
      exact SameTimestamps_refl s
    simp only [Coin.IsZero, hz, decide_False, Bool.false_eq_true, if_false] at h
    cases hacc : s.accounts.get postAuthor with
    | none => simp [DoesAccountExist, KV.has, hacc] at h
    | some acct =>
      simp only [DoesAccountExist, KV.has, hacc, Option.isSome_some, Bool.not_true,
        Bool.false_eq_true, if_false] at h
      cases hrate : GetConsumptionFrictionRate s with
      | error e1 => simp [hrate] at h
      | ok rate =>
        simp only [hrate] at h
        cases hev : evaluateConsumption env s consumer coin postAuthor postID with
        | error e1 => simp [hev] at h
        | ok evaluateResult =>
          simp only [hev] at h
          have hpost : ∃ p, s.posts.get (GetPermlink postAuthor postID) = some p := by
            unfold evaluateConsumption at hev
            cases hrel : GetDonationRelationship s consumer postAuthor with
            | error e1 => simp [hrel] at hev
            | ok n =>
              simp only [hrel] at hev
              unfold GetCreatedTimeAndReward at hev
              cases hp : s.posts.get (GetPermlink postAuthor postID) with
              | none => simp [hp] at hev
              | some p => exact ⟨p, rfl⟩
          obtain ⟨post, hpost⟩ := hpost
          unfold AddFrictionAndRegisterContentRewardEvent at h
          by_cases hrej : env.RejectsRewardEvent
              { PostAuthor := postAuthor, PostID := postID, Consumer := consumer,
                Evaluate := evaluateResult, Original := coin,
                Friction := RatToCoin (coin.ToRat * rate), FromApp := fromApp } = true
          · simp [hrej] at h
          · simp only [hrej, Bool.false_eq_true, if_false, AddDonation, hpost, AddSavingCoin,
              hacc, AddDirectDeposit, KV.get_set_self, AddConsumption,
              UpdateDonationRelationship, DoesAccountExist, KV.has, Option.isSome_some,
              Bool.not_true, Prod.mk.injEq, true_and] at h
            subst h
            intro k
            by_cases hk : k = postAuthor
            · subst hk
              simp [KV.get_set_self, hacc, AccountBank.timestamps]
            · simp [KV.get_set_of_ne _ _ _ _ hk]

/-- A successful donation writes no timestamp of any account. -/
theorem handleDonateMsg_timestamps (env : Env) (s s' : PostState) (msg : DonateMsg)
    (h : handleDonateMsg env s msg = (none, s')) : SameTimestamps s s' := by
  obtain ⟨coin, s1, stake, s2, sa, sp, _, h1, _, h2, _, hlegs⟩ :=
    handleDonateMsg_legs env s msg none s' h (Or.inl rfl)
  have h01 := MinusSavingCoin_timestamps s s1 msg.Username coin h1
  have h12 : SameTimestamps s1 s2 := by
    intro k
    rw [ReportOrUpvoteToPost_accounts s1 s2 _ _ _ _ h2]
  have h02 := SameTimestamps_trans s s1 s2 h01 h12
  rcases hlegs with ⟨_, r4, h4, _⟩ | ⟨_, rate, r3, s3, _, h3, hcase⟩
  · exact SameTimestamps_trans s s2 s' h02 (processDonationFriction_timestamps _ _ _ _ _ _ _ _ _ h4)
  · have h23 := processDonationFriction_timestamps _ _ _ _ _ _ _ _ _ h3
    rcases hcase with ⟨e3, _, _, hr⟩ | ⟨_, r4, h4, _⟩
    · cases hr
    · exact SameTimestamps_trans s s2 s' h02
        (SameTimestamps_trans s2 s3 s' h23
          (processDonationFriction_timestamps _ _ _ _ _ _ _ _ _ h4))

/-- C26, counterexample.  `alice` donates 33 coins to the post `bob/p2` at
block time 1000: `handleDonateMsg` of `x/post/handler.go` returns a success
result, and the last-activity time of `alice` is 0 as before, not 1000. -/
theorem C26_last_activity_not_updated :
    (handleDonateMsg exEnv exPostState (exDonate "p2")).1 = none
      ∧ exPostState.BlockTime = 1000
      ∧ ((handleDonateMsg exEnv exPostState (exDonate "p2")).2.accounts.get "alice").map
          (fun a => a.LastActivityAt) = some 0 := by
  decide!

/-- C26, amended (last activity after a donation).  After `handleDonateMsg`
of the `tx/` tree returns a success result, the consumer's last-activity time
is the time of the current block.  After `handleDonateMsg` of `x/post`
returns a success result, the last-activity time of the consumer, and every
other timestamp of every account, is what it was before the message. -/
theorem C26_last_activity (LinoToCoin : String → Option Coin) (t t' : Tx.DonateState)
    (tmsg : Tx.DonateMsg) (env : Env) (s s' : PostState) (msg : DonateMsg)
    (ht : Tx.handleDonateMsg LinoToCoin t tmsg = (none, t'))
    (hs : handleDonateMsg env s msg = (none, s')) :
    t'.lastActivity.get tmsg.Username = some t.BlockTime
      ∧ SameTimestamps s s'
      ∧ (s'.accounts.get msg.Username).map (fun a => a.LastActivityAt)
          = (s.accounts.get msg.Username).map (fun a => a.LastActivityAt) := by
  refine ⟨?_, handleDonateMsg_timestamps env s s' msg hs, ?_⟩
  · unfold Tx.handleDonateMsg at ht
    cases hc : LinoToCoin tmsg.Amount with
    | none => simp [hc] at ht
    | some coin =>
      simp only [hc] at ht
      cases hacc : t.bank.accounts.get tmsg.Username with
      | none => simp [hacc] at ht
      | some balance =>
        simp only [hacc] at ht
        cases hp : t.donations.get (GetPermlink tmsg.Author tmsg.PostID) with
        | none => simp [hp] at ht
        | some ds =>
          simp only [hp] at ht
          split at ht
          · simp at ht
          · split at ht
            · simp at ht
            · simp only [Prod.mk.injEq, true_and] at ht
              subst ht
              exact KV.get_set_self _ _ _
  · have h := handleDonateMsg_timestamps env s s' msg hs msg.Username
    cases h1 : s'.accounts.get msg.Username with
    | none =>
      cases h2 : s.accounts.get msg.Username with
      | none => rfl
      | some a => simp [h1, h2] at h
    | some a' =>
      cases h2 : s.accounts.get msg.Username with
      | none => simp [h1, h2] at h
      | some a =>
        simp only [h1, h2, Option.map_some', Option.some.injEq, AccountBank.timestamps,
          Prod.mk.injEq] at h
        simp [h.1]

/-- C26, amended: witness.  `alice` donates 33 coins to `bob/p2` at block
time 1000, in the `tx/` tree and in `x/post`. -/
theorem C26_last_activity_witness :
    (Tx.handleDonateMsg exEnv.LinoToCoin exTxDonateState exTxDonate).2.lastActivity.get "alice"
        = some 1000
      ∧ SameTimestamps exPostState (handleDonateMsg exEnv exPostState (exDonate "p2")).2 :=
  have h := C26_last_activity exEnv.LinoToCoin exTxDonateState
    (Tx.handleDonateMsg exEnv.LinoToCoin exTxDonateState exTxDonate).2 exTxDonate
    exEnv exPostState (handleDonateMsg exEnv exPostState (exDonate "p2")).2 (exDonate "p2")
    (by decide!) (by decide!)
  ⟨h.1, h.2.1⟩

end Lino

/-! ## Post creation and update (`x/post/handler.go`) -/

namespace Lino

/-- Within the `int64` range the Go sum is the sum. -/
theorem addInt64_of_range (a b : Int) (hlo : -2 ^ 63 ≤ a + b) (hhi : a + b < 2 ^ 63) :
    addInt64 a b = a + b := by
  unfold addInt64
  rw [Int.emod_eq_of_lt (by omega) (by omega)]
  omega

/-- The comment record leaves the accounts, the block time and the parameters
alone, and neither creates nor removes a post. -/
theorem AddComment_frame (s s1 : PostState) (parentPostKey : Permlink) (author : AccountKey)
    (postID : String) (h : AddComment s parentPostKey author postID = .ok s1) :
    s1.accounts = s.accounts ∧ s1.BlockTime = s.BlockTime ∧ s1.postParam = s.postParam
      ∧ (∀ pl, DoesPostExist s1 pl = DoesPostExist s pl)
      ∧ (∀ pl, pl ≠ parentPostKey → s1.posts.get pl = s.posts.get pl) := by
  unfold AddComment at h
  cases hp : s.posts.get parentPostKey with
  | none => simp [hp] at h
  | some p =>
    simp only [hp, Except.ok.injEq] at h
    subst h
    refine ⟨rfl, rfl, rfl, ?_, ?_⟩
    · intro pl
      by_cases hk : pl = parentPostKey
      · subst hk
        simp [DoesPostExist, KV.has, KV.get_set_self, hp]
      · simp [DoesPostExist, KV.has, KV.get_set_of_ne _ _ _ _ hk]
    · intro pl hk
      exact KV.get_set_of_ne _ _ _ _ hk

/-- The checks of `handleCreatePostMsg` that come before any write: each
returns its error and leaves the state as it was. -/
theorem handleCreatePostMsg_early (env : Env) (s : PostState) (msg : CreatePostMsg) :
    (s.accounts.get msg.Author = none →
        handleCreatePostMsg env s msg = (some (.ErrAccountNotFound msg.Author), s))
    ∧ (∀ a p, s.accounts.get msg.Author = some a →
        s.posts.get (GetPermlink msg.Author msg.PostID) = some p →
        handleCreatePostMsg env s msg
          = (some (.ErrPostAlreadyExist (GetPermlink msg.Author msg.PostID)), s))
    ∧ (∀ a, s.accounts.get msg.Author = some a →
        s.posts.get (GetPermlink msg.Author msg.PostID) = none → s.postParam = none →
        handleCreatePostMsg env s msg = (some .ErrParamHolder, s))
    ∧ (∀ a param, s.accounts.get msg.Author = some a →
        s.posts.get (GetPermlink msg.Author msg.PostID) = none → s.postParam = some param →
        addInt64 a.LastPostAt param.PostIntervalSec > s.BlockTime →
        handleCreatePostMsg env s msg = (some (.ErrPostTooOften msg.Author), s)) := by
  refine ⟨?_, ?_, ?_, ?_⟩
  · intro hacc
    simp [handleCreatePostMsg, DoesAccountExist, KV.has, hacc]
  · intro a p hacc hp
    simp [handleCreatePostMsg, DoesAccountExist, DoesPostExist, KV.has, hacc, hp]
  · intro a hacc hp hparam
    simp [handleCreatePostMsg, DoesAccountExist, DoesPostExist, KV.has, hacc, hp, GetPostParam,
      hparam]
  · intro a param hacc hp hparam hlimit
    simp [handleCreatePostMsg, DoesAccountExist, DoesPostExist, KV.has, hacc, hp, GetPostParam,
      hparam, GetLastPostAt, hlimit]

/-- What `handleCreatePostMsg` does once the rate limit has let the message
through: the parent check and the comment record, then the parse of the split
rate, then the creation of the post and the author's new `lastPostAt`. -/
theorem handleCreatePostMsg_late (env : Env) (s : PostState) (msg : CreatePostMsg)
    (a : AccountBank) (param : PostParam)
    (hacc : s.accounts.get msg.Author = some a)
    (hnew : s.posts.get (GetPermlink msg.Author msg.PostID) = none)
    (hparam : s.postParam = some param)
    (hlimit : ¬ addInt64 a.LastPostAt param.PostIntervalSec > s.BlockTime) :
    ((msg.ParentAuthor.length > 0 ∨ msg.ParentPostID.length > 0)
        ∧ DoesPostExist s (GetPermlink msg.ParentAuthor msg.ParentPostID) = false
        ∧ handleCreatePostMsg env s msg
            = (some (.ErrPostNotFound (GetPermlink msg.ParentAuthor msg.ParentPostID)), s))
    ∨ ∃ s1,
        ((¬ (msg.ParentAuthor.length > 0 ∨ msg.ParentPostID.length > 0) ∧ s1 = s)
          ∨ ((msg.ParentAuthor.length > 0 ∨ msg.ParentPostID.length > 0)
              ∧ AddComment s (GetPermlink msg.ParentAuthor msg.ParentPostID) msg.Author
                  msg.PostID = .ok s1))
        ∧ ((env.NewRatFromDecimal msg.RedistributionSplitRate = none
              ∧ handleCreatePostMsg env s msg
                  = (some .ErrInvalidPostRedistributionSplitRate, s1))
          ∨ ∃ splitRate, env.NewRatFromDecimal msg.RedistributionSplitRate = some splitRate
              ∧ (((splitRate < 0 ∨ 1 < splitRate)
                    ∧ handleCreatePostMsg env s msg
                        = (some .ErrInvalidPostRedistributionSplitRate, s1))
                ∨ ((0 ≤ splitRate ∧ splitRate ≤ 1)
                    ∧ env.RejectsPost (GetPermlink msg.Author msg.PostID)
                      (newPost s.BlockTime msg.SourceAuthor msg.SourcePostID msg.ParentAuthor
                        msg.ParentPostID msg.Content msg.Title splitRate msg.Links) = true
                    ∧ handleCreatePostMsg env s msg = (some .ErrCreatePost, s1))
                ∨ ∃ s3, handleCreatePostMsg env s msg = (none, s3)
                    ∧ (0 ≤ splitRate ∧ splitRate ≤ 1)
                    ∧ s3.posts = s1.posts.set (GetPermlink msg.Author msg.PostID)
                        (newPost s.BlockTime msg.SourceAuthor msg.SourcePostID msg.ParentAuthor
                          msg.ParentPostID msg.Content msg.Title splitRate msg.Links)
                    ∧ s3.accounts
                        = s.accounts.set msg.Author { a with LastPostAt := s.BlockTime }
                    ∧ s3.postParam = s.postParam ∧ s3.BlockTime = s.BlockTime)) := by
  by_cases hparent : msg.ParentAuthor.length > 0 ∨ msg.ParentPostID.length > 0
  · cases hex : s.posts.get (GetPermlink msg.ParentAuthor msg.ParentPostID) with
    | none =>
      left
      refine ⟨hparent, by simp [DoesPostExist, KV.has, hex], ?_⟩
      simp [handleCreatePostMsg, DoesAccountExist, DoesPostExist, KV.has, hacc, hnew,
        GetPostParam, hparam, GetLastPostAt, hlimit, hparent, hex]
    | some p =>
      right
      have hne : GetPermlink msg.Author msg.PostID
          ≠ GetPermlink msg.ParentAuthor msg.ParentPostID := by
        intro heq
        rw [heq, hex] at hnew
        cases hnew
      have hget := (KV.get_set_of_ne s.posts (GetPermlink msg.ParentAuthor msg.ParentPostID)
        (GetPermlink msg.Author msg.PostID)
        { p with Comments := p.Comments ++ [(msg.Author, msg.PostID)] } hne).trans hnew
      refine ⟨(AddComment s (GetPermlink msg.ParentAuthor msg.ParentPostID) msg.Author
        msg.PostID).toOption.getD s, Or.inr ⟨hparent, by simp [AddComment, hex, Except.toOption]⟩,
        ?_⟩
      cases hrate : env.NewRatFromDecimal msg.RedistributionSplitRate with
      | none =>
        left
        refine ⟨rfl, ?_⟩
        simp [handleCreatePostMsg, DoesAccountExist, DoesPostExist, KV.has, hacc, hnew,
          GetPostParam, hparam, GetLastPostAt, hlimit, hparent, hex, AddComment, hrate,
          Except.toOption]
      | some splitRate =>
        right
        refine ⟨splitRate, rfl, ?_⟩
        by_cases hrange : splitRate < 0 ∨ 1 < splitRate
        · left
          refine ⟨hrange, ?_⟩
          simp only [AddComment, hex, Except.toOption, Option.getD_some]
          simp [handleCreatePostMsg, DoesAccountExist, DoesPostExist, KV.has, hacc, hnew,
            GetPostParam, hparam, GetLastPostAt, hlimit, hparent, hex, AddComment, hrate,
            CreatePost, hget, hrange]
        · have hin : 0 ≤ splitRate ∧ splitRate ≤ 1 := by
            constructor
            · exact not_lt.mp (fun h => hrange (Or.inl h))
            · exact not_lt.mp (fun h => hrange (Or.inr h))
          right
          by_cases hrej : env.RejectsPost (GetPermlink msg.Author msg.PostID)
              (newPost s.BlockTime msg.SourceAuthor msg.SourcePostID msg.ParentAuthor
                msg.ParentPostID msg.Content msg.Title splitRate msg.Links) = true
          · left
            refine ⟨hin, hrej, ?_⟩
            simp only [AddComment, hex, Except.toOption, Option.getD_some]
            simp [handleCreatePostMsg, DoesAccountExist, DoesPostExist, KV.has, hacc, hnew,
              GetPostParam, hparam, GetLastPostAt, hlimit, hparent, hex, AddComment, hrate,
              CreatePost, hget, hrange, hrej]
          · right
            simp only [AddComment, hex, Except.toOption, Option.getD_some]
            simp [handleCreatePostMsg, DoesAccountExist, DoesPostExist, KV.has, hacc, hnew,
              GetPostParam, hparam, GetLastPostAt, hlimit, hparent, hex, AddComment, hrate,
              CreatePost, hget, hrange, hrej, UpdateLastPostAt, hin]
  · right
    refine ⟨s, Or.inl ⟨hparent, rfl⟩, ?_⟩
    cases hrate : env.NewRatFromDecimal msg.RedistributionSplitRate with
    | none =>
      left
      refine ⟨rfl, ?_⟩
      simp [handleCreatePostMsg, DoesAccountExist, DoesPostExist, KV.has, hacc, hnew,
        GetPostParam, hparam, GetLastPostAt, hlimit, hparent, hrate]
    | some splitRate =>
      right
      refine ⟨splitRate, rfl, ?_⟩
      by_cases hrange : splitRate < 0 ∨ 1 < splitRate
      · left
        refine ⟨hrange, ?_⟩
        simp [handleCreatePostMsg, DoesAccountExist, DoesPostExist, KV.has, hacc, hnew,
          GetPostParam, hparam, GetLastPostAt, hlimit, hparent, hrate, CreatePost, hrange]
      · have hin : 0 ≤ splitRate ∧ splitRate ≤ 1 := by
          constructor
          · exact not_lt.mp (fun h => hrange (Or.inl h))
          · exact not_lt.mp (fun h => hrange (Or.inr h))
        right
        by_cases hrej : env.RejectsPost (GetPermlink msg.Author msg.PostID)
            (newPost s.BlockTime msg.SourceAuthor msg.SourcePostID msg.ParentAuthor
              msg.ParentPostID msg.Content msg.Title splitRate msg.Links) = true
        · left
          refine ⟨hin, hrej, ?_⟩
          simp [handleCreatePostMsg, DoesAccountExist, DoesPostExist, KV.has, hacc, hnew,
            GetPostParam, hparam, GetLastPostAt, hlimit, hparent, hrate, CreatePost, hrange,
            hrej]
        · right
          simp [handleCreatePostMsg, DoesAccountExist, DoesPostExist, KV.has, hacc, hnew,
            GetPostParam, hparam, GetLastPostAt, hlimit, hparent, hrate, CreatePost, hrange,
            hrej, UpdateLastPostAt, hin]

/-- The three ways `handleCreatePostMsg` ends: rejected with the state as it
was; rejected after the comment record was added to the parent, for the split
rate (by the parse, or by the post manager for a rate outside [0,1]) or by the
post manager for a reason of its own; or the post created, with a split rate
in [0,1]. -/
theorem handleCreatePostMsg_outcome (env : Env) (s : PostState) (msg : CreatePostMsg) :
    (∃ e, handleCreatePostMsg env s msg = (some e, s))
    ∨ (∃ e s1, handleCreatePostMsg env s msg = (some e, s1)
        ∧ (msg.ParentAuthor.length > 0 ∨ msg.ParentPostID.length > 0)
        ∧ AddComment s (GetPermlink msg.ParentAuthor msg.ParentPostID) msg.Author msg.PostID
            = .ok s1
        ∧ ((e = .ErrInvalidPostRedistributionSplitRate
              ∧ (env.NewRatFromDecimal msg.RedistributionSplitRate = none
                ∨ ∃ splitRate, env.NewRatFromDecimal msg.RedistributionSplitRate
                    = some splitRate ∧ (splitRate < 0 ∨ 1 < splitRate)))
          ∨ (e = .ErrCreatePost
              ∧ ∃ splitRate, env.NewRatFromDecimal msg.RedistributionSplitRate
                  = some splitRate)))
    ∨ (∃ s3 splitRate, handleCreatePostMsg env s msg = (none, s3)
        ∧ env.NewRatFromDecimal msg.RedistributionSplitRate = some splitRate
        ∧ (0 ≤ splitRate ∧ splitRate ≤ 1)
        ∧ s3.posts.get (GetPermlink msg.Author msg.PostID)
            = some (newPost s.BlockTime msg.SourceAuthor msg.SourcePostID msg.ParentAuthor
                msg.ParentPostID msg.Content msg.Title splitRate msg.Links)) := by
  obtain ⟨h1, h2, h3, h4⟩ := handleCreatePostMsg_early env s msg
  cases hacc : s.accounts.get msg.Author with
  | none => exact Or.inl ⟨_, h1 hacc⟩
  | some a =>
    cases hnew : s.posts.get (GetPermlink msg.Author msg.PostID) with
    | some p => exact Or.inl ⟨_, h2 a p hacc hnew⟩
    | none =>
      cases hparam : s.postParam with
      | none => exact Or.inl ⟨_, h3 a hacc hnew hparam⟩
      | some param =>
        by_cases hlimit : addInt64 a.LastPostAt param.PostIntervalSec > s.BlockTime
        · exact Or.inl ⟨_, h4 a param hacc hnew hparam hlimit⟩
        · rcases handleCreatePostMsg_late env s msg a param hacc hnew hparam hlimit with
            ⟨_, _, h⟩ | ⟨s1, hs1, hrest⟩
          · exact Or.inl ⟨_, h⟩
          · rcases hrest with ⟨hrate, h⟩
              | ⟨splitRate, hrate, ⟨hrange, h⟩ | ⟨_, _, h⟩ | ⟨s3, h, hin, hposts, _⟩⟩
            · rcases hs1 with ⟨_, rfl⟩ | ⟨hparent, hadd⟩
              · exact Or.inl ⟨_, h⟩
              · exact Or.inr (Or.inl ⟨_, s1, h, hparent, hadd, Or.inl ⟨rfl, Or.inl hrate⟩⟩)
            · rcases hs1 with ⟨_, rfl⟩ | ⟨hparent, hadd⟩
              · exact Or.inl ⟨_, h⟩
              · exact Or.inr (Or.inl ⟨_, s1, h, hparent, hadd,
                  Or.inl ⟨rfl, Or.inr ⟨splitRate, hrate, hrange⟩⟩⟩)
            · rcases hs1 with ⟨_, rfl⟩ | ⟨hparent, hadd⟩
              · exact Or.inl ⟨_, h⟩
              · exact Or.inr (Or.inl ⟨_, s1, h, hparent, hadd, Or.inr ⟨rfl, splitRate, hrate⟩⟩)
            · refine Or.inr (Or.inr ⟨s3, splitRate, h, hrate, hin, ?_⟩)
              rw [hposts]
              exact KV.get_set_self _ _ _

/-- C27 (post rate limit).  For an existing author, a permlink that does not
exist yet and readable post parameters, `handleCreatePostMsg` fails with
`ErrPostTooOften` exactly when `lastPostAt + PostIntervalSec > block time`,
the sum being the `int64` sum of the code, which is the sum of the two
numbers whenever that is in the `int64` range.  So after a post created at
block time `t`, a message of the same author for a new permlink at a block
time `t2` with `t2 - t < PostIntervalSec` fails with `ErrPostTooOften`, and
one with `t2 - t >= PostIntervalSec` is not rejected by the rate limit. -/
theorem C27_post_rate_limit (env : Env) (s : PostState) (msg : CreatePostMsg)
    (a : AccountBank) (param : PostParam)
    (hacc : s.accounts.get msg.Author = some a)
    (hnew : s.posts.get (GetPermlink msg.Author msg.PostID) = none)
    (hparam : s.postParam = some param) :
    ((handleCreatePostMsg env s msg).1 = some (.ErrPostTooOften msg.Author)
        ↔ addInt64 a.LastPostAt param.PostIntervalSec > s.BlockTime)
    ∧ (-2 ^ 63 ≤ a.LastPostAt + param.PostIntervalSec →
        a.LastPostAt + param.PostIntervalSec < 2 ^ 63 →
        ((handleCreatePostMsg env s msg).1 = some (.ErrPostTooOften msg.Author)
          ↔ a.LastPostAt + param.PostIntervalSec > s.BlockTime))
    ∧ (∀ s1 msg2 t2, handleCreatePostMsg env s msg = (none, s1) →
        msg2.Author = msg.Author →
        s1.posts.get (GetPermlink msg2.Author msg2.PostID) = none →
        -2 ^ 63 ≤ s.BlockTime + param.PostIntervalSec →
        s.BlockTime + param.PostIntervalSec < 2 ^ 63 →
        (t2 - s.BlockTime < param.PostIntervalSec →
          (handleCreatePostMsg env (atTime s1 t2) msg2).1
            = some (.ErrPostTooOften msg2.Author))
        ∧ (param.PostIntervalSec ≤ t2 - s.BlockTime →
          (handleCreatePostMsg env (atTime s1 t2) msg2).1
            ≠ some (.ErrPostTooOften msg2.Author))) := by
  -- the equivalence, for any state and message
  have key : ∀ (s : PostState) (msg : CreatePostMsg) (a : AccountBank) (param : PostParam),
      s.accounts.get msg.Author = some a →
      s.posts.get (GetPermlink msg.Author msg.PostID) = none →
      s.postParam = some param →
      ((handleCreatePostMsg env s msg).1 = some (.ErrPostTooOften msg.Author)
        ↔ addInt64 a.LastPostAt param.PostIntervalSec > s.BlockTime) := by
    intro s msg a param hacc hnew hparam
    constructor
    · intro h
      by_contra hlimit
      rcases handleCreatePostMsg_late env s msg a param hacc hnew hparam hlimit with
        ⟨_, _, h'⟩
        | ⟨s1, _, ⟨_, h'⟩ | ⟨splitRate, _, ⟨_, h'⟩ | ⟨_, _, h'⟩ | ⟨s3, h', _⟩⟩⟩
      all_goals
        rw [h'] at h
        cases h
    · intro hlimit
      rw [(handleCreatePostMsg_early env s msg).2.2.2 a param hacc hnew hparam hlimit]
  refine ⟨key s msg a param hacc hnew hparam, ?_, ?_⟩
  · intro hlo hhi
    rw [key s msg a param hacc hnew hparam, addInt64_of_range _ _ hlo hhi]
  · intro s1 msg2 t2 hok hauthor hnew2 hlo hhi
    have hlimit : ¬ addInt64 a.LastPostAt param.PostIntervalSec > s.BlockTime := by
      intro hlimit
      rw [(handleCreatePostMsg_early env s msg).2.2.2 a param hacc hnew hparam hlimit] at hok
      cases hok
    have hs1 : s1.accounts = s.accounts.set msg.Author { a with LastPostAt := s.BlockTime }
        ∧ s1.postParam = s.postParam := by
      rcases handleCreatePostMsg_late env s msg a param hacc hnew hparam hlimit with
        ⟨_, _, h'⟩
        | ⟨s0, _, ⟨_, h'⟩
          | ⟨splitRate, _, ⟨_, h'⟩ | ⟨_, _, h'⟩ | ⟨s3, h', _, _, hacc3, hparam3, _⟩⟩⟩
      · rw [h'] at hok
        cases hok
      · rw [h'] at hok
        cases hok
      · rw [h'] at hok
        cases hok
      · rw [h'] at hok
        cases hok
      · rw [h'] at hok
        cases hok
        exact ⟨hacc3, hparam3⟩
    have hacc2 : (atTime s1 t2).accounts.get msg2.Author
        = some { a with LastPostAt := s.BlockTime } := by
      simp only [atTime, hs1.1, hauthor]
      exact KV.get_set_self _ _ _
    have hparam2 : (atTime s1 t2).postParam = some param := by
      simp only [atTime, hs1.2, hparam]
    have hk := key (atTime s1 t2) msg2 _ param hacc2 hnew2 hparam2
    rw [addInt64_of_range _ _ hlo hhi] at hk
    have htime : (atTime s1 t2).BlockTime = t2 := rfl
    rw [htime] at hk
    constructor
    · intro hlt
      exact hk.mpr (by omega)
    · intro hge h
      have := hk.mp h
      omega

/-- C27, witness.  In `exPostState` (block time 1000, interval 600) `alice`,
whose last post was at time 0, creates `alice/new`; a second post 599 seconds
later is rejected as too often, one 601 seconds later is not. -/
theorem C27_post_rate_limit_witness :
    ((handleCreatePostMsg exEnv exPostState (exCreate "new" "" "" "0.5")).1
        = some (.ErrPostTooOften "alice") ↔ addInt64 0 600 > 1000)
      ∧ (handleCreatePostMsg exEnv
          (atTime (handleCreatePostMsg exEnv exPostState (exCreate "new" "" "" "0.5")).2 1599)
          (exCreate "next" "" "" "0.5")).1 = some (.ErrPostTooOften "alice")
      ∧ (handleCreatePostMsg exEnv
          (atTime (handleCreatePostMsg exEnv exPostState (exCreate "new" "" "" "0.5")).2 1601)
          (exCreate "next" "" "" "0.5")).1 ≠ some (.ErrPostTooOften "alice") :=
  have h := C27_post_rate_limit exEnv exPostState (exCreate "new" "" "" "0.5")
    (exAccount 100) { PostIntervalSec := 600, ReportOrUpvoteIntervalSec := 60 }
    (by decide) (by decide!) rfl
  ⟨h.1,
   (h.2.2 _ (exCreate "next" "" "" "0.5") 1599 (by decide!) rfl (by decide!) (by decide)
      (by decide)).1 (by decide),
   (h.2.2 _ (exCreate "next" "" "" "0.5") 1601 (by decide!) rfl (by decide!) (by decide)
      (by decide)).2 (by decide)⟩

/-- C28 (split-rate validation).  For every create-post message whose
`RedistributionSplitRate` does not denote a rational in [0,1] (it does not
parse, or it parses to a rational below 0 or above 1), `handleCreatePostMsg`
returns an error result and creates no post: the permlinks that exist
afterwards are those that existed before.  The error is
`ErrInvalidPostRedistributionSplitRate` when the checks before the parse let
the message through (the author exists, the permlink is new, the parameters
are readable, the rate limit is not hit, a named parent exists).  The text
that does not parse is refused by the handler itself; the rational outside
[0,1] is refused by the post ledger, as the spec has it. -/
theorem C28_split_rate_validation (env : Env) (s : PostState) (msg : CreatePostMsg)
    (hbad : env.NewRatFromDecimal msg.RedistributionSplitRate = none
      ∨ ∃ splitRate, env.NewRatFromDecimal msg.RedistributionSplitRate = some splitRate
          ∧ (splitRate < 0 ∨ 1 < splitRate)) :
    (∃ e, (handleCreatePostMsg env s msg).1 = some e)
    ∧ (∀ pl, DoesPostExist (handleCreatePostMsg env s msg).2 pl = DoesPostExist s pl)
    ∧ (∀ a param, s.accounts.get msg.Author = some a →
        s.posts.get (GetPermlink msg.Author msg.PostID) = none →
        s.postParam = some param →
        ¬ addInt64 a.LastPostAt param.PostIntervalSec > s.BlockTime →
        (msg.ParentAuthor.length > 0 ∨ msg.ParentPostID.length > 0 →
          DoesPostExist s (GetPermlink msg.ParentAuthor msg.ParentPostID) = true) →
        (handleCreatePostMsg env s msg).1 = some .ErrInvalidPostRedistributionSplitRate) := by
  have hno : ∀ splitRate, env.NewRatFromDecimal msg.RedistributionSplitRate = some splitRate →
      ¬ (0 ≤ splitRate ∧ splitRate ≤ 1) := by
    intro splitRate hr hin
    rcases hbad with hnone | ⟨r, hr', hrange⟩
    · rw [hnone] at hr
      cases hr
    · rw [hr'] at hr
      cases hr
      rcases hrange with h | h
      · exact absurd hin.1 (not_le.mpr h)
      · exact absurd hin.2 (not_le.mpr h)
  refine ⟨?_, ?_, ?_⟩
  · rcases handleCreatePostMsg_outcome env s msg with
      ⟨e, h⟩ | ⟨e, s1, h, _⟩ | ⟨s3, splitRate, _, hr, hin, _⟩
    · exact ⟨e, by rw [h]⟩
    · exact ⟨e, by rw [h]⟩
    · exact absurd hin (hno splitRate hr)
  · intro pl
    rcases handleCreatePostMsg_outcome env s msg with
      ⟨e, h⟩ | ⟨e, s1, h, _, hadd, _⟩ | ⟨s3, splitRate, _, hr, hin, _⟩
    · rw [h]
    · rw [h]
      exact (AddComment_frame s s1 _ _ _ hadd).2.2.2.1 pl
    · exact absurd hin (hno splitRate hr)
  · intro a param hacc hnew hparam hlimit hparent
    rcases handleCreatePostMsg_late env s msg a param hacc hnew hparam hlimit with
      ⟨hp, hex, _⟩
      | ⟨s1, _, ⟨_, h⟩ | ⟨splitRate, hr, ⟨_, h⟩ | ⟨hin, _⟩ | ⟨s3, _, hin, _⟩⟩⟩
    · rw [hparent hp] at hex
      cases hex
    · rw [h]
    · rw [h]
    · exact absurd hin (hno splitRate hr)
    · exact absurd hin (hno splitRate hr)

/-- C28, witness.  `alice` creates `alice/new` with a split rate that parses to
2, one that parses to -1, and one that does not parse. -/
theorem C28_split_rate_validation_witness :
    (handleCreatePostMsg exEnv exPostState (exCreate "new" "" "" "2")).1
        = some .ErrInvalidPostRedistributionSplitRate
      ∧ DoesPostExist (handleCreatePostMsg exEnv exPostState (exCreate "new" "" "" "2")).2
          ("alice", "new") = false
      ∧ (handleCreatePostMsg exEnv exPostState (exCreate "new" "" "" "-1")).1
        = some .ErrInvalidPostRedistributionSplitRate
      ∧ (handleCreatePostMsg exEnv exPostState (exCreate "new" "" "" "abc")).1
        = some .ErrInvalidPostRedistributionSplitRate :=
  have h2 := C28_split_rate_validation exEnv exPostState (exCreate "new" "" "" "2")
    (Or.inr ⟨2, rfl, Or.inr (by norm_num)⟩)
  have hneg := C28_split_rate_validation exEnv exPostState (exCreate "new" "" "" "-1")
    (Or.inr ⟨-1, rfl, Or.inl (by norm_num)⟩)
  have habc := C28_split_rate_validation exEnv exPostState (exCreate "new" "" "" "abc")
    (Or.inl rfl)
  ⟨h2.2.2 (exAccount 100) { PostIntervalSec := 600, ReportOrUpvoteIntervalSec := 60 }
      (by decide) (by decide!) rfl (by decide) (by decide),
   (h2.2.1 ("alice", "new")).trans (by decide!),
   hneg.2.2 (exAccount 100) { PostIntervalSec := 600, ReportOrUpvoteIntervalSec := 60 }
      (by decide) (by decide!) rfl (by decide) (by decide),
   habc.2.2 (exAccount 100) { PostIntervalSec := 600, ReportOrUpvoteIntervalSec := 60 }
      (by decide) (by decide!) rfl (by decide) (by decide)⟩

/-- C29, counterexample.  `alice` creates `alice/new` as a comment on the post
`bob/p2`, with the split rate "abc": `handleCreatePostMsg` returns
`ErrInvalidPostRedistributionSplitRate`, no post `alice/new` exists, and the
comment record `alice/new` has been added to `bob/p2`, which had none. -/
theorem C29_comment_kept_after_rejected_rate :
    (handleCreatePostMsg exEnv exPostState (exCreate "new" "bob" "p2" "abc")).1
        = some .ErrInvalidPostRedistributionSplitRate
      ∧ (exPostState.posts.get ("bob", "p2")).map (fun p => p.Comments) = some []
      ∧ ((handleCreatePostMsg exEnv exPostState (exCreate "new" "bob" "p2" "abc")).2.posts.get
            ("bob", "p2")).map (fun p => p.Comments) = some [("alice", "new")]
      ∧ DoesPostExist (handleCreatePostMsg exEnv exPostState (exCreate "new" "bob" "p2" "abc")).2
          ("alice", "new") = false := by
  decide!

/-- C29, amended (what an error of CreatePost leaves).  If
`handleCreatePostMsg` returns an error result, the account ledger is
unchanged, and the post ledger is unchanged unless the message names a parent
and the error is the rejection of the split rate or a refusal of the post
manager: then the state left is the state after the comment record was added
to the parent, and nothing else was written.  For a message without parent an
error result leaves the whole state unchanged. -/
theorem C29_create_post_error_state (env : Env) (s s' : PostState) (msg : CreatePostMsg)
    (e : PostError) (h : handleCreatePostMsg env s msg = (some e, s')) :
    s'.accounts = s.accounts
    ∧ (s' = s
      ∨ ((msg.ParentAuthor.length > 0 ∨ msg.ParentPostID.length > 0)
          ∧ AddComment s (GetPermlink msg.ParentAuthor msg.ParentPostID) msg.Author
              msg.PostID = .ok s'
          ∧ (e = .ErrInvalidPostRedistributionSplitRate ∨ e = .ErrCreatePost)))
    ∧ (¬ (msg.ParentAuthor.length > 0 ∨ msg.ParentPostID.length > 0) → s' = s) := by
  rcases handleCreatePostMsg_outcome env s msg with
    ⟨e1, h1⟩ | ⟨e1, s1, h1, hparent, hadd, he⟩ | ⟨s3, splitRate, h1, _⟩
  · rw [h1] at h
    cases h
    exact ⟨rfl, Or.inl rfl, fun _ => rfl⟩
  · rw [h1] at h
    cases h
    refine ⟨(AddComment_frame s s' _ _ _ hadd).1, Or.inr ⟨hparent, hadd, ?_⟩,
      fun hn => absurd hparent hn⟩
    rcases he with ⟨he, _⟩ | ⟨he, _⟩
    · exact Or.inl he
    · exact Or.inr he
  · rw [h1] at h
    cases h

/-- C29, amended: witness.  The rejected comment of `alice` on `bob/p2`. -/
theorem C29_create_post_error_state_witness :
    (handleCreatePostMsg exEnv exPostState (exCreate "new" "bob" "p2" "abc")).2.accounts
        = exPostState.accounts
      ∧ AddComment exPostState ("bob", "p2") "alice" "new"
          = .ok (handleCreatePostMsg exEnv exPostState (exCreate "new" "bob" "p2" "abc")).2 :=
  have h := C29_create_post_error_state exEnv exPostState
    (handleCreatePostMsg exEnv exPostState (exCreate "new" "bob" "p2" "abc")).2
    (exCreate "new" "bob" "p2" "abc") .ErrInvalidPostRedistributionSplitRate (by decide!)
  ⟨h.1, h.2.1.elim (fun hs => absurd hs (by decide!)) (fun hc => hc.2.1)⟩

/-- C30, counterexample.  `alice`, whose account exists, donates the amount
"abc" to the deleted post `bob/gone`: the error is `ErrInvalidCoins`, not
`ErrDonatePostIsDeleted`. -/
theorem C30_deleted_post_other_error :
    DoesAccountExist exPostState "alice" = true
      ∧ IsDeleted exPostState ("bob", "gone") = .ok true
      ∧ handleDonateMsg exEnv exPostState (exBadDonate "gone")
          = (some .ErrInvalidCoins, exPostState) := by
  refine ⟨by decide, rfl, by decide!⟩

/-- C30, amended (deleted posts reject donate and update).  For every post
that exists and is marked deleted, `handleDonateMsg` and `handleUpdatePostMsg`
targeting it return an error result and change no state; the error is
`ErrDonatePostIsDeleted` when the amount converts and the sender's account
exists, and `ErrUpdatePostIsDeleted` when the sender's account exists. -/
theorem C30_deleted_post_rejects (env : Env) (s : PostState) (dmsg : DonateMsg)
    (umsg : UpdatePostMsg) (p q : Post)
    (hp : s.posts.get (GetPermlink dmsg.Author dmsg.PostID) = some p)
    (hpd : p.IsDeleted = true)
    (hq : s.posts.get (GetPermlink umsg.Author umsg.PostID) = some q)
    (hqd : q.IsDeleted = true) :
    (∃ e, handleDonateMsg env s dmsg = (some e, s))
    ∧ (∀ coin, env.LinoToCoin dmsg.Amount = some coin →
        DoesAccountExist s dmsg.Username = true →
        handleDonateMsg env s dmsg
          = (some (.ErrDonatePostIsDeleted (GetPermlink dmsg.Author dmsg.PostID)), s))
    ∧ (∃ e, handleUpdatePostMsg s umsg = (some e, s))
    ∧ (DoesAccountExist s umsg.Author = true →
        handleUpdatePostMsg s umsg
          = (some (.ErrUpdatePostIsDeleted (GetPermlink umsg.Author umsg.PostID)), s)) := by
  have hd : ∀ coin, env.LinoToCoin dmsg.Amount = some coin →
      DoesAccountExist s dmsg.Username = true →
      handleDonateMsg env s dmsg
        = (some (.ErrDonatePostIsDeleted (GetPermlink dmsg.Author dmsg.PostID)), s) := by
    intro coin hc hacc
    simp [handleDonateMsg, hc, hacc, DoesPostExist, KV.has, hp, IsDeleted, hpd]
  have hu : DoesAccountExist s umsg.Author = true →
      handleUpdatePostMsg s umsg
        = (some (.ErrUpdatePostIsDeleted (GetPermlink umsg.Author umsg.PostID)), s) := by
    intro hacc
    simp [handleUpdatePostMsg, hacc, DoesPostExist, KV.has, hq, IsDeleted, hqd]
  refine ⟨?_, hd, ?_, hu⟩
  · cases hc : env.LinoToCoin dmsg.Amount with
    | none => exact ⟨.ErrInvalidCoins, by simp [handleDonateMsg, hc]⟩
    | some coin =>
      by_cases hacc : DoesAccountExist s dmsg.Username = true
      · exact ⟨_, hd coin hc hacc⟩
      · exact ⟨.ErrAccountNotFound dmsg.Username, by simp [handleDonateMsg, hc, hacc]⟩
  · by_cases hacc : DoesAccountExist s umsg.Author = true
    · exact ⟨_, hu hacc⟩
    · exact ⟨.ErrAccountNotFound umsg.Author, by simp [handleUpdatePostMsg, hacc]⟩

/-- C30, amended: witness.  `alice` donates 33 coins to the deleted post
`bob/gone`, and `bob` updates it. -/
theorem C30_deleted_post_rejects_witness :
    handleDonateMsg exEnv exPostState (exDonate "gone")
        = (some (.ErrDonatePostIsDeleted ("bob", "gone")), exPostState)
      ∧ handleUpdatePostMsg exPostState (exUpdate "gone")
        = (some (.ErrUpdatePostIsDeleted ("bob", "gone")), exPostState) :=
  have h := C30_deleted_post_rejects exEnv exPostState (exDonate "gone") (exUpdate "gone")
    (exPost "" "" 0 true) (exPost "" "" 0 true) (by decide!) rfl (by decide!) rfl
  ⟨h.2.1 ⟨33⟩ (by decide) (by decide), h.2.2.2 (by decide)⟩

end Lino

/-! ## Report and upvote (`x/post/handler.go`) -/

namespace Lino

/-- C31 (deleted posts and report/upvote): the code does not do what the
claim says.  `handleReportOrUpvoteMsg` never reads the deleted flag: for a
post that exists and is marked deleted, when the sender's account exists, the
post parameters are readable and the rate limit is not hit, it returns a
success result, appends the stake-weight record to the deleted post and sets
the sender's `lastReportOrUpvoteAt` to the block time. -/
theorem C31_report_on_deleted_post_accepted (s : PostState) (msg : ReportOrUpvoteMsg)
    (a : AccountBank) (p : Post) (param : PostParam)
    (hacc : s.accounts.get msg.Username = some a)
    (hp : s.posts.get (GetPermlink msg.Author msg.PostID) = some p)
    (hdel : p.IsDeleted = true)
    (hparam : s.postParam = some param)
    (hlimit : ¬ addInt64 a.LastReportOrUpvoteAt param.ReportOrUpvoteIntervalSec
      > s.BlockTime) :
    IsDeleted s (GetPermlink msg.Author msg.PostID) = .ok true
      ∧ (handleReportOrUpvoteMsg s msg).1 = none
      ∧ (handleReportOrUpvoteMsg s msg).2.posts.get (GetPermlink msg.Author msg.PostID)
          = some { p with
              ReportOrUpvotes := p.ReportOrUpvotes ++ [(msg.Username, a.Stake, msg.IsReport)] }
      ∧ (handleReportOrUpvoteMsg s msg).2.accounts.get msg.Username
          = some { a with LastReportOrUpvoteAt := s.BlockTime }
      ∧ (handleReportOrUpvoteMsg s msg).2 ≠ s := by
  have hres : handleReportOrUpvoteMsg s msg
      = (none, { s with
          posts := s.posts.set (GetPermlink msg.Author msg.PostID)
            { p with
              ReportOrUpvotes := p.ReportOrUpvotes ++ [(msg.Username, a.Stake, msg.IsReport)] },
          accounts := s.accounts.set msg.Username
            { a with LastReportOrUpvoteAt := s.BlockTime } }) := by
    simp [handleReportOrUpvoteMsg, DoesAccountExist, DoesPostExist, KV.has, hacc, hp, GetStake,
      GetLastReportOrUpvoteAt, GetPostParam, hparam, hlimit, ReportOrUpvoteToPost,
      UpdateLastReportOrUpvoteAt]
  rw [hres]
  refine ⟨by simp [IsDeleted, hp, hdel], rfl, KV.get_set_self _ _ _, KV.get_set_self _ _ _, ?_⟩
  intro heq
  have h1 := congrArg (fun t => t.posts.get (GetPermlink msg.Author msg.PostID)) heq
  simp only [KV.get_set_self, hp, Option.some.injEq] at h1
  have h2 := congrArg (fun q => q.ReportOrUpvotes.length) h1
  simp at h2

/-- C31, witness.  `alice` (stake 7) reports the deleted post `bob/gone` at
block time 1000. -/
theorem C31_report_on_deleted_post_accepted_witness :
    IsDeleted exPostState ("bob", "gone") = .ok true
      ∧ (handleReportOrUpvoteMsg exPostState (exReport "gone")).1 = none
      ∧ ((handleReportOrUpvoteMsg exPostState (exReport "gone")).2.posts.get
            ("bob", "gone")).map (fun p => p.ReportOrUpvotes) = some [("alice", ⟨7⟩, true)]
      ∧ ((handleReportOrUpvoteMsg exPostState (exReport "gone")).2.accounts.get
            "alice").map (fun a => a.LastReportOrUpvoteAt) = some 1000 :=
  have h := C31_report_on_deleted_post_accepted exPostState (exReport "gone") (exAccount 100)
    (exPost "" "" 0 true) { PostIntervalSec := 600, ReportOrUpvoteIntervalSec := 60 }
    (by decide) (by decide!) rfl rfl (by decide)
  ⟨h.1, h.2.1, congrArg (Option.map (fun (p : Post) => p.ReportOrUpvotes)) h.2.2.1,
    congrArg (Option.map (fun (a : AccountBank) => a.LastReportOrUpvoteAt)) h.2.2.2.1⟩

end Lino

/-! ## Vote manager: voters and the penalty list, legal withdrawals -/

namespace Lino

namespace VoteManager

open VoteStorage

/-- C34, counterexample.  The on-call list `A, A, B` and the stored vote of
`A` on `p1`: the loop removes the first `A` only, and `A`, who voted, is in
the penalty list. -/
theorem C34_duplicate_validator_penalised :
    DoesVoteExist exVotedState "p1" "A" = true
      ∧ (GetPenaltyList exVotedState "p1" .ChangeParam ["A", "A", "B"]).1.PenaltyList
          = ["A", "B"] := by
  decide

/-- C34, amended (voters are never penalised).  For every proposal (of any
type) and every duplicate-free list of on-call validators, no account that a
vote of the proposal names as its voter appears in the list `GetPenaltyList`
returns; in a store whose votes name the voter of their key (as `AddVote`
writes them), no account with a stored vote on the proposal appears in it. -/
theorem C34_voters_not_penalised (s : VoteState) (proposalID : ProposalKey)
    (proposalType : ProposalType) (oncallValidators : List AccountKey)
    (hnd : oncallValidators.Nodup) :
    (∀ v, (∃ vote ∈ GetAllVotes s proposalID, vote.Voter = v) →
        v ∉ (GetPenaltyList s proposalID proposalType oncallValidators).1.PenaltyList)
    ∧ (VotesKeyed s → ∀ v, DoesVoteExist s proposalID v = true →
        v ∉ (GetPenaltyList s proposalID proposalType oncallValidators).1.PenaltyList) := by
  have key : ∀ v, (∃ vote ∈ GetAllVotes s proposalID, vote.Voter = v) →
      v ∉ (GetPenaltyList s proposalID proposalType oncallValidators).1.PenaltyList := by
    intro v hv
    unfold GetPenaltyList
    by_cases ht : proposalType = .ChangeParam ∨ proposalType = .ProtocolUpgrade
    · simp only [ht, if_true]
      rw [foldl_erase_eq_filter _ _ hnd]
      intro hmem
      obtain ⟨vote, hvote, hvoter⟩ := hv
      have := (List.mem_filter.mp hmem).2
      simp only [decide_eq_true_eq] at this
      exact this vote hvote hvoter
    · simp only [ht, if_false]
      exact List.not_mem_nil v
  refine ⟨key, ?_⟩
  intro hk v hv
  exact key v ((voted_iff_exists s hk proposalID v).mpr hv)

/-- C34, amended: witness.  The on-call list `A, B, C` and the stored vote of
`A` on `p1`. -/
theorem C34_voters_not_penalised_witness :
    "A" ∉ (GetPenaltyList exVotedState "p1" .ChangeParam ["A", "B", "C"]).1.PenaltyList :=
  (C34_voters_not_penalised exVotedState "p1" .ChangeParam ["A", "B", "C"] (by decide)).1 "A"
    ⟨{ Voter := "A", Result := true, VotingPower := ⟨100⟩ }, by decide, rfl⟩

/-- C35 (a legal withdrawal never deletes or underfunds the voter).  With
`VoterMinDeposit > 0` and `VoterMinWithdraw > 0`, whenever
`IsLegalVoterWithdraw` returns true, `VoterWithdraw` with the same arguments
returns `nil`, and afterwards the Voter record exists, with the deposit
reduced by the coin and still `>= VoterMinDeposit`. -/
theorem C35_legal_withdraw_keeps_voter (s : VoteState) (username : AccountKey) (coin : Coin)
    (param : VoteParam) (hparam : s.voteParam = some param)
    (hmin : 0 < param.VoterMinDeposit.Amount) (hw : 0 < param.VoterMinWithdraw.Amount)
    (hlegal : IsLegalVoterWithdraw s username coin = true) :
    (VoterWithdraw s username coin).1 = none
      ∧ ∃ voter, s.voters.get username = some voter
          ∧ (VoterWithdraw s username coin).2.voters.get username
              = some { voter with Deposit := voter.Deposit.Minus coin }
          ∧ param.VoterMinDeposit.Amount ≤ (voter.Deposit.Minus coin).Amount := by
  unfold IsLegalVoterWithdraw GetVoter GetVoteParam at hlegal
  cases hv : s.voters.get username with
  | none => simp [hv] at hlegal
  | some voter =>
    simp only [hv, hparam] at hlegal
    by_cases hin : IsInValidatorList s username = true
    · simp [hin] at hlegal
    · simp only [hin, Bool.false_eq_true, if_false] at hlegal
      by_cases h1 : param.VoterMinWithdraw.Amount ≤ coin.Amount
      · by_cases h2 : param.VoterMinDeposit.Amount ≤ voter.Deposit.Amount - coin.Amount
        · have hc : coin.Amount ≠ 0 := by omega
          have hd : voter.Deposit.Amount - coin.Amount ≠ 0 := by omega
          refine ⟨?_, voter, rfl, ?_, h2⟩
          · simp [VoterWithdraw, Coin.IsZero, hc, GetVoter, hv, Coin.Minus, hd]
          · simp [VoterWithdraw, Coin.IsZero, hc, GetVoter, hv, Coin.Minus, hd, SetVoter,
              KV.get_set_self]
        · simp [Coin.IsGTE, Coin.Minus, h1, h2] at hlegal
      · simp [Coin.IsGTE, h1] at hlegal

/-- C35, witness.  In `exLegalState` (minimum deposit 1000, minimum withdrawal
1) `v`, with deposit 3000, withdraws 2000 and keeps the deposit 1000. -/
theorem C35_legal_withdraw_keeps_voter_witness :
    IsLegalVoterWithdraw exLegalState "v" ⟨2000⟩ = true
      ∧ (VoterWithdraw exLegalState "v" ⟨2000⟩).1 = none
      ∧ ((VoterWithdraw exLegalState "v" ⟨2000⟩).2.voters.get "v").map (fun r => r.Deposit)
          = some ⟨1000⟩ :=
  have h := C35_legal_withdraw_keeps_voter exLegalState "v" ⟨2000⟩ ⟨⟨1000⟩, ⟨1⟩, ⟨1⟩⟩ rfl
    (by decide) (by decide) (by decide)
  ⟨by decide, h.1, by decide⟩

end VoteManager

end Lino

/-! ## Transaction types (`types/tx.go`): theorems -/

namespace Lino

namespace Types

theorem takeWhile_ne_append (c a : Bytes) (sep : Nat) (hc : sep ∉ c) :
    (c ++ sep :: a).takeWhile (fun b => !decide (b = sep)) = c
      ∧ (c ++ sep :: a).dropWhile (fun b => !decide (b = sep)) = sep :: a := by
  induction c with
  | nil => simp [List.takeWhile, List.dropWhile]
  | cons x xs ih =>
    have hx : x ≠ sep := fun h => hc (by simp [h])
    have hxs : sep ∉ xs := fun h => hc (by simp [h])
    simp [List.takeWhile, List.dropWhile, hx, ih hxs]

/-- The split of `chain/address` at the first separator. -/
theorem SplitN2_append (c a : Bytes) (sep : Nat) (hc : sep ∉ c) :
    SplitN2 (c ++ sep :: a) sep = [c, a] := by
  have h := takeWhile_ne_append c a sep hc
  simp [SplitN2, h.1, h.2]

/-- C33 (ChainAndAddress).  For every chain id `c` without a `/` byte and
every address `a` of 20 bytes, `ChainAndAddress` on the output address
`c ++ "/" ++ a` returns `(c, a, OK)`, and on the bare address `a` it returns
`(nil, a, OK)`; and whenever the result is not an error, the address returned
has exactly 20 bytes. -/
theorem C33_ChainAndAddress (c a : Bytes) (coins : Coins) (hc : 0x2f ∉ c)
    (ha : a.length = 20) :
    TxOutput.ChainAndAddress { Address := c ++ [0x2f] ++ a, Coins := coins }
        = (some c, some a, abci.OK)
    ∧ TxOutput.ChainAndAddress { Address := a, Coins := coins } = (none, some a, abci.OK)
    ∧ (∀ txOut : TxOutput, (TxOutput.ChainAndAddress txOut).2.2.IsErr = false →
        ∃ address, (TxOutput.ChainAndAddress txOut).2.1 = some address
          ∧ address.length = 20) := by
  refine ⟨?_, ?_, ?_⟩
  · have hlen : (c ++ [0x2f] ++ a).length > 20 := by
      simp only [List.length_append, List.length_singleton, ha]
      omega
    have hsplit : SplitN2 (c ++ [0x2f] ++ a) 0x2f = [c, a] := by
      rw [List.append_assoc]
      exact SplitN2_append c a 0x2f hc
    simp only [TxOutput.ChainAndAddress, hlen, if_true, hsplit, ha, ne_eq, not_true_eq_false,
      if_false]
  · simp [TxOutput.ChainAndAddress, ha]
  · intro txOut hok
    unfold TxOutput.ChainAndAddress at hok ⊢
    simp only [] at hok ⊢
    split_ifs at hok ⊢ with hlen
    · unfold SplitN2 at hok ⊢
      split_ifs at hok ⊢ with hsep
      · simp only [] at hok ⊢
        split_ifs at hok ⊢ with h20
        · simp [abci.Result.IsErr, abci.Result.AppendLog, abci.ErrBaseInvalidOutput] at hok
        · exact ⟨_, rfl, not_not.mp h20⟩
      · simp [abci.Result.IsErr, abci.Result.AppendLog, abci.ErrBaseInvalidOutput] at hok
    · simp only [] at hok ⊢
      split_ifs at hok ⊢ with h20
      · simp [abci.Result.IsErr, abci.Result.AppendLog, abci.ErrBaseInvalidOutput] at hok
      · exact ⟨_, rfl, not_not.mp h20⟩

/-- C33, witness.  The chain id `ab` and the address of the 20 bytes
`0, ..., 19`. -/
theorem C33_ChainAndAddress_witness :
    TxOutput.ChainAndAddress
        { Address := [0x61, 0x62] ++ [0x2f] ++ List.range 20, Coins := ⟨true, false, []⟩ }
      = (some [0x61, 0x62], some (List.range 20), abci.OK) :=
  (C33_ChainAndAddress [0x61, 0x62] (List.range 20) ⟨true, false, []⟩ (by decide)
    (by decide)).1

/-- An input is rejected exactly in the six cases of `TxInput.ValidateBasic`;
a result that is no error is `abci.OK`. -/
theorem TxInput.ValidateBasic_not_err (txIn : TxInput)
    (h : (TxInput.ValidateBasic txIn).IsErr = false) : TxInput.ValidateBasic txIn = abci.OK := by
  unfold TxInput.ValidateBasic at h ⊢
  split_ifs at h ⊢
  all_goals first
    | rfl
    | simp [abci.Result.IsErr, abci.Result.AppendLog, abci.ErrBaseInvalidInput] at h

/-- C36 (DonateTx.ValidateBasic): the code does not do what the claim says.
`DonateTx.ValidateBasic` returns the result of the input only when that is no
error: for every `DonateTx`, also one whose input `TxInput.ValidateBasic`
rejects, it returns `abci.OK`. -/
theorem C36_DonateTx_ValidateBasic_always_OK (tx : DonateTx) :
    DonateTx.ValidateBasic tx = abci.OK
      ∧ (TxInput.ValidateBasic { tx.Input with Address := [] }).IsErr = true
      ∧ DonateTx.ValidateBasic { tx with Input := { tx.Input with Address := [] } }
          = abci.OK := by
  have key : ∀ tx : DonateTx, DonateTx.ValidateBasic tx = abci.OK := by
    intro tx
    unfold DonateTx.ValidateBasic
    by_cases h : (TxInput.ValidateBasic tx.Input).IsErr = true
    · simp [h]
    · have h' : (TxInput.ValidateBasic tx.Input).IsErr = false := by simpa using h
      simp only [h', Bool.not_false, if_true]
      exact TxInput.ValidateBasic_not_err _ h'
  refine ⟨key tx, ?_, key _⟩
  simp [TxInput.ValidateBasic, abci.Result.IsErr, abci.Result.AppendLog,
    abci.ErrBaseInvalidInput]

theorem zipWith_restore (inputs : List TxInput) :
    List.zipWith (fun (input : TxInput) sig => { input with Signature := sig })
        (inputs.map (fun input => { input with Signature := none }))
        (inputs.map (fun input => input.Signature))
      = inputs := by
  induction inputs with
  | nil => rfl
  | cons x xs ih => simp [List.zipWith, ih]

theorem map_clear_eq (l1 l2 : List TxInput)
    (h : List.Forall₂ (fun a b => a.Address = b.Address ∧ a.Coins = b.Coins
        ∧ a.Sequence = b.Sequence ∧ a.PubKey = b.PubKey) l1 l2) :
    l1.map (fun input => { input with Signature := none })
      = l2.map (fun input => { input with Signature := none }) := by
  induction h with
  | nil => rfl
  | cons hab _ ih =>
    simp only [List.map_cons, ih, hab.1, hab.2.1, hab.2.2.1, hab.2.2.2]

/-- C37 (sign bytes do not depend on signatures).  For every encoding
`wire.BinaryBytes`, every chain id and every two `SendTx` values that differ
only in the `Signature` fields of their inputs, `SignBytes` returns the same
bytes; and after `SignBytes` returns, the transaction is what it was before
the call: every input carries the signature it had. -/
theorem C37_SignBytes (wire : Wire) (chainID : String) (tx1 tx2 : SendTx)
    (h : SendTx.SameButSignatures tx1 tx2) :
    (SendTx.SignBytes wire tx1 chainID).1 = (SendTx.SignBytes wire tx2 chainID).1
      ∧ (SendTx.SignBytes wire tx1 chainID).2 = tx1
      ∧ (SendTx.SignBytes wire tx1 chainID).2.Inputs.map (fun input => input.Signature)
          = tx1.Inputs.map (fun input => input.Signature) := by
  obtain ⟨hg, hf, ho, hi⟩ := h
  have hrestore : (SendTx.SignBytes wire tx1 chainID).2 = tx1 := by
    simp only [SendTx.SignBytes, zipWith_restore]
  refine ⟨?_, hrestore, by rw [hrestore]⟩
  simp only [SendTx.SignBytes, map_clear_eq _ _ hi, hg, hf, ho]

/-- C37, witness.  With an encoding that writes the signatures, the
transaction signed with `7, 7` and the one signed with `9` have the same sign
bytes, and the first still carries `7, 7` after the call. -/
theorem C37_SignBytes_witness :
    (SendTx.SignBytes exWire (exSendTx (some [7, 7])) "lino").1
        = (SendTx.SignBytes exWire (exSendTx (some [9])) "lino").1
      ∧ (SendTx.SignBytes exWire (exSendTx (some [7, 7])) "lino").2 = exSendTx (some [7, 7]) :=
  have h := C37_SignBytes exWire "lino" (exSendTx (some [7, 7])) (exSendTx (some [9]))
    ⟨rfl, rfl, rfl, List.Forall₂.cons ⟨rfl, rfl, rfl, rfl⟩ List.Forall₂.nil⟩
  ⟨h.1, h.2.1⟩

end Types

end Lino

/-! ## `jsonEscape` (`types/tx.go`) -/

namespace Lino

namespace Types

/-- Decoding copies a byte that is no quote, no backslash and no control
character. -/
theorem unquoteBody_cons_plain (b : Nat) (tail : Bytes) (h1 : b ≠ 0x22) (h2 : b ≠ 0x5c)
    (h3 : ¬ b < 0x20) :
    unquoteBody (b :: tail) = (unquoteBody tail).map (fun t => b :: t) := by
  rw [unquoteBody.eq_def]
  simp only [h1, h2, h3, if_false]

/-- Decoding a two-byte escape. -/
theorem unquoteBody_cons_escape (c x : Nat) (tail : Bytes) (hc : c ≠ 0x75)
    (hx : unescapeChar c = some x) :
    unquoteBody (0x5c :: c :: tail) = (unquoteBody tail).map (fun t => x :: t) := by
  rw [unquoteBody.eq_def]
  simp [hc, hx]

/-- Decoding undoes the escape of a byte below `utf8.RuneSelf`. -/
theorem unquoteBody_escapeByte (b : Nat) (hb : b < 0x80) (tail : Bytes) :
    unquoteBody (escapeByte b ++ tail) = (unquoteBody tail).map (fun t => b :: t) := by
  by_cases hplain : 0x20 ≤ b ∧ b ≠ 0x5c ∧ b ≠ 0x22 ∧ b ≠ 0x3c ∧ b ≠ 0x3e ∧ b ≠ 0x26
  · have hesc : escapeByte b = [b] := by
      unfold escapeByte
      exact if_pos hplain
    rw [hesc]
    exact unquoteBody_cons_plain b tail hplain.2.2.1 hplain.2.1 (by omega)
  · by_cases hq : b = 0x5c ∨ b = 0x22
    · rcases hq with rfl | rfl
      · exact unquoteBody_cons_escape _ _ tail (by decide) (by decide)
      · exact unquoteBody_cons_escape _ _ tail (by decide) (by decide)
    · by_cases hn : b = 0x0a
      · subst hn
        exact unquoteBody_cons_escape _ _ tail (by decide) (by decide)
      · by_cases hr : b = 0x0d
        · subst hr
          exact unquoteBody_cons_escape _ _ tail (by decide) (by decide)
        · by_cases ht : b = 0x09
          · subst ht
            exact unquoteBody_cons_escape _ _ tail (by decide) (by decide)
          · have hb' : b < 0x20 ∨ b = 0x3c ∨ b = 0x3e ∨ b = 0x26 := by omega
            clear hplain
            rcases hb' with hlt | rfl | rfl | rfl
            · interval_cases b <;>
                simp [escapeByte, unquoteBody, unescapeChar, hexVal, EncodeRune, hex] at hn hr ht ⊢
            · simp [escapeByte, unquoteBody, unescapeChar, hexVal, EncodeRune, hex]
            · simp [escapeByte, unquoteBody, unescapeChar, hexVal, EncodeRune, hex]
            · simp [escapeByte, unquoteBody, unescapeChar, hexVal, EncodeRune, hex]

/-- Decoding copies bytes from 0x80 on. -/
theorem unquoteBody_copy (l tail : Bytes) (h : ∀ x ∈ l, 0x80 ≤ x) :
    unquoteBody (l ++ tail) = (unquoteBody tail).map (fun t => l ++ t) := by
  induction l with
  | nil => simp
  | cons x xs ih =>
    have hx : 0x80 ≤ x := h x (by simp)
    rw [List.cons_append,
      unquoteBody_cons_plain x (xs ++ tail) (by omega) (by omega) (by omega),
      ih (fun y hy => h y (by simp [hy]))]
    rw [Option.map_map]
    rfl

theorem first_some (s0 sz lo hi : Nat) (h : first s0 = some (sz, lo, hi)) :
    0x80 ≤ lo ∧ hi ≤ 0xBF
      ∧ ((sz = 2 ∧ 0xC2 ≤ s0 ∧ s0 ≤ 0xDF) ∨ (sz = 3 ∧ 0xE0 ≤ s0 ∧ s0 ≤ 0xEF)
        ∨ (sz = 4 ∧ 0xF0 ≤ s0 ∧ s0 ≤ 0xF4 ∧ (s0 = 0xF0 → 0x90 ≤ lo))) := by
  unfold first at h
  split_ifs at h <;> simp only [Option.some.injEq, Prod.mk.injEq] at h <;>
    obtain ⟨rfl, rfl, rfl⟩ := h <;> omega

/-- What a decoding that is not the error of width 1 says of a string that
starts with a byte from 0x80 on: the rune has 2 to 4 bytes, all from 0x80 on
and all in the string; U+2028 and U+2029 are the bytes `E2 80 A8` and
`E2 80 A9`. -/
theorem DecodeRuneInString_valid (b : Nat) (rest : Bytes) (hb : ¬ b < 0x80)
    (hv : ¬ ((DecodeRuneInString (b :: rest)).1 = RuneError
      ∧ (DecodeRuneInString (b :: rest)).2 = 1)) :
    2 ≤ (DecodeRuneInString (b :: rest)).2
      ∧ (DecodeRuneInString (b :: rest)).2 ≤ (b :: rest).length
      ∧ (∀ x ∈ (b :: rest).take (DecodeRuneInString (b :: rest)).2, 0x80 ≤ x)
      ∧ ((DecodeRuneInString (b :: rest)).1 = 0x2028 →
          (b :: rest).take (DecodeRuneInString (b :: rest)).2 = [0xE2, 0x80, 0xA8])
      ∧ ((DecodeRuneInString (b :: rest)).1 = 0x2029 →
          (b :: rest).take (DecodeRuneInString (b :: rest)).2 = [0xE2, 0x80, 0xA9]) := by
  unfold DecodeRuneInString at hv ⊢
  simp only [hb, if_false] at hv ⊢
  cases hf : first b with
  | none => simp [hf] at hv
  | some t =>
    obtain ⟨sz, lo, hi⟩ := t
    obtain ⟨hlo, hhi, hsz⟩ := first_some b sz lo hi hf
    simp only [hf] at hv ⊢
    rcases hsz with ⟨rfl, hb1, hb2⟩ | ⟨rfl, hb1, hb2⟩ | ⟨rfl, hb1, hb2, hb3⟩
    · -- two bytes
      cases rest with
      | nil => simp at hv
      | cons s1 rest1 =>
        by_cases h1 : s1 < lo ∨ hi < s1
        · simp [h1] at hv
        · simp only [List.length_cons, h1, if_false, if_true,
            show ¬ (rest1.length + 1 + 1 < 2) by omega] at hv ⊢
          refine ⟨le_refl _, by omega, ?_, ?_, ?_⟩
          · intro x hx
            simp only [List.take_succ_cons, List.take_zero, List.mem_cons, List.mem_nil_iff,
              or_false] at hx
            rcases hx with rfl | rfl <;> omega
          · intro h
            omega
          · intro h
            omega
    · -- three bytes
      cases rest with
      | nil => simp at hv
      | cons s1 rest1 =>
        cases rest1 with
        | nil => simp at hv
        | cons s2 rest2 =>
          by_cases h1 : s1 < lo ∨ hi < s1
          · simp [h1] at hv
          · by_cases h2 : s2 < 0x80 ∨ 0xBF < s2
            · simp [h1, h2] at hv
            · simp only [List.length_cons, h1, h2, if_false, if_true,
                show ¬ (rest2.length + 1 + 1 + 1 < 3) by omega,
                show ¬ ((3 : Nat) = 2) by omega] at hv ⊢
              refine ⟨by omega, by omega, ?_, ?_, ?_⟩
              · intro x hx
                simp only [List.take_succ_cons, List.take_zero, List.mem_cons,
                  List.mem_nil_iff, or_false] at hx
                rcases hx with rfl | rfl | rfl <;> omega
              · intro h
                have : b = 0xE2 ∧ s1 = 0x80 ∧ s2 = 0xA8 := by omega
                obtain ⟨rfl, rfl, rfl⟩ := this
                rfl
              · intro h
                have : b = 0xE2 ∧ s1 = 0x80 ∧ s2 = 0xA9 := by omega
                obtain ⟨rfl, rfl, rfl⟩ := this
                rfl
    · -- four bytes
      cases rest with
      | nil => simp at hv
      | cons s1 rest1 =>
        cases rest1 with
        | nil => simp at hv
        | cons s2 rest2 =>
          cases rest2 with
          | nil => simp at hv
          | cons s3 rest3 =>
            by_cases h1 : s1 < lo ∨ hi < s1
            · simp [h1] at hv
            · by_cases h2 : s2 < 0x80 ∨ 0xBF < s2
              · simp [h1, h2] at hv
              · by_cases h3 : s3 < 0x80 ∨ 0xBF < s3
                · simp [h1, h2, h3] at hv
                · simp only [List.length_cons, h1, h2, h3, if_false, if_true,
                    show ¬ (rest3.length + 1 + 1 + 1 + 1 < 4) by omega,
                    show ¬ ((4 : Nat) = 2) by omega, show ¬ ((4 : Nat) = 3) by omega] at hv ⊢
                  refine ⟨by omega, by omega, ?_, ?_, ?_⟩
                  · intro x hx
                    simp only [List.take_succ_cons, List.take_zero, List.mem_cons,
                      List.mem_nil_iff, or_false] at hx
                    rcases hx with rfl | rfl | rfl | rfl <;> omega
                  · intro h
                    omega
                  · intro h
                    omega

/-- The encoder's loop does not run out of steps: with at least one step per
byte, the number of steps allowed makes no difference. -/
theorem encodeString_fuel (f g : Nat) (s : Bytes) (hf : s.length ≤ f) (hg : s.length ≤ g) :
    encodeString f s = encodeString g s := by
  induction f generalizing g s with
  | zero =>
    cases s with
    | nil => cases g <;> rfl
    | cons b rest => simp at hf
  | succ f ih =>
    cases s with
    | nil => cases g <;> rfl
    | cons b rest =>
      cases g with
      | zero => simp at hg
      | succ g =>
        simp only [List.length_cons, Nat.add_le_add_iff_right] at hf hg
        have hd : ∀ k, (rest.drop k).length ≤ f ∧ (rest.drop k).length ≤ g := by
          intro k
          have := List.length_drop k rest
          omega
        simp only [encodeString]
        rw [ih g rest hf hg, ih g _ (hd _).1 (hd _).2]

/-- Decoding the encoding of a valid string gives the string. -/
theorem unquoteBody_encodeString (fuel : Nat) (s : Bytes) (hlen : s.length ≤ fuel)
    (hvalid : validString fuel s = true) :
    unquoteBody (encodeString fuel s ++ [0x22]) = some s := by
  induction fuel generalizing s with
  | zero =>
    cases s with
    | nil => rfl
    | cons b rest => simp at hlen
  | succ fuel ih =>
    cases s with
    | nil => rfl
    | cons b rest =>
      simp only [List.length_cons, Nat.add_le_add_iff_right] at hlen
      simp only [validString] at hvalid
      simp only [encodeString]
      by_cases hb : b < 0x80
      · simp only [hb, if_true] at hvalid ⊢
        rw [List.append_assoc, unquoteBody_escapeByte b hb, ih rest hlen hvalid]
        rfl
      · simp only [hb, if_false] at hvalid ⊢
        by_cases hv : (DecodeRuneInString (b :: rest)).1 = RuneError
            ∧ (DecodeRuneInString (b :: rest)).2 = 1
        · simp [hv] at hvalid
        · simp only [hv, if_false] at hvalid ⊢
          obtain ⟨h2, hle, hge, h2028, h2029⟩ := DecodeRuneInString_valid b rest hb hv
          have hdrop : rest.drop ((DecodeRuneInString (b :: rest)).2 - 1)
              = (b :: rest).drop (DecodeRuneInString (b :: rest)).2 := by
            obtain ⟨k, hk⟩ : ∃ k, (DecodeRuneInString (b :: rest)).2 = k + 1 :=
              ⟨(DecodeRuneInString (b :: rest)).2 - 1, by omega⟩
            rw [hk]
            rfl
          have hrec := ih (rest.drop ((DecodeRuneInString (b :: rest)).2 - 1))
            (by have := List.length_drop ((DecodeRuneInString (b :: rest)).2 - 1) rest; omega)
            hvalid
          have hsplit : (b :: rest).take (DecodeRuneInString (b :: rest)).2
              ++ rest.drop ((DecodeRuneInString (b :: rest)).2 - 1) = b :: rest := by
            rw [hdrop]
            exact List.take_append_drop _ _
          by_cases hls : (DecodeRuneInString (b :: rest)).1 = 0x2028
              ∨ (DecodeRuneInString (b :: rest)).1 = 0x2029
          · simp only [hls, if_true]
            rcases hls with h | h
            · rw [h2028 h] at hsplit
              refine Eq.trans ?_ (congrArg some hsplit)
              rw [h]
              simp [unquoteBody, hexVal, hex, EncodeRune, hrec]
            · rw [h2029 h] at hsplit
              refine Eq.trans ?_ (congrArg some hsplit)
              rw [h]
              simp [unquoteBody, hexVal, hex, EncodeRune, hrec]
          · simp only [hls, if_false]
            rw [List.append_assoc, unquoteBody_copy _ _ hge, hrec]
            exact congrArg some hsplit

/-- C32 (`jsonEscape` is deterministic and completely reversible): the code
does not keep the contract its comment states.  The strings of the one byte
`0xff` and of the one byte `0xfe` are not valid UTF-8: `jsonEscape` writes the
replacement character for both, so it gives the same text for the two
different strings, and decoding that text gives the three bytes of U+FFFD,
not the string. -/
theorem C32_jsonEscape_not_injective :
    ([0xff] : Bytes) ≠ [0xfe]
      ∧ jsonEscape [0xff] = jsonEscape [0xfe]
      ∧ jsonEscape [0xff] = [0x22, 0x5c, 0x75, 0x66, 0x66, 0x66, 0x64, 0x22]
      ∧ Unmarshal (jsonEscape [0xff]) = some [0xEF, 0xBF, 0xBD] := by
  decide

/-- Where `jsonEscape` is reversible: for every string `s` that is valid UTF-8,
JSON-decoding `jsonEscape s` yields `s`; so on the strings that are valid
UTF-8 `jsonEscape` is injective. -/
theorem jsonEscape_reversible_of_valid (s t : Bytes) (hs : ValidString s = true)
    (ht : ValidString t = true) :
    Unmarshal (jsonEscape s) = some s
      ∧ (jsonEscape s = jsonEscape t → s = t) := by
  have key : ∀ u : Bytes, ValidString u = true → Unmarshal (jsonEscape u) = some u := by
    intro u hu
    simp only [jsonEscape, Marshal, List.singleton_append, List.cons_append, Unmarshal, if_true]
    exact unquoteBody_encodeString u.length u (le_refl _) hu
  refine ⟨key s hs, ?_⟩
  intro h
  have h1 := key s hs
  rw [h, key t ht] at h1
  exact (Option.some.inj h1).symm

/-- An example of the round trip: the string `a`, U+2028, `<`, newline, the
byte 1, `e` with acute accent, and a rune of four bytes. -/
theorem jsonEscape_reversible_example :
    Unmarshal (jsonEscape [0x61, 0xE2, 0x80, 0xA8, 0x3c, 0x0a, 0x01, 0xc3, 0xa9, 0xf0, 0x9f,
        0x98, 0x80])
      = some [0x61, 0xE2, 0x80, 0xA8, 0x3c, 0x0a, 0x01, 0xc3, 0xa9, 0xf0, 0x9f, 0x98, 0x80] :=
  (jsonEscape_reversible_of_valid
    [0x61, 0xE2, 0x80, 0xA8, 0x3c, 0x0a, 0x01, 0xc3, 0xa9, 0xf0, 0x9f, 0x98, 0x80] []
    (by decide) (by decide)).1

end Types

end Lino
